import Mathlib

/-!
# particle-gallery: particle store, emitter and physics integrator

A shallow embedding of `src/bouncing_ball.cpp` and `src/helper.hpp`.

Conventions of the embedding:

* `float` and `double` values are elements of an arbitrary linearly ordered field `F`
  with a floor function (`ℚ` or `ℝ` in the concrete instances). The value a `float` or
  a `double` holds for a quantity is given by `toFloat` and `toDouble`: IEEE 754
  binary32 and binary64, rounding to nearest with ties to even and gradual underflow;
  overflow, the infinities and NaN are not modelled.
* The rounding is applied in `random`, `range`, `spawnPosition`, `numToSpawn` and in
  the test of the reflection check on Z, where the `double` difference
  `particles[i][2] - 100.0` decides the branch. The other arithmetic of the physics
  update (the integration of the position, the friction, the constants `99.9`, `0.1`,
  `-0.7`, `-0.3` and `GRAVITY`) is exact.
* The file-scope arrays (`particles`, `colors`, ...) are columns `Int → _`,
  written with `Function.update`; `numParticles` is an `Int`, as in the source.
* `rand()` is a stream `Nat → Nat` of its successive (non-negative) results,
  threaded through the functions that draw from it.
* `sqrt`, `sin`, `cos` and `atan` of the C library are the fields of `Libm`.
-/

namespace ParticleGallery

variable {F : Type}

/-! ## Data model -/

/-- The three `float` components `[0]`, `[1]`, `[2]` of a `Vec3f`. -/
@[ext]
structure Vec3f (F : Type) where
  x : F
  y : F
  z : F

/-- One row of a `float [..][4]` array: the components `[0]` .. `[3]`. -/
structure Float4 (F : Type) where
  c0 : F
  c1 : F
  c2 : F
  c3 : F

/-- The value of `MAXPARTICLES`. -/
def MAXPARTICLES : Int := 300000

/-- The value of `GRAVITY`. -/
def GRAVITY [LinearOrderedField F] [FloorRing F] : F := 9.8

/-- The struct `Particle`: the property ranges of an emitter; index `0` of a range is its
minimum and index `1` its maximum. -/
structure Particle (F : Type) where
  colorStartRange : Fin 2 → Float4 F
  colorEndRange : Fin 2 → Float4 F
  colorSpeedRange : Fin 2 → F
  lifetimeRange : Fin 2 → F
  sizeRange : Fin 2 → F
  blurRange : Fin 2 → F
  velocityRange : Fin 2 → Vec3f F
  lighting : F
  force : Int

/-- The struct `Shape`; the three sizes are `double` members. -/
structure Shape (F : Type) where
  name : String
  sizeX : F
  sizeY : F
  sizeZ : F

/-- The struct `Emitter`; `genRate` is a `double` member, the vectors are `Vec3f`. -/
structure Emitter (F : Type) where
  shape : Shape F
  properties : Particle F
  genRate : F
  position : Vec3f F
  velocity : Vec3f F
  direction : Vec3f F

/-- The particle store: the global `numParticles` and the twelve attribute arrays. -/
structure Store (F : Type) where
  numParticles : Int
  particles : Int → Vec3f F
  colors : Int → Float4 F
  lightings : Int → F
  sizes : Int → F
  blurs : Int → F
  velocities : Int → Vec3f F
  colorChanges : Int → Float4 F
  colorSpeeds : Int → F
  lifetimes : Int → F
  lifeLimits : Int → F
  forces : Int → Int
  grounded : Int → Bool

/-- All attributes of one particle, read across the columns of the store. -/
@[ext]
structure Row (F : Type) where
  position : Vec3f F
  velocity : Vec3f F
  startColor : Float4 F
  endColor : Float4 F
  colorSpeed : F
  lighting : F
  size : F
  blur : F
  age : F
  lifeLimit : F
  force : Int
  grounded : Bool

/-- The row of the store at slot `j`. -/
def Store.rowAt (s : Store F) (j : Int) : Row F :=
  { position := s.particles j
    velocity := s.velocities j
    startColor := s.colors j
    endColor := s.colorChanges j
    colorSpeed := s.colorSpeeds j
    lighting := s.lightings j
    size := s.sizes j
    blur := s.blurs j
    age := s.lifetimes j
    lifeLimit := s.lifeLimits j
    force := s.forces j
    grounded := s.grounded j }

/-- The capacity invariant `0 <= numParticles <= MAXPARTICLES`. -/
def Store.InRange (s : Store F) : Prop :=
  0 ≤ s.numParticles ∧ s.numParticles ≤ MAXPARTICLES

instance (s : Store F) : Decidable s.InRange := by
  unfold Store.InRange
  infer_instance

/-! ## `kill` -/

/-- The function `kill(int index)`: every column but `grounded` gets, at `index`, its value
at `numParticles-1`; then `numParticles` is decremented. The source has no assignment to
`grounded[index]`. -/
def kill (s : Store F) (index : Int) : Store F :=
  let last := s.numParticles - 1
  { numParticles := s.numParticles - 1
    particles := Function.update s.particles index (s.particles last)
    colors := Function.update s.colors index
      ⟨(s.colors last).c0, (s.colors last).c1, (s.colors last).c2, (s.colors last).c3⟩
    lightings := Function.update s.lightings index (s.lightings last)
    sizes := Function.update s.sizes index (s.sizes last)
    blurs := Function.update s.blurs index (s.blurs last)
    velocities := Function.update s.velocities index (s.velocities last)
    colorChanges := Function.update s.colorChanges index
      ⟨(s.colorChanges last).c0, (s.colorChanges last).c1, (s.colorChanges last).c2,
        (s.colorChanges last).c3⟩
    colorSpeeds := Function.update s.colorSpeeds index (s.colorSpeeds last)
    lifetimes := Function.update s.lifetimes index (s.lifetimes last)
    lifeLimits := Function.update s.lifeLimits index (s.lifeLimits last)
    forces := Function.update s.forces index (s.forces last)
    grounded := s.grounded }

/-- A store of two live particles: slot 0 is grounded, slot 1 (the last live one) is
airborne; every other attribute is zero. -/
def twoParticleStore : Store ℚ :=
  { numParticles := 2
    particles := fun _ => ⟨0, 0, 0⟩
    colors := fun _ => ⟨0, 0, 0, 0⟩
    lightings := fun _ => 0
    sizes := fun _ => 0
    blurs := fun _ => 0
    velocities := fun _ => ⟨0, 0, 0⟩
    colorChanges := fun _ => ⟨0, 0, 0, 0⟩
    colorSpeeds := fun _ => 0
    lifetimes := fun _ => 0
    lifeLimits := fun _ => 0
    forces := fun _ => 1
    grounded := fun j => decide (j = 0) }

/-! ## Floating-point rounding -/

/-- Rounding to the nearest integer, ties to the even one. -/
def roundHalfEven [LinearOrderedField F] [FloorRing F] (v : F) : Int :=
  if v - (⌊v⌋ : F) < 1 / 2 then ⌊v⌋
  else if 1 / 2 < v - (⌊v⌋ : F) then ⌊v⌋ + 1
  else if ⌊v⌋ % 2 = 0 then ⌊v⌋ else ⌊v⌋ + 1

/-- The exponent of the unit in the last place of `v` in the binary format with `p`
significand bits and least normal exponent `emin` (below `2 ^ emin` the unit stays that of
the subnormal numbers). -/
def ulpExponent [LinearOrderedField F] [FloorRing F] (p : Nat) (emin : Int) (v : F) : Int :=
  max (Int.log 2 |v|) emin - ((p : Int) - 1)

/-- Rounding to the nearest value of the binary format, ties to even. The exponent range is
not bounded above: overflow to an infinity, and NaN, are not modelled. -/
def roundTo [LinearOrderedField F] [FloorRing F] (p : Nat) (emin : Int) (v : F) : F :=
  (roundHalfEven (v / (2 : F) ^ ulpExponent p emin v) : F) * (2 : F) ^ ulpExponent p emin v

/-- The value of a `float` holding `v`: IEEE 754 binary32. -/
def toFloat [LinearOrderedField F] [FloorRing F] (v : F) : F := roundTo 24 (-126) v

/-- The value of a `double` holding `v`: IEEE 754 binary64. -/
def toDouble [LinearOrderedField F] [FloorRing F] (v : F) : F := roundTo 53 (-1022) v

/-- The value is one a `float` can hold. -/
def IsFloat [LinearOrderedField F] [FloorRing F] (v : F) : Prop := toFloat v = v

/-- The value is one a `double` can hold. -/
def IsDouble [LinearOrderedField F] [FloorRing F] (v : F) : Prop := toDouble v = v

instance [LinearOrderedField F] [FloorRing F] (v : F) : Decidable (IsFloat v) := by
  unfold IsFloat
  infer_instance

instance [LinearOrderedField F] [FloorRing F] (v : F) : Decidable (IsDouble v) := by
  unfold IsDouble
  infer_instance

/-! ## `helper.hpp`: `random`, `range`, `sgn` -/

/-- The stream of the successive results of `rand()`; each is a non-negative `int`. -/
abbrev Rand := Nat → Nat

/-- The stream left after `k` calls of `rand()`. -/
def Rand.drop (k : Nat) (g : Rand) : Rand := fun n => g (n + k)

/-- The stream whose first result is `r` and whose later results are those of `g`. -/
def Rand.cons (r : Nat) (g : Rand) : Rand := fun n => if n = 0 then r else g (n - 1)

/-- The function `random(int max, bool negative)`, given the result `r` of its call of
`rand()`: the quotient of two `double` values, a `double`. In the `negative` branch `%`
and `*` bind tighter than `-`, as written. -/
def random [LinearOrderedField F] [FloorRing F] (max : Nat) (negative : Bool) (r : Nat) : F :=
  if negative then
    toDouble (((((r % max * 2 : Nat) : Int) - (max : Int) : Int) : F) / (max : F))
  else
    toDouble (((r % max : Nat) : F) / (max : F))

/-- The function `range(float min, float max)`, given the result `r` of its call of
`rand()`: `max - min` is a `float` difference, its product with the `double` draw and the
sum of `min` and that product are `double` values, and the value returned is a `float`. -/
def range [LinearOrderedField F] [FloorRing F] (min max : F) (r : Nat) : F :=
  toFloat (toDouble (min + toDouble (toFloat (max - min) * random 1000 false r)))

/-- The template `sgn`: `(T(0) < val) - (val < T(0))`. -/
def sgn [LinearOrderedField F] [FloorRing F] (val : F) : Int :=
  (if 0 < val then 1 else 0) - (if val < 0 then 1 else 0)

/-- The conversion `(int)` of a floating value: truncation toward zero. -/
def toInt [LinearOrderedField F] [FloorRing F] (v : F) : Int :=
  if 0 ≤ v then ⌊v⌋ else ⌈v⌉

/-- The functions of the C mathematics library the program calls: each field gives the
value the call returns. -/
structure Libm (F : Type) where
  sqrt : F → F
  sin : F → F
  cos : F → F
  atan : F → F

/-! ## `spawnParticles` -/

/-- The spawn location computed by one pass of the loop of `spawnParticles`, with the
stream left after its draws. `PI` expands, unparenthesised, to `4.0*atan(1.0)`. The
products behind `radius` and `theta` are `double` values stored in a `float`; `sin` and
`cos` are called on the `float theta`, and their products with `radius` and the sums with
the emitter's coordinates are `float` operations. -/
def spawnPosition [LinearOrderedField F] [FloorRing F] (m : Libm F) (emitter : Emitter F)
    (g : Rand) : Vec3f F × Rand :=
  if emitter.shape.name = "disk" then
    let radius : F :=
      toFloat (toDouble (emitter.shape.sizeX * m.sqrt (random 10000 false (g 0))))
    let theta : F :=
      toFloat (toDouble (toDouble (2 * 4 * m.atan 1) * random 10000 false (g 1)))
    (⟨toFloat (toFloat (m.sin theta * radius) + emitter.position.x),
      emitter.position.y,
      toFloat (toFloat (m.cos theta * radius) + emitter.position.z)⟩, g.drop 2)
  else
    (⟨emitter.position.x, emitter.position.y, emitter.position.z⟩, g)

/-- One pass of the body of the loop of `spawnParticles` below the capacity test: the
assignments to slot `numParticles`, then `numParticles++`. The fifteen calls of `range`
draw in source order. The source has no assignment to `grounded[numParticles]`. -/
def spawnOne [LinearOrderedField F] [FloorRing F] (m : Libm F) (emitter : Emitter F) (g : Rand)
    (s : Store F) : Store F × Rand :=
  let n := s.numParticles
  let p := emitter.properties
  let loc := spawnPosition m emitter g
  let h := loc.2
  ({ numParticles := n + 1
     particles := Function.update s.particles n loc.1
     velocities := Function.update s.velocities n
       ⟨range (p.velocityRange 0).x (p.velocityRange 1).x (h 0),
        range (p.velocityRange 0).y (p.velocityRange 1).y (h 1),
        range (p.velocityRange 0).z (p.velocityRange 1).z (h 2)⟩
     colors := Function.update s.colors n
       ⟨range (p.colorStartRange 0).c0 (p.colorStartRange 1).c0 (h 3),
        range (p.colorStartRange 0).c1 (p.colorStartRange 1).c1 (h 4),
        range (p.colorStartRange 0).c2 (p.colorStartRange 1).c2 (h 5),
        range (p.colorStartRange 0).c3 (p.colorStartRange 1).c3 (h 6)⟩
     colorChanges := Function.update s.colorChanges n
       ⟨range (p.colorEndRange 0).c0 (p.colorEndRange 1).c0 (h 7),
        range (p.colorEndRange 0).c1 (p.colorEndRange 1).c1 (h 8),
        range (p.colorEndRange 0).c2 (p.colorEndRange 1).c2 (h 9),
        range (p.colorEndRange 0).c3 (p.colorEndRange 1).c3 (h 10)⟩
     sizes := Function.update s.sizes n (range (p.sizeRange 0) (p.sizeRange 1) (h 11))
     blurs := Function.update s.blurs n (range (p.blurRange 0) (p.blurRange 1) (h 12))
     colorSpeeds := Function.update s.colorSpeeds n
       (range (p.colorSpeedRange 0) (p.colorSpeedRange 1) (h 13))
     lifetimes := Function.update s.lifetimes n 0
     lifeLimits := Function.update s.lifeLimits n
       (range (p.lifetimeRange 0) (p.lifetimeRange 1) (h 14))
     lightings := Function.update s.lightings n p.lighting
     forces := Function.update s.forces n p.force
     grounded := s.grounded }, h.drop 15)

/-- The loop `for (int i = 0; i < numToSpawn; i++)` of `spawnParticles` with `k` passes
left: a pass made at capacity breaks out of the loop. -/
def spawnLoop [LinearOrderedField F] [FloorRing F] (m : Libm F) (emitter : Emitter F) :
    Nat → Rand → Store F → Store F × Rand
  | 0, g, s => (s, g)
  | k + 1, g, s =>
    if s.numParticles ≥ MAXPARTICLES then (s, g)
    else spawnLoop m emitter k (spawnOne m emitter g s).2 (spawnOne m emitter g s).1

/-- The value of `numToSpawn` when the loop of `spawnParticles` starts, given the result
`r` of the call of `rand()` made by `random(100, false)`. The product
`emitter.genRate * dt` of two `double` values is stored in the `float numToSpawn`, and
the difference of that and its integer part in the `float fraction`. The whole numbers
stored after that are kept as integers: those below `2^24` are `float` values, and a pass
of the loop made at capacity ends it. -/
def numToSpawn [LinearOrderedField F] [FloorRing F] (emitter : Emitter F) (dt : F)
    (r : Nat) : Int :=
  let numToSpawn : F := toFloat (toDouble (emitter.genRate * dt))
  let fraction : F := toFloat (numToSpawn - (toInt numToSpawn : F))
  let whole : Int := toInt numToSpawn
  if random 100 false r < fraction then whole + 1 else whole

/-- The function `spawnParticles(Emitter emitter, double dt)`. The loop counter runs from
`0` while below `numToSpawn`, that is `numToSpawn.toNat` passes at most. -/
def spawnParticles [LinearOrderedField F] [FloorRing F] (m : Libm F) (emitter : Emitter F)
    (dt : F) (g : Rand) (s : Store F) : Store F × Rand :=
  spawnLoop m emitter (numToSpawn emitter dt (g 0)).toNat (g.drop 1) s

/-! ## The physics update of `main` -/

/-- The reflection check on X, the same in both branches of the update: given the
integrated `particles[i][0]` and `velocities[i][0]`, the values the check leaves. -/
def reflectX [LinearOrderedField F] [FloorRing F] (x vx : F) : F × F :=
  if |x| ≥ 100 then ((sgn x : F) * 99.9, vx * (-0.7)) else (x, vx)

/-- The reflection check on Z, the same in both branches of the update; the difference
`particles[i][2] - 100.0` is a `double`, and `sgn` is applied to the coordinate itself. -/
def reflectZ [LinearOrderedField F] [FloorRing F] (z vz : F) : F × F :=
  if |toDouble (z - 100)| ≥ 100 then (100 + (sgn z : F) * 99.9, vz * (-0.7)) else (z, vz)

/-- The ground test of the airborne branch: given the integrated `particles[i][1]`,
`velocities[i][1]` and `forces[i]`, the height, vertical velocity and `grounded[i]` it
leaves. -/
def groundContact [LinearOrderedField F] [FloorRing F] (dt y vy : F) (force : Int) : F × F × Bool :=
  if y < 0.1 then
    if |vy * (-0.3) * dt| < dt * dt * GRAVITY then (0.1, 0, true)
    else (0.1, vy * (-0.3), false)
  else if force = 1 then (y, vy - GRAVITY * dt, false)
  else (y, vy, false)

/-- The branch `if (!grounded[i])` of the update. -/
def stepAirborne [LinearOrderedField F] [FloorRing F] (dt : F) (r : Row F) : Row F :=
  let x := r.position.x + r.velocity.x * dt
  let y := r.position.y + (r.velocity.y * dt - dt * dt * GRAVITY / 2)
  let z := r.position.z + r.velocity.z * dt
  let rx := reflectX x r.velocity.x
  let gy := groundContact dt y r.velocity.y r.force
  let rz := reflectZ z r.velocity.z
  { r with
    position := ⟨rx.1, gy.1, rz.1⟩
    velocity := ⟨rx.2, gy.2.1, rz.2⟩
    grounded := gy.2.2 }

/-- The friction update `v -= sgn(v)*2*dt` of the grounded branch. -/
def friction [LinearOrderedField F] [FloorRing F] (dt v : F) : F :=
  v - ((sgn v * 2 : Int) : F) * dt

/-- The `else` branch (grounded particle) of the update. -/
def stepGrounded [LinearOrderedField F] [FloorRing F] (m : Libm F) (dt : F) (r : Row F) : Row F :=
  let x := r.position.x + r.velocity.x * dt
  let z := r.position.z + r.velocity.z * dt
  let rx := reflectX x r.velocity.x
  let rz := reflectZ z r.velocity.z
  let vx := friction dt rx.2
  let vz := friction dt rz.2
  { r with
    position := ⟨rx.1, r.position.y, rz.1⟩
    velocity := if m.sqrt (vx * vx + vz * vz) < dt then ⟨0, 0, 0⟩
      else ⟨vx, r.velocity.y, vz⟩ }

/-- The body of the update loop, on the attributes of slot `i`. -/
def stepRow [LinearOrderedField F] [FloorRing F] (m : Libm F) (dt : F) (r : Row F) : Row F :=
  let r1 : Row F := { r with age := r.age + dt }
  if !r1.grounded then stepAirborne dt r1 else stepGrounded m dt r1

/-- One pass of the update loop: the body writes `particles[i]`, `velocities[i]`,
`lifetimes[i]` and `grounded[i]` and no other entry. -/
def stepAt [LinearOrderedField F] [FloorRing F] (m : Libm F) (dt : F) (s : Store F) (i : Int) :
    Store F :=
  let r := stepRow m dt (s.rowAt i)
  { s with
    particles := Function.update s.particles i r.position
    velocities := Function.update s.velocities i r.velocity
    lifetimes := Function.update s.lifetimes i r.age
    grounded := Function.update s.grounded i r.grounded }

/-- The loop `for (i = 0; i < numParticles; i++)` of the update, with `k` passes left and
the counter at `i`. -/
def integrateLoop [LinearOrderedField F] [FloorRing F] (m : Libm F) (dt : F) :
    Nat → Int → Store F → Store F
  | 0, _, s => s
  | k + 1, i, s => integrateLoop m dt k (i + 1) (stepAt m dt s i)

/-- The physics update of one frame (the loop over all live particles). -/
def integrate [LinearOrderedField F] [FloorRing F] (m : Libm F) (dt : F) (s : Store F) : Store F :=
  integrateLoop m dt s.numParticles.toNat 0 s

/-! ## Sequences of store operations -/

/-- A call on the store: `spawnParticles(emitter, dt)` or `kill(index)`. -/
inductive Op (F : Type) where
  | spawn (emitter : Emitter F) (dt : F)
  | kill (index : Int)

/-- The effect of one call on the store and on the stream of `rand()`. -/
def applyOp [LinearOrderedField F] [FloorRing F] (m : Libm F) :
    Op F → Store F × Rand → Store F × Rand
  | Op.spawn emitter dt, st => spawnParticles m emitter dt st.2 st.1
  | Op.kill index, st => (kill st.1 index, st.2)

/-- The effect of a sequence of calls, made in order. -/
def runOps [LinearOrderedField F] [FloorRing F] (m : Libm F) :
    List (Op F) → Store F × Rand → Store F × Rand
  | [], st => st
  | op :: ops, st => runOps m ops (applyOp m op st)

/-- The precondition of one call: the index given to `kill` is that of a live particle. -/
def Op.Admissible (s : Store F) : Op F → Prop
  | Op.spawn _ _ => True
  | Op.kill index => 0 ≤ index ∧ index < s.numParticles

instance (s : Store F) (op : Op F) : Decidable (op.Admissible s) := by
  cases op <;> unfold Op.Admissible <;> infer_instance

/-- Every call of the sequence meets its precondition at the time it is made. -/
def OpsAdmissible [LinearOrderedField F] [FloorRing F] (m : Libm F) :
    List (Op F) → Store F × Rand → Prop
  | [], _ => True
  | op :: ops, st => op.Admissible st.1 ∧ OpsAdmissible m ops (applyOp m op st)

/-! ## Quantities the statements about `spawnParticles` refer to -/

/-- The number of calls of `rand()` made by one pass of the loop of `spawnParticles`: two
for the location on a disk, one for each of the fifteen calls of `range`. -/
def drawsPerPass (emitter : Emitter F) : Nat :=
  if emitter.shape.name = "disk" then 17 else 15

/-- The number of particles a call of `spawnParticles` appends. -/
def spawnCount [LinearOrderedField F] [FloorRing F] (m : Libm F) (emitter : Emitter F)
    (dt : F) (g : Rand) (s : Store F) : Int :=
  (spawnParticles m emitter dt g s).1.numParticles - s.numParticles

/-- An emitter at the origin whose shape is not a disk: one particle per unit of time,
every range `[0, 1]`, lighting `1`, gravity on. -/
def pointEmitter [LinearOrderedField F] [FloorRing F] : Emitter F :=
  { shape := ⟨"point", 0, 0, 0⟩
    properties :=
      { colorStartRange := fun i => if i = 0 then ⟨0, 0, 0, 0⟩ else ⟨1, 1, 1, 1⟩
        colorEndRange := fun i => if i = 0 then ⟨0, 0, 0, 0⟩ else ⟨1, 1, 1, 1⟩
        colorSpeedRange := fun i => if i = 0 then 0 else 1
        lifetimeRange := fun i => if i = 0 then 0 else 1
        sizeRange := fun i => if i = 0 then 0 else 1
        blurRange := fun i => if i = 0 then 0 else 1
        velocityRange := fun i => if i = 0 then ⟨0, 0, 0⟩ else ⟨1, 1, 1⟩
        lighting := 1
        force := 1 }
    genRate := 1
    position := ⟨0, 0, 0⟩
    velocity := ⟨0, 0, 0⟩
    direction := ⟨0, 0, 0⟩ }

/-- A store with `n` live particles, all at `position` with the given `velocity`, and
with the given `grounded` column; the other attributes are zero, gravity on. -/
def uniformStore [LinearOrderedField F] [FloorRing F] (n : Int) (position velocity : Vec3f F)
    (grounded : Int → Bool) : Store F :=
  { numParticles := n
    particles := fun _ => position
    colors := fun _ => ⟨0, 0, 0, 0⟩
    lightings := fun _ => 0
    sizes := fun _ => 0
    blurs := fun _ => 0
    velocities := fun _ => velocity
    colorChanges := fun _ => ⟨0, 0, 0, 0⟩
    colorSpeeds := fun _ => 0
    lifetimes := fun _ => 0
    lifeLimits := fun _ => 0
    forces := fun _ => 1
    grounded := grounded }

/-- The value the `float numToSpawn` of `spawnParticles` is initialised with: the `double`
product `emitter.genRate * dt`, stored in a `float`. -/
def storedExpected [LinearOrderedField F] [FloorRing F] (emitter : Emitter F) (dt : F) : F :=
  toFloat (toDouble (emitter.genRate * dt))

/-- The count of appended particles as the specification words it, for a given value of
`expected`: `floor(expected)`, plus one when the draw is below
`fraction = expected - floor(expected)`; `r` is the result of `rand()` behind the draw
`random(100, false)`. -/
def statedCount [LinearOrderedField F] [FloorRing F] (expected : F) (r : Nat) : Int :=
  ⌊expected⌋ + (if random 100 false r < expected - (⌊expected⌋ : F) then 1 else 0)

/-- The pair `lo`, `hi` is a range of `float` endpoints with `lo <= hi`, of a width below
`2^127`, so that the `float` difference `hi - lo` does not overflow. -/
def FloatRange [LinearOrderedField F] [FloorRing F] (lo hi : F) : Prop :=
  IsFloat lo ∧ IsFloat hi ∧ lo ≤ hi ∧ hi - lo < 2 ^ 127

instance [LinearOrderedField F] [FloorRing F] (lo hi : F) : Decidable (FloatRange lo hi) := by
  unfold FloatRange
  infer_instance

/-- Every range of the emitter's particle properties has `float` endpoints, as the struct
`Particle` declares them, with its minimum (index `0`) no larger than its maximum
(index `1`) and a width below `2^127`. -/
def Particle.RangesValid [LinearOrderedField F] [FloorRing F] (p : Particle F) : Prop :=
  (FloatRange (p.velocityRange 0).x (p.velocityRange 1).x ∧
    FloatRange (p.velocityRange 0).y (p.velocityRange 1).y ∧
    FloatRange (p.velocityRange 0).z (p.velocityRange 1).z) ∧
  (FloatRange (p.colorStartRange 0).c0 (p.colorStartRange 1).c0 ∧
    FloatRange (p.colorStartRange 0).c1 (p.colorStartRange 1).c1 ∧
    FloatRange (p.colorStartRange 0).c2 (p.colorStartRange 1).c2 ∧
    FloatRange (p.colorStartRange 0).c3 (p.colorStartRange 1).c3) ∧
  (FloatRange (p.colorEndRange 0).c0 (p.colorEndRange 1).c0 ∧
    FloatRange (p.colorEndRange 0).c1 (p.colorEndRange 1).c1 ∧
    FloatRange (p.colorEndRange 0).c2 (p.colorEndRange 1).c2 ∧
    FloatRange (p.colorEndRange 0).c3 (p.colorEndRange 1).c3) ∧
  FloatRange (p.sizeRange 0) (p.sizeRange 1) ∧
  FloatRange (p.blurRange 0) (p.blurRange 1) ∧
  FloatRange (p.colorSpeedRange 0) (p.colorSpeedRange 1) ∧
  FloatRange (p.lifetimeRange 0) (p.lifetimeRange 1)

/-- The value `v` lies in the closed interval `[lo, hi]`. -/
def Within [LinearOrderedField F] [FloorRing F] (lo hi v : F) : Prop := lo ≤ v ∧ v ≤ hi

instance [LinearOrderedField F] [FloorRing F] (lo hi v : F) : Decidable (Within lo hi v) := by
  unfold Within
  infer_instance

/-- Every ranged attribute of the row lies within the range configured for it. -/
def Row.WithinRanges [LinearOrderedField F] [FloorRing F] (p : Particle F) (r : Row F) : Prop :=
  (Within (p.velocityRange 0).x (p.velocityRange 1).x r.velocity.x ∧
    Within (p.velocityRange 0).y (p.velocityRange 1).y r.velocity.y ∧
    Within (p.velocityRange 0).z (p.velocityRange 1).z r.velocity.z) ∧
  (Within (p.colorStartRange 0).c0 (p.colorStartRange 1).c0 r.startColor.c0 ∧
    Within (p.colorStartRange 0).c1 (p.colorStartRange 1).c1 r.startColor.c1 ∧
    Within (p.colorStartRange 0).c2 (p.colorStartRange 1).c2 r.startColor.c2 ∧
    Within (p.colorStartRange 0).c3 (p.colorStartRange 1).c3 r.startColor.c3) ∧
  (Within (p.colorEndRange 0).c0 (p.colorEndRange 1).c0 r.endColor.c0 ∧
    Within (p.colorEndRange 0).c1 (p.colorEndRange 1).c1 r.endColor.c1 ∧
    Within (p.colorEndRange 0).c2 (p.colorEndRange 1).c2 r.endColor.c2 ∧
    Within (p.colorEndRange 0).c3 (p.colorEndRange 1).c3 r.endColor.c3) ∧
  Within (p.sizeRange 0) (p.sizeRange 1) r.size ∧
  Within (p.blurRange 0) (p.blurRange 1) r.blur ∧
  Within (p.colorSpeedRange 0) (p.colorSpeedRange 1) r.colorSpeed ∧
  Within (p.lifetimeRange 0) (p.lifetimeRange 1) r.lifeLimit

/-- Among the 100 values `0..99` of `rand() % 100` behind the draw `random(100, false)`,
the number for which the call of `spawnParticles` appends exactly `c` particles; the
later results of `rand()` are those of `g`. -/
def drawsSpawning [LinearOrderedField F] [FloorRing F] (m : Libm F) (emitter : Emitter F)
    (dt : F) (g : Rand) (s : Store F) (c : Int) : Nat :=
  ((Finset.range 100).filter
    (fun k => spawnCount m emitter dt (Rand.cons k g) s = c)).card

/-- The mean of the number of particles `spawnParticles` appends, over the 100 equally
likely values `0..99` of `rand() % 100` behind the draw `random(100, false)`. -/
def meanSpawned [LinearOrderedField F] [FloorRing F] (m : Libm F) (emitter : Emitter F)
    (dt : F) (g : Rand) (s : Store F) : F :=
  (∑ k in Finset.range 100, ((spawnCount m emitter dt (Rand.cons k g) s : Int) : F)) / 100

instance [LinearOrderedField F] [FloorRing F] (p : Particle F) : Decidable p.RangesValid := by
  unfold Particle.RangesValid
  infer_instance

instance [LinearOrderedField F] [FloorRing F] (p : Particle F) (r : Row F) :
    Decidable (Row.WithinRanges p r) := by
  unfold Row.WithinRanges
  infer_instance

/-! ## Several steps of the update on one particle -/

/-- The body of the update loop applied to the same slot in successive frames, with the
time steps of the frames in order. -/
def stepRows [LinearOrderedField F] [FloorRing F] (m : Libm F) : List F → Row F → Row F
  | [], r => r
  | dt :: dts, r => stepRows m dts (stepRow m dt r)

/-! ## The buffer uploads and draw calls of a frame -/

/-- The buffer objects the particle attributes are uploaded to. -/
inductive Buffer where
  | vbo_verts
  | vbo_colors
  | vbo_lightings
  | vbo_sizes
  | vbo_blurs
  deriving DecidableEq

/-- A call `glBufferSubData(GL_ARRAY_BUFFER, offset, size, data)` on the bound `buffer`,
with `offset` and `size` in bytes. -/
structure BufferSubData where
  buffer : Buffer
  offset : Int
  size : Int

/-- The size in bytes of one entry of the array uploaded to the buffer: `sizeof(Vec3f)`
(declared outside these sources) for `particles`, four `float` for a row of `colors`, one
`float` for the others. -/
def sizeofEntry (sizeofFloat sizeofVec3f : Int) : Buffer → Int
  | Buffer.vbo_verts => sizeofVec3f
  | Buffer.vbo_colors => 4 * sizeofFloat
  | Buffer.vbo_lightings => sizeofFloat
  | Buffer.vbo_sizes => sizeofFloat
  | Buffer.vbo_blurs => sizeofFloat

/-- The uploads at the end of the physics update of a frame, made only when not `paused`;
the size given for `blurs` is written with `sizeof(sizes[0])`. -/
def frameUploads (sizeofFloat sizeofVec3f : Int) (paused : Bool) (numParticles : Int) :
    List BufferSubData :=
  if paused then []
  else
    [⟨Buffer.vbo_verts, 0, sizeofVec3f * numParticles⟩,
     ⟨Buffer.vbo_colors, 0, 4 * sizeofFloat * numParticles⟩,
     ⟨Buffer.vbo_lightings, 0, sizeofFloat * numParticles⟩,
     ⟨Buffer.vbo_sizes, 0, sizeofFloat * numParticles⟩,
     ⟨Buffer.vbo_blurs, 0, sizeofFloat * numParticles⟩]

/-- The upload writes the whole of entry `k` of its array, the entries being `e` bytes
each. -/
def BufferSubData.covers (e : Int) (u : BufferSubData) (k : Int) : Prop :=
  u.offset ≤ e * k ∧ e * (k + 1) ≤ u.offset + u.size

/-- The primitive modes the program draws with. -/
inductive DrawMode where
  | GL_POINTS
  | GL_TRIANGLE_FAN
  deriving DecidableEq

/-- A call `glDrawArrays(mode, first, count)`. -/
structure DrawArrays where
  mode : DrawMode
  first : Int
  count : Int

/-- The call reads vertex index `v`: the indices read are `first, ..., first + count - 1`. -/
def DrawArrays.reads (d : DrawArrays) (v : Int) : Prop :=
  d.first ≤ v ∧ v < d.first + d.count

instance (d : DrawArrays) (v : Int) : Decidable (d.reads v) := by
  unfold DrawArrays.reads
  infer_instance

/-- The draw calls of the rendering step of a frame, in order: one point, the ground plane,
the opaque particles, and, when `numParticles > 1`, the translucent particles. -/
def frameDraws (numParticles : Int) : List DrawArrays :=
  [⟨DrawMode.GL_POINTS, 0, 1⟩,
   ⟨DrawMode.GL_TRIANGLE_FAN, MAXPARTICLES, 4⟩,
   ⟨DrawMode.GL_POINTS, 0, numParticles⟩] ++
    (if numParticles > 1 then [⟨DrawMode.GL_POINTS, 1, numParticles⟩] else [])

/-! ## `helper.hpp`: `Mat4x4` -/

/-- The class `Mat4x4`: the array `float m[16]`. -/
structure Mat4x4 (F : Type) where
  m : Fin 16 → F

/-- The method `make_identity`: entries 0, 5, 10 and 15 are `1`, the others `0`. -/
def Mat4x4.make_identity [LinearOrderedField F] [FloorRing F] (_self : Mat4x4 F) : Mat4x4 F :=
  ⟨fun i => if i = 0 ∨ i = 5 ∨ i = 10 ∨ i = 15 then 1 else 0⟩

/-- The method `make_scale`: `make_identity(); m[0] = x; m[5] = y; m[10] = x;`. -/
def Mat4x4.make_scale [LinearOrderedField F] [FloorRing F]
    (self : Mat4x4 F) (x y _z : F) : Mat4x4 F :=
  ⟨Function.update (Function.update (Function.update self.make_identity.m 0 x) 5 y) 10 x⟩

/-- The product `operator*(const Mat4x4 &m, const Vec3f &v)`. -/
def Mat4x4.mulVec [LinearOrderedField F] [FloorRing F] (m : Mat4x4 F) (v : Vec3f F) : Vec3f F :=
  ⟨m.m 0 * v.x + m.m 4 * v.y + m.m 8 * v.z,
   m.m 1 * v.x + m.m 5 * v.y + m.m 9 * v.z,
   m.m 2 * v.x + m.m 6 * v.y + m.m 10 * v.z⟩

/-! ## Theorems: rounding -/

theorem roundHalfEven_intCast [LinearOrderedField F] [FloorRing F]
    (n : Int) : roundHalfEven (n : F) = n := by
  simp [roundHalfEven]

theorem floor_le_roundHalfEven [LinearOrderedField F] [FloorRing F]
    (v : F) : ⌊v⌋ ≤ roundHalfEven v := by
  unfold roundHalfEven
  split_ifs <;> omega

theorem roundHalfEven_le_floor_add_one [LinearOrderedField F] [FloorRing F]
    (v : F) : roundHalfEven v ≤ ⌊v⌋ + 1 := by
  unfold roundHalfEven
  split_ifs <;> omega

theorem le_roundHalfEven [LinearOrderedField F] [FloorRing F]
    (n : Int) (v : F) (h : (n : F) ≤ v) : n ≤ roundHalfEven v :=
  le_trans (Int.le_floor.mpr h) (floor_le_roundHalfEven v)

theorem roundHalfEven_le [LinearOrderedField F] [FloorRing F]
    (n : Int) (v : F) (h : v ≤ (n : F)) : roundHalfEven v ≤ n := by
  rcases eq_or_lt_of_le h with heq | hlt
  · rw [heq, roundHalfEven_intCast]
  · have : ⌊v⌋ < n := Int.floor_lt.mpr hlt
    have := roundHalfEven_le_floor_add_one v
    omega

theorem roundHalfEven_eq_of_near [LinearOrderedField F] [FloorRing F]
    (n : Int) (v : F) (h : |v - (n : F)| < 1 / 2) :
    roundHalfEven v = n := by
  obtain ⟨h1, h2⟩ := abs_lt.mp h
  rcases le_or_lt (n : F) v with hle | hlt
  · have hf : ⌊v⌋ = n := Int.floor_eq_iff.mpr ⟨hle, by linarith⟩
    unfold roundHalfEven
    rw [hf, if_pos (by linarith)]
  · have hf : ⌊v⌋ = n - 1 := Int.floor_eq_iff.mpr ⟨by push_cast; linarith, by push_cast; linarith⟩
    unfold roundHalfEven
    rw [hf]
    have h3 : ¬ v - ((n - 1 : Int) : F) < 1 / 2 := by push_cast; linarith
    have h4 : 1 / 2 < v - ((n - 1 : Int) : F) := by push_cast; linarith
    rw [if_neg h3, if_pos h4]
    omega

theorem abs_roundHalfEven_sub_le [LinearOrderedField F] [FloorRing F]
    (v : F) : |(roundHalfEven v : F) - v| ≤ 1 / 2 := by
  have h1 := Int.floor_le v
  have h2 := Int.lt_floor_add_one v
  unfold roundHalfEven
  split_ifs with ha hb hc
  · rw [abs_le]; constructor <;> linarith
  · rw [abs_le]; push_cast; constructor <;> linarith
  · rw [abs_le]; constructor <;> linarith
  · rw [abs_le]; push_cast; constructor <;> linarith

theorem two_zpow_pos [LinearOrderedField F] [FloorRing F]
    (e : Int) : (0 : F) < (2 : F) ^ e := zpow_pos (by norm_num) e

theorem log_eq_of_bracket [LinearOrderedField F] [FloorRing F]
    (e : Int) (v : F) (h1 : (2 : F) ^ e ≤ |v|)
    (h2 : |v| < (2 : F) ^ (e + 1)) : Int.log 2 |v| = e := by
  have hpos : (0 : F) < |v| := lt_of_lt_of_le (two_zpow_pos e) h1
  have ha : e ≤ Int.log 2 |v| := by
    rw [← Int.zpow_le_iff_le_log (by norm_num) hpos]
    simpa using h1
  have hb : Int.log 2 |v| < e + 1 := by
    rw [← Int.lt_zpow_iff_log_lt (by norm_num) hpos]
    simpa using h2
  omega

theorem two_zpow_log_le [LinearOrderedField F] [FloorRing F]
    (v : F) (hv : v ≠ 0) : (2 : F) ^ Int.log 2 |v| ≤ |v| := by
  have := Int.zpow_log_le_self (b := 2) (r := |v|) (by norm_num) (abs_pos.mpr hv)
  simpa using this

theorem lt_two_zpow_log_succ [LinearOrderedField F] [FloorRing F]
    (v : F) : |v| < (2 : F) ^ (Int.log 2 |v| + 1) := by
  have := Int.lt_zpow_succ_log_self (b := 2) (by norm_num) |v|
  simpa using this

theorem roundTo_zero [LinearOrderedField F] [FloorRing F]
    (p : Nat) (emin : Int) : roundTo p emin (0 : F) = 0 := by
  simp [roundTo, roundHalfEven]

theorem roundTo_eq_of_bracket [LinearOrderedField F] [FloorRing F]
    (p : Nat) (emin e : Int) (v : F) (h1 : (2 : F) ^ e ≤ |v|)
    (h2 : |v| < (2 : F) ^ (e + 1)) :
    roundTo p emin v =
      (roundHalfEven (v / (2 : F) ^ (max e emin - ((p : Int) - 1))) : F) *
        (2 : F) ^ (max e emin - ((p : Int) - 1)) := by
  unfold roundTo ulpExponent
  rw [log_eq_of_bracket e v h1 h2]

theorem le_roundTo_of_grid [LinearOrderedField F] [FloorRing F]
    (p : Nat) (emin : Int) (v : F) (N : Int)
    (h : (N : F) * (2 : F) ^ ulpExponent p emin v ≤ v) :
    (N : F) * (2 : F) ^ ulpExponent p emin v ≤ roundTo p emin v := by
  have hpos := two_zpow_pos (F := F) (ulpExponent p emin v)
  have h1 : (N : F) ≤ v / (2 : F) ^ ulpExponent p emin v := (le_div_iff₀ hpos).mpr h
  have h2 := le_roundHalfEven N _ h1
  unfold roundTo
  exact mul_le_mul_of_nonneg_right (by exact_mod_cast h2) hpos.le

theorem roundTo_le_of_grid [LinearOrderedField F] [FloorRing F]
    (p : Nat) (emin : Int) (v : F) (N : Int)
    (h : v ≤ (N : F) * (2 : F) ^ ulpExponent p emin v) :
    roundTo p emin v ≤ (N : F) * (2 : F) ^ ulpExponent p emin v := by
  have hpos := two_zpow_pos (F := F) (ulpExponent p emin v)
  have h1 : v / (2 : F) ^ ulpExponent p emin v ≤ (N : F) := (div_le_iff₀ hpos).mpr h
  have h2 := roundHalfEven_le N _ h1
  unfold roundTo
  exact mul_le_mul_of_nonneg_right (by exact_mod_cast h2) hpos.le


theorem roundTo_of_grid [LinearOrderedField F] [FloorRing F]
    (p : Nat) (emin : Int) (v : F) (N : Int)
    (h : v = (N : F) * (2 : F) ^ ulpExponent p emin v) : roundTo p emin v = v := by
  have hpos := two_zpow_pos (F := F) (ulpExponent p emin v)
  have hq : v / (2 : F) ^ ulpExponent p emin v = (N : F) := by
    rw [div_eq_iff hpos.ne']; exact h
  unfold roundTo
  rw [hq, roundHalfEven_intCast]
  exact h.symm

theorem zpow_split [LinearOrderedField F] [FloorRing F] (a b : Int) (h : a ≤ b) :
    (2 : F) ^ b = ((2 ^ (b - a).toNat : Int) : F) * (2 : F) ^ a := by
  have hk : ((b - a).toNat : Int) = b - a := Int.toNat_of_nonneg (by omega)
  push_cast
  rw [← zpow_natCast, hk, ← zpow_add₀ (by norm_num : (2 : F) ≠ 0)]
  congr 1
  ring

theorem ulpExponent_le_of_lt [LinearOrderedField F] [FloorRing F]
    (p : Nat) (emin k : Int) (v : F) (hv : v ≠ 0)
    (h : |v| < (2 : F) ^ (k + p)) (hk : emin - ((p : Int) - 1) ≤ k) :
    ulpExponent p emin v ≤ k := by
  have hlog : Int.log 2 |v| < k + p := by
    rw [← Int.lt_zpow_iff_log_lt (by norm_num) (abs_pos.mpr hv)]
    simpa using h
  unfold ulpExponent
  rcases le_total (Int.log 2 |v|) emin with h1 | h1
  · rw [max_eq_right h1]; exact hk
  · rw [max_eq_left h1]; omega

/-- Values `m * 2^k` with `|m| < 2^p` and `k` not below the least exponent are not rounded. -/
theorem roundTo_dyadic [LinearOrderedField F] [FloorRing F]
    (p : Nat) (emin : Int) (m k : Int) (hm : |m| < 2 ^ p)
    (hk : emin - ((p : Int) - 1) ≤ k) :
    roundTo p emin ((m : F) * (2 : F) ^ k) = (m : F) * (2 : F) ^ k := by
  rcases eq_or_ne m 0 with h0 | h0
  · simp [h0, roundTo_zero]
  · have hv : (m : F) * (2 : F) ^ k ≠ 0 :=
      mul_ne_zero (by exact_mod_cast h0) (two_zpow_pos k).ne'
    have habs : |(m : F) * (2 : F) ^ k| < (2 : F) ^ (k + p) := by
      rw [abs_mul, abs_of_pos (a := (2 : F) ^ k) (two_zpow_pos k),
        zpow_add₀ (by norm_num : (2 : F) ≠ 0), mul_comm]
      apply mul_lt_mul_of_pos_left _ (two_zpow_pos k)
      rw [zpow_natCast]
      have : ((|m| : Int) : F) < ((2 ^ p : Int) : F) := by exact_mod_cast hm
      simpa using this
    have hE := ulpExponent_le_of_lt p emin k _ hv habs hk
    have hgrid : (m : F) * (2 : F) ^ k =
        ((m * 2 ^ (k - ulpExponent p emin ((m : F) * (2 : F) ^ k)).toNat : Int) : F) *
          (2 : F) ^ ulpExponent p emin ((m : F) * (2 : F) ^ k) := by
      have hs := zpow_split (F := F) _ k hE
      push_cast at hs ⊢
      rw [mul_assoc, ← hs]
    exact roundTo_of_grid p emin _ _ hgrid

theorem roundTo_intCast [LinearOrderedField F] [FloorRing F]
    (p : Nat) (emin : Int) (n : Int) (hn : |n| < 2 ^ p)
    (hemin : emin ≤ (p : Int) - 1) : roundTo p emin (n : F) = n := by
  have := roundTo_dyadic (F := F) p emin n 0 hn (by omega)
  simpa using this

theorem le_abs_roundTo_of_grid [LinearOrderedField F] [FloorRing F]
    (p : Nat) (emin : Int) (v : F) (N : Int)
    (h : (N : F) * (2 : F) ^ ulpExponent p emin v ≤ |v|) :
    (N : F) * (2 : F) ^ ulpExponent p emin v ≤ |roundTo p emin v| := by
  rcases le_total 0 v with hv | hv
  · rw [abs_of_nonneg hv] at h
    exact le_trans (le_roundTo_of_grid p emin v N h) (le_abs_self _)
  · rw [abs_of_nonpos hv] at h
    have h' : v ≤ ((-N : Int) : F) * (2 : F) ^ ulpExponent p emin v := by
      push_cast; linarith
    have := roundTo_le_of_grid p emin v (-N) h'
    have h2 : (N : F) * (2 : F) ^ ulpExponent p emin v ≤ -roundTo p emin v := by
      push_cast at this; linarith
    exact le_trans h2 (neg_le_abs _)

/-- The double-precision value of a quantity of magnitude at least `100` has magnitude at
least `100`. -/
theorem hundred_le_abs_toDouble [LinearOrderedField F] [FloorRing F]
    (v : F) (h : 100 ≤ |v|) : 100 ≤ |toDouble v| := by
  have hv : v ≠ 0 := by
    intro h0; rw [h0, abs_zero] at h; norm_num at h
  have hL : 6 ≤ Int.log 2 |v| := by
    rw [← Int.zpow_le_iff_le_log (by norm_num) (abs_pos.mpr hv)]
    have : ((2 : Nat) : F) ^ (6 : Int) = 64 := by norm_num
    rw [this]; linarith
  have hE : ulpExponent 53 (-1022) v = Int.log 2 |v| - 52 := by
    unfold ulpExponent
    rw [max_eq_left (by omega)]
    norm_num
  unfold toDouble
  rcases le_or_lt (Int.log 2 |v|) 54 with hs | hb
  · have hgrid : (100 : F) =
        ((25 * 2 ^ (2 - ulpExponent 53 (-1022) v).toNat : Int) : F) *
          (2 : F) ^ ulpExponent 53 (-1022) v := by
      have := zpow_split (F := F) (ulpExponent 53 (-1022) v) 2 (by omega)
      push_cast at this ⊢
      rw [mul_assoc, ← this]
      norm_num
    have := le_abs_roundTo_of_grid 53 (-1022) v _ (by rw [← hgrid]; exact h)
    rwa [← hgrid] at this
  · have hgrid : (2 : F) ^ Int.log 2 |v| =
        ((2 ^ 52 : Int) : F) * (2 : F) ^ ulpExponent 53 (-1022) v := by
      rw [hE]
      have h52 : (((2 ^ 52 : Int) : F)) = (2 : F) ^ (52 : Int) := by norm_num
      rw [h52, ← zpow_add₀ (by norm_num : (2 : F) ≠ 0)]
      congr 1
      ring
    have h1 := two_zpow_log_le v hv
    have := le_abs_roundTo_of_grid 53 (-1022) v _ (by rw [← hgrid]; exact h1)
    rw [← hgrid] at this
    have hbig : (100 : F) ≤ (2 : F) ^ Int.log 2 |v| := by
      have h55 : (2 : F) ^ (55 : Int) ≤ (2 : F) ^ Int.log 2 |v| :=
        zpow_le_zpow_right₀ (by norm_num) (by omega)
      have : (100 : F) ≤ (2 : F) ^ (55 : Int) := by norm_num
      linarith
    linarith

theorem roundTo_nonneg [LinearOrderedField F] [FloorRing F]
    (p : Nat) (emin : Int) (v : F) (h : 0 ≤ v) :
    0 ≤ roundTo p emin v := by
  have := le_roundTo_of_grid p emin v 0 (by simpa using h)
  simpa using this

/-- A value the rounding leaves unchanged is a multiple of the unit of its own grid. -/
theorem fixed_eq_grid [LinearOrderedField F] [FloorRing F]
    (p : Nat) (emin : Int) (c : F) (hc : roundTo p emin c = c) :
    c = (roundHalfEven (c / (2 : F) ^ ulpExponent p emin c) : F) *
      (2 : F) ^ ulpExponent p emin c := by
  conv_lhs => rw [← hc]
  rfl

theorem ulpExponent_lt_cases [LinearOrderedField F] [FloorRing F] (p : Nat) (emin : Int) (c v : F)
    (h : ulpExponent p emin c < ulpExponent p emin v) :
    Int.log 2 |c| < Int.log 2 |v| ∧
      ulpExponent p emin v = Int.log 2 |v| - ((p : Int) - 1) := by
  unfold ulpExponent at h ⊢
  rcases le_total (Int.log 2 |v|) emin with h1 | h1
  · rw [max_eq_right h1] at h
    have := le_max_right (Int.log 2 |c|) emin
    omega
  · rw [max_eq_left h1] at h ⊢
    have := le_max_left (Int.log 2 |c|) emin
    exact ⟨by omega, rfl⟩

theorem abs_lt_of_log_lt [LinearOrderedField F] [FloorRing F]
    (c v : F) (hv : v ≠ 0) (h : Int.log 2 |c| < Int.log 2 |v|) :
    |c| < (2 : F) ^ Int.log 2 |v| ∧ (2 : F) ^ Int.log 2 |v| ≤ |v| := by
  refine ⟨?_, two_zpow_log_le v hv⟩
  have h1 := lt_two_zpow_log_succ c
  have h2 : (2 : F) ^ (Int.log 2 |c| + 1) ≤ (2 : F) ^ Int.log 2 |v| :=
    zpow_le_zpow_right₀ (by norm_num) (by omega)
  linarith

/-- Rounding does not go below a value of the format that the argument is not below. -/
theorem le_roundTo_of_fixed [LinearOrderedField F] [FloorRing F]
    (p : Nat) (emin : Int) (hp : 1 ≤ p) (c v : F)
    (hc : roundTo p emin c = c) (h : c ≤ v) : c ≤ roundTo p emin v := by
  rcases eq_or_ne v 0 with hv | hv
  · rw [hv, roundTo_zero]; rw [hv] at h; exact h
  rcases le_or_lt (ulpExponent p emin v) (ulpExponent p emin c) with hE | hE
  · obtain ⟨N, hN⟩ : ∃ N : Int, c = (N : F) * (2 : F) ^ ulpExponent p emin c :=
      ⟨_, fixed_eq_grid p emin c hc⟩
    have hg2 : c = ((N * 2 ^ (ulpExponent p emin c - ulpExponent p emin v).toNat : Int) : F) *
        (2 : F) ^ ulpExponent p emin v := by
      have hs := zpow_split (F := F) _ _ hE
      push_cast at hs ⊢
      rw [mul_assoc, ← hs]
      exact hN
    have := le_roundTo_of_grid p emin v _ (by rw [← hg2]; exact h)
    rwa [← hg2] at this
  · obtain ⟨hlog, hEv⟩ := ulpExponent_lt_cases p emin c v hE
    obtain ⟨h1, h2⟩ := abs_lt_of_log_lt c v hv hlog
    have hvpos : 0 < v := by
      by_contra hneg
      have hv' : |v| = -v := abs_of_nonpos (not_lt.mp hneg)
      have : -c ≤ |c| := neg_le_abs c
      linarith
    have h2' : (2 : F) ^ Int.log 2 |v| ≤ v := le_trans h2 (le_of_eq (abs_of_pos hvpos))
    have hsplit := zpow_split (F := F) (ulpExponent p emin v) (Int.log 2 |v|) (by omega)
    have := le_roundTo_of_grid p emin v _ (by rw [← hsplit]; exact h2')
    rw [← hsplit] at this
    have : c ≤ |c| := le_abs_self c
    linarith

/-- Rounding does not go above a value of the format that the argument is not above. -/
theorem roundTo_le_of_fixed [LinearOrderedField F] [FloorRing F]
    (p : Nat) (emin : Int) (hp : 1 ≤ p) (c v : F)
    (hc : roundTo p emin c = c) (h : v ≤ c) : roundTo p emin v ≤ c := by
  rcases eq_or_ne v 0 with hv | hv
  · rw [hv, roundTo_zero]; rw [hv] at h; exact h
  rcases le_or_lt (ulpExponent p emin v) (ulpExponent p emin c) with hE | hE
  · obtain ⟨N, hN⟩ : ∃ N : Int, c = (N : F) * (2 : F) ^ ulpExponent p emin c :=
      ⟨_, fixed_eq_grid p emin c hc⟩
    have hg2 : c = ((N * 2 ^ (ulpExponent p emin c - ulpExponent p emin v).toNat : Int) : F) *
        (2 : F) ^ ulpExponent p emin v := by
      have hs := zpow_split (F := F) _ _ hE
      push_cast at hs ⊢
      rw [mul_assoc, ← hs]
      exact hN
    have := roundTo_le_of_grid p emin v _ (by rw [← hg2]; exact h)
    rwa [← hg2] at this
  · obtain ⟨hlog, hEv⟩ := ulpExponent_lt_cases p emin c v hE
    obtain ⟨h1, h2⟩ := abs_lt_of_log_lt c v hv hlog
    have hvneg : v < 0 := by
      by_contra hpos
      have hv' : |v| = v := abs_of_nonneg (not_lt.mp hpos)
      have : c ≤ |c| := le_abs_self c
      linarith
    have h2' : (2 : F) ^ Int.log 2 |v| ≤ -v := le_trans h2 (le_of_eq (abs_of_neg hvneg))
    have hsplit := zpow_split (F := F) (ulpExponent p emin v) (Int.log 2 |v|) (by omega)
    have hle : v ≤ ((-(2 ^ (Int.log 2 |v| - ulpExponent p emin v).toNat) : Int) : F) *
        (2 : F) ^ ulpExponent p emin v := by
      push_cast at hsplit ⊢
      rw [neg_mul, ← hsplit]
      linarith
    have := roundTo_le_of_grid p emin v _ hle
    push_cast at hsplit this
    rw [neg_mul, ← hsplit] at this
    have : -c ≤ |c| := neg_le_abs c
    linarith

theorem toDouble_intCast [LinearOrderedField F] [FloorRing F] (n : Int)
    (hn : |n| < 2 ^ 53) : toDouble (n : F) = n :=
  roundTo_intCast 53 (-1022) n hn (by norm_num)

theorem toFloat_intCast [LinearOrderedField F] [FloorRing F] (n : Int)
    (hn : |n| < 2 ^ 24) : toFloat (n : F) = n :=
  roundTo_intCast 24 (-126) n hn (by norm_num)

theorem toDouble_zero [LinearOrderedField F] [FloorRing F] : toDouble (0 : F) = 0 :=
  roundTo_zero 53 (-1022)

theorem toFloat_zero [LinearOrderedField F] [FloorRing F] : toFloat (0 : F) = 0 :=
  roundTo_zero 24 (-126)

/-- A value the rounding leaves unchanged is `N * 2^E` with `|N| < 2^p` and `E` the
exponent of its unit in the last place. -/
theorem fixed_grid_bound [LinearOrderedField F] [FloorRing F] (p : Nat) (emin : Int) (c : F)
    (hc : roundTo p emin c = c) :
    ∃ N : Int, |N| < 2 ^ p ∧ c = (N : F) * (2 : F) ^ ulpExponent p emin c := by
  refine ⟨roundHalfEven (c / (2 : F) ^ ulpExponent p emin c), ?_, fixed_eq_grid p emin c hc⟩
  have hN := fixed_eq_grid p emin c hc
  generalize roundHalfEven (c / (2 : F) ^ ulpExponent p emin c) = N at hN ⊢
  have h1 := lt_two_zpow_log_succ c
  have hE : Int.log 2 |c| + 1 ≤ ulpExponent p emin c + p := by
    unfold ulpExponent
    have := le_max_left (Int.log 2 |c|) emin
    omega
  have h2 : |c| < (2 : F) ^ (ulpExponent p emin c + p) :=
    lt_of_lt_of_le h1 (zpow_le_zpow_right₀ (by norm_num) hE)
  have hpos := two_zpow_pos (F := F) (ulpExponent p emin c)
  have h3 : |c| = |(N : F)| * (2 : F) ^ ulpExponent p emin c := by
    conv_lhs => rw [hN]
    rw [abs_mul, abs_of_pos (a := (2 : F) ^ ulpExponent p emin c) hpos]
  rw [h3, zpow_add₀ (by norm_num : (2 : F) ≠ 0), mul_comm ((2 : F) ^ ulpExponent p emin c),
    zpow_natCast] at h2
  have h4 : |(N : F)| < (2 : F) ^ p := lt_of_mul_lt_mul_right h2 hpos.le
  have h5 : ((|N| : Int) : F) < ((2 ^ p : Int) : F) := by
    push_cast
    exact h4
  exact_mod_cast h5

theorem ulpExponent_ge [LinearOrderedField F] [FloorRing F] (p : Nat) (emin : Int) (v : F) :
    emin - ((p : Int) - 1) ≤ ulpExponent p emin v := by
  unfold ulpExponent
  have := le_max_right (Int.log 2 |v|) emin
  omega

/-- A value of a format is a value of every format with at least as many significand bits
and at least as low a least exponent. -/
theorem roundTo_widen [LinearOrderedField F] [FloorRing F] (p q : Nat) (emin emin2 : Int)
    (c : F) (hc : roundTo p emin c = c) (hpq : p ≤ q)
    (he : emin2 - ((q : Int) - 1) ≤ emin - ((p : Int) - 1)) : roundTo q emin2 c = c := by
  obtain ⟨N, hN, hg⟩ := fixed_grid_bound p emin c hc
  have hE := ulpExponent_ge p emin c
  rw [hg]
  apply roundTo_dyadic q emin2 N _ _ (by omega)
  exact lt_of_lt_of_le hN (pow_le_pow_right₀ (by norm_num) hpq)

theorem isDouble_of_isFloat [LinearOrderedField F] [FloorRing F] (c : F) (h : IsFloat c) :
    IsDouble c :=
  roundTo_widen 24 53 (-126) (-1022) c h (by norm_num) (by norm_num)

theorem abs_roundTo_sub_le [LinearOrderedField F] [FloorRing F] (p : Nat) (emin : Int) (v : F) :
    |roundTo p emin v - v| ≤ (2 : F) ^ ulpExponent p emin v / 2 := by
  have hpos := two_zpow_pos (F := F) (ulpExponent p emin v)
  have h := abs_roundHalfEven_sub_le (v / (2 : F) ^ ulpExponent p emin v)
  have e : roundTo p emin v - v =
      ((roundHalfEven (v / (2 : F) ^ ulpExponent p emin v) : F) -
        v / (2 : F) ^ ulpExponent p emin v) * (2 : F) ^ ulpExponent p emin v := by
    unfold roundTo
    field_simp
  rw [e, abs_mul, abs_of_pos (a := (2 : F) ^ ulpExponent p emin v) hpos]
  calc _ ≤ 1 / 2 * (2 : F) ^ ulpExponent p emin v :=
        mul_le_mul_of_nonneg_right h hpos.le
    _ = (2 : F) ^ ulpExponent p emin v / 2 := by ring

/-- Above the least normal number the rounding error is at most `2^-p` of the value. -/
theorem roundTo_le_mul [LinearOrderedField F] [FloorRing F] (p : Nat) (emin : Int) (v : F)
    (hv : (2 : F) ^ emin ≤ v) :
    roundTo p emin v ≤ v * (1 + (2 : F) ^ (-(p : Int))) := by
  have hvpos : 0 < v := lt_of_lt_of_le (two_zpow_pos emin) hv
  have habs : |v| = v := abs_of_pos hvpos
  have hlog : emin ≤ Int.log 2 |v| := by
    rw [← Int.zpow_le_iff_le_log (by norm_num) (abs_pos.mpr hvpos.ne')]
    rw [habs]
    simpa using hv
  have hE : ulpExponent p emin v = Int.log 2 |v| + (-(p : Int)) + 1 := by
    unfold ulpExponent
    rw [max_eq_left hlog]
    ring
  have h1 : (2 : F) ^ Int.log 2 |v| ≤ v :=
    le_trans (two_zpow_log_le v hvpos.ne') (le_of_eq habs)
  have h2 := abs_roundTo_sub_le p emin v
  rw [hE, zpow_add₀ (by norm_num : (2 : F) ≠ 0), zpow_add₀ (by norm_num : (2 : F) ≠ 0),
    zpow_one] at h2
  have h3 := (abs_le.mp h2).2
  have hp := two_zpow_pos (F := F) (-(p : Int))
  have h4 : (2 : F) ^ Int.log 2 |v| * (2 : F) ^ (-(p : Int)) ≤ v * (2 : F) ^ (-(p : Int)) :=
    mul_le_mul_of_nonneg_right h1 hp.le
  linarith

/-- The difference of two values of a format is a value of the format when it is below
twice the least normal number. -/
theorem roundTo_sub_of_small [LinearOrderedField F] [FloorRing F] (p : Nat) (emin : Int)
    (a b : F) (ha : roundTo p emin a = a) (hb : roundTo p emin b = b)
    (h : |a - b| < (2 : F) ^ (emin + 1)) : roundTo p emin (a - b) = a - b := by
  obtain ⟨Na, _, hga⟩ := fixed_grid_bound p emin a ha
  obtain ⟨Nb, _, hgb⟩ := fixed_grid_bound p emin b hb
  have hEa := ulpExponent_ge p emin a
  have hEb := ulpExponent_ge p emin b
  have hsa := zpow_split (F := F) (emin - ((p : Int) - 1)) _ hEa
  have hsb := zpow_split (F := F) (emin - ((p : Int) - 1)) _ hEb
  have hpos := two_zpow_pos (F := F) (emin - ((p : Int) - 1))
  have hd : a - b =
      ((Na * 2 ^ (ulpExponent p emin a - (emin - ((p : Int) - 1))).toNat -
        Nb * 2 ^ (ulpExponent p emin b - (emin - ((p : Int) - 1))).toNat : Int) : F) *
        (2 : F) ^ (emin - ((p : Int) - 1)) := by
    push_cast at hsa hsb ⊢
    rw [sub_mul, mul_assoc, mul_assoc, ← hsa, ← hsb, ← hga, ← hgb]
  generalize (Na * 2 ^ (ulpExponent p emin a - (emin - ((p : Int) - 1))).toNat -
    Nb * 2 ^ (ulpExponent p emin b - (emin - ((p : Int) - 1))).toNat : Int) = M at hd
  rw [hd] at h ⊢
  apply roundTo_dyadic p emin M _ _ (le_refl _)
  rw [abs_mul, abs_of_pos (a := (2 : F) ^ (emin - ((p : Int) - 1))) hpos] at h
  have h2 : (2 : F) ^ (emin + 1) = (2 : F) ^ p * (2 : F) ^ (emin - ((p : Int) - 1)) := by
    rw [← zpow_natCast, ← zpow_add₀ (by norm_num : (2 : F) ≠ 0)]
    congr 1
    ring
  rw [h2] at h
  have h4 : |(M : F)| < (2 : F) ^ p := lt_of_mul_lt_mul_right h hpos.le
  have h5 : ((|M| : Int) : F) < ((2 ^ p : Int) : F) := by
    push_cast
    exact h4
  exact_mod_cast h5

/-- The `float` difference of two floats, the first not below the second, exceeds the
exact difference by at most `2^-24` of it. -/
theorem toFloat_sub_le_mul [LinearOrderedField F] [FloorRing F] (a b : F) (ha : IsFloat a)
    (hb : IsFloat b) (h : b ≤ a) :
    toFloat (a - b) ≤ (a - b) * (1 + (2 : F) ^ (-(24 : Int))) := by
  have hd : 0 ≤ a - b := sub_nonneg.mpr h
  have hp := two_zpow_pos (F := F) (-(24 : Int))
  rcases lt_or_le (a - b) ((2 : F) ^ (-126 : Int)) with hs | hn
  · have hsmall : |a - b| < (2 : F) ^ ((-126 : Int) + 1) := by
      rw [abs_of_nonneg hd]
      have : (2 : F) ^ (-126 : Int) ≤ (2 : F) ^ ((-126 : Int) + 1) :=
        zpow_le_zpow_right₀ (by norm_num) (by norm_num)
      linarith
    have he : toFloat (a - b) = a - b := roundTo_sub_of_small 24 (-126) a b ha hb hsmall
    rw [he]
    have := mul_nonneg hd hp.le
    linarith
  · have := roundTo_le_mul 24 (-126) (a - b) hn
    simpa using this

/-- The result of a rounding is a value of the format. -/
theorem roundTo_idem [LinearOrderedField F] [FloorRing F] (p : Nat) (emin : Int) (hp : 1 ≤ p)
    (v : F) : roundTo p emin (roundTo p emin v) = roundTo p emin v := by
  have hpos := two_zpow_pos (F := F) (ulpExponent p emin v)
  have hE := ulpExponent_ge p emin v
  have h1 := lt_two_zpow_log_succ v
  have hlog : Int.log 2 |v| + 1 ≤ ulpExponent p emin v + p := by
    unfold ulpExponent
    have := le_max_left (Int.log 2 |v|) emin
    omega
  have h2 : |v| < (2 : F) ^ p * (2 : F) ^ ulpExponent p emin v := by
    have := lt_of_lt_of_le h1 (zpow_le_zpow_right₀ (by norm_num : (1 : F) ≤ 2) hlog)
    rwa [zpow_add₀ (by norm_num : (2 : F) ≠ 0), mul_comm, zpow_natCast] at this
  obtain ⟨h3, h4⟩ := abs_lt.mp h2
  have hq1 : v / (2 : F) ^ ulpExponent p emin v ≤ ((2 ^ p : Int) : F) := by
    rw [div_le_iff₀ hpos]; push_cast; linarith
  have hq2 : ((-(2 ^ p) : Int) : F) ≤ v / (2 : F) ^ ulpExponent p emin v := by
    rw [le_div_iff₀ hpos]; push_cast; linarith
  have hR1 := roundHalfEven_le _ _ hq1
  have hR2 := le_roundHalfEven _ _ hq2
  unfold roundTo
  generalize roundHalfEven (v / (2 : F) ^ ulpExponent p emin v) = R at hR1 hR2
  generalize ulpExponent p emin v = E at hE
  have h2p : (1 : Int) < 2 ^ p := by
    have : (2 : Int) ^ 1 ≤ 2 ^ p := pow_le_pow_right₀ (by norm_num) hp
    omega
  rcases lt_or_eq_of_le hR1 with hlt | heq
  · rcases lt_or_eq_of_le hR2 with hgt | heq2
    · exact roundTo_dyadic p emin R E (abs_lt.mpr ⟨hgt, hlt⟩) hE
    · have e : (R : F) * (2 : F) ^ E = ((-1 : Int) : F) * (2 : F) ^ (E + p) := by
        rw [← heq2, zpow_add₀ (by norm_num : (2 : F) ≠ 0), zpow_natCast]
        push_cast
        ring
      rw [e]
      exact roundTo_dyadic p emin (-1) (E + p) (by simpa using h2p) (by omega)
  · have e : (R : F) * (2 : F) ^ E = ((1 : Int) : F) * (2 : F) ^ (E + p) := by
      rw [heq, zpow_add₀ (by norm_num : (2 : F) ≠ 0), zpow_natCast]
      push_cast
      ring
    rw [e]
    exact roundTo_dyadic p emin 1 (E + p) (by simpa using h2p) (by omega)

theorem isFloat_toFloat [LinearOrderedField F] [FloorRing F] (v : F) : IsFloat (toFloat v) :=
  roundTo_idem 24 (-126) (by norm_num) v

theorem isDouble_toDouble [LinearOrderedField F] [FloorRing F] (v : F) :
    IsDouble (toDouble v) :=
  roundTo_idem 53 (-1022) (by norm_num) v

/-- A non-negative float less its integer part is a float. -/
theorem isFloat_sub_floor [LinearOrderedField F] [FloorRing F] (e : F) (he : IsFloat e)
    (h0 : 0 ≤ e) : IsFloat (e - (⌊e⌋ : F)) := by
  obtain ⟨N, hN, hg⟩ := fixed_grid_bound 24 (-126) e he
  have hE := ulpExponent_ge 24 (-126) e
  generalize ulpExponent 24 (-126) e = E at hg hE
  have hpos := two_zpow_pos (F := F) E
  rcases le_or_lt 0 E with hE0 | hE0
  · have hs := zpow_split (F := F) 0 E hE0
    have hint : e = ((N * 2 ^ (E - 0).toNat : Int) : F) := by
      rw [hg, hs]; push_cast; ring
    have hfl : (⌊e⌋ : F) = e := by
      rw [hint, Int.floor_intCast]
    unfold IsFloat
    rw [hfl, sub_self, toFloat_zero]
  · have hs := zpow_split (F := F) E 0 hE0.le
    rw [zpow_zero] at hs
    have hd : e - (⌊e⌋ : F) = ((N - ⌊e⌋ * 2 ^ (0 - E).toNat : Int) : F) * (2 : F) ^ E := by
      push_cast at hs ⊢
      rw [sub_mul, mul_assoc, ← hs, mul_one, ← hg]
    have hfl0 : (0 : F) ≤ (⌊e⌋ : F) := by exact_mod_cast Int.floor_nonneg.mpr h0
    have hlo : 0 ≤ e - (⌊e⌋ : F) := sub_nonneg.mpr (Int.floor_le e)
    have hhi : e - (⌊e⌋ : F) ≤ e := by linarith
    generalize (N - ⌊e⌋ * 2 ^ (0 - E).toNat : Int) = M at hd
    rw [hd] at hlo hhi
    have hM0 : (0 : F) ≤ (M : F) := nonneg_of_mul_nonneg_left hlo hpos
    have hMN : (M : F) ≤ (N : F) := by
      rw [hg] at hhi
      exact le_of_mul_le_mul_right hhi hpos
    have hM0' : 0 ≤ M := by exact_mod_cast hM0
    have hMN' : M ≤ N := by exact_mod_cast hMN
    have hNabs := abs_lt.mp hN
    unfold IsFloat
    rw [hd]
    exact roundTo_dyadic 24 (-126) M E (abs_lt.mpr ⟨by omega, by omega⟩) (by omega)

/-- The `double` quotient of two whole numbers is on the same side of a float below `1`
as the exact quotient. -/
theorem toDouble_div_lt_float_iff [LinearOrderedField F] [FloorRing F] (k n : Nat) (f : F)
    (hn : 0 < n) (hn2 : n ≤ 2 ^ 29) (hf : IsFloat f) (hf1 : f < 1) :
    toDouble ((k : F) / (n : F)) < f ↔ (k : F) / (n : F) < f := by
  have hnF : (0 : F) < (n : F) := by exact_mod_cast hn
  have hq0 : (0 : F) ≤ (k : F) / (n : F) := div_nonneg (Nat.cast_nonneg k) hnF.le
  constructor
  · intro h
    by_contra hc
    have := le_roundTo_of_fixed 53 (-1022) (by norm_num) f _ (isDouble_of_isFloat f hf)
      (not_lt.mp hc)
    exact absurd h (not_lt.mpr this)
  · intro h
    have hfpos : 0 < f := lt_of_le_of_lt hq0 h
    obtain ⟨N, hN, hg⟩ := fixed_grid_bound 24 (-126) f hf
    have hE := ulpExponent_ge 24 (-126) f
    generalize ulpExponent 24 (-126) f = E at hg hE
    have hpos := two_zpow_pos (F := F) E
    have hNpos : (0 : F) < (N : F) := by
      rw [hg] at hfpos
      exact pos_of_mul_pos_left hfpos hpos.le
    have hN1 : 1 ≤ N := by
      have : (0 : Int) < N := by exact_mod_cast hNpos
      omega
    have hE0 : E < 0 := by
      by_contra hc
      have h1 : (1 : F) ≤ (2 : F) ^ E := by
        have := zpow_le_zpow_right₀ (by norm_num : (1 : F) ≤ 2) (not_lt.mp hc)
        simpa using this
      have h2 : (1 : F) ≤ (N : F) := by exact_mod_cast hN1
      have : (1 : F) ≤ (N : F) * (2 : F) ^ E := by
        calc (1 : F) = 1 * 1 := by ring
          _ ≤ (N : F) * (2 : F) ^ E := mul_le_mul h2 h1 zero_le_one (by linarith)
      rw [← hg] at this
      linarith
    have hs := zpow_split (F := F) E 0 hE0.le
    rw [zpow_zero] at hs
    have hd : (n : F) * f - (k : F) =
        (((n : Int) * N - (k : Int) * 2 ^ (0 - E).toNat : Int) : F) * (2 : F) ^ E := by
      push_cast at hs ⊢
      rw [sub_mul, mul_assoc (k : F), ← hs, mul_one, mul_assoc, ← hg]
    have hdpos : 0 < (n : F) * f - (k : F) := by
      have := (div_lt_iff₀ hnF).mp h
      linarith
    generalize ((n : Int) * N - (k : Int) * 2 ^ (0 - E).toNat : Int) = M at hd
    have hMpos : (0 : F) < (M : F) := by
      rw [hd] at hdpos
      exact pos_of_mul_pos_left hdpos hpos.le
    have hM1 : (1 : F) ≤ (M : F) := by
      have : (0 : Int) < M := by exact_mod_cast hMpos
      have : (1 : Int) ≤ M := by omega
      exact_mod_cast this
    have hgap : (2 : F) ^ E ≤ (n : F) * f - (k : F) := by
      rw [hd]
      calc (2 : F) ^ E = 1 * (2 : F) ^ E := by ring
        _ ≤ (M : F) * (2 : F) ^ E := mul_le_mul_of_nonneg_right hM1 hpos.le
    have e29 : (2 : F) ^ (29 : Int) = 536870912 := by norm_num
    have hn29 : (n : F) ≤ (2 : F) ^ (29 : Int) := by
      have h' : n ≤ 536870912 := by simpa using hn2
      rw [e29]
      exact_mod_cast h'
    have h29 : (2 : F) ^ E = (2 : F) ^ (29 : Int) * (2 : F) ^ (E - 29) := by
      rw [← zpow_add₀ (by norm_num : (2 : F) ≠ 0)]
      congr 1
      ring
    have hp29 := two_zpow_pos (F := F) (E - 29)
    have hc : toDouble (((N * 2 ^ 29 - 1 : Int) : F) * (2 : F) ^ (E - 29)) =
        ((N * 2 ^ 29 - 1 : Int) : F) * (2 : F) ^ (E - 29) := by
      apply roundTo_dyadic 53 (-1022) _ _ _ (by omega)
      have hNabs := abs_lt.mp hN
      rw [abs_lt]
      norm_num at hNabs ⊢
      constructor <;> omega
    have hcval : ((N * 2 ^ 29 - 1 : Int) : F) * (2 : F) ^ (E - 29) = f - (2 : F) ^ (E - 29) := by
      push_cast
      rw [hg, h29, e29]
      ring
    have hle : (k : F) / (n : F) ≤ f - (2 : F) ^ (E - 29) := by
      rw [div_le_iff₀ hnF]
      have h1 : (n : F) * (2 : F) ^ (E - 29) ≤ (2 : F) ^ E := by
        rw [h29]
        exact mul_le_mul_of_nonneg_right hn29 hp29.le
      nlinarith
    rw [← hcval] at hle
    have := roundTo_le_of_fixed 53 (-1022) (by norm_num) _ _ hc hle
    rw [hcval] at this
    unfold toDouble
    linarith

theorem toDouble_one [LinearOrderedField F] [FloorRing F] : toDouble (1 : F) = 1 := by
  have := toDouble_intCast (F := F) 1 (by norm_num)
  simpa using this

theorem toFloat_one [LinearOrderedField F] [FloorRing F] : toFloat (1 : F) = 1 := by
  have := toFloat_intCast (F := F) 1 (by norm_num)
  simpa using this

/-! ## Theorems: `kill` -/

/-- Supporting fact for C1: `kill` moves the last live row into slot `index` in every
column except `grounded`, which keeps the value the slot had. -/
theorem kill_rowAt_index (s : Store F) (index : Int) :
    (kill s index).rowAt index =
      { s.rowAt (s.numParticles - 1) with grounded := s.grounded index } := by
  simp [kill, Store.rowAt]

/-- Supporting fact for C1: `kill` leaves every slot other than `index` unchanged in
every column, and decrements `numParticles`. -/
theorem kill_rowAt_other (s : Store F) (index j : Int) (hj : j ≠ index) :
    (kill s index).rowAt j = s.rowAt j ∧
      (kill s index).numParticles = s.numParticles - 1 := by
  simp [kill, Store.rowAt, Function.update_noteq hj]

/-- C1 (fails on the code): in a store of two live particles with slot 0 grounded and
slot 1 airborne, `kill 0` leaves `grounded` at slot 0 set, although the particle moved
there from slot 1 was airborne: the `grounded` column is not moved with the others. -/
theorem kill_grounded_not_moved :
    twoParticleStore.InRange ∧
      (twoParticleStore.rowAt (twoParticleStore.numParticles - 1)).grounded = false ∧
      ((kill twoParticleStore 0).rowAt 0).grounded = true ∧
      (kill twoParticleStore 0).numParticles = 1 ∧
      (kill twoParticleStore 0).rowAt 0 ≠
        twoParticleStore.rowAt (twoParticleStore.numParticles - 1) := by
  refine ⟨by simp [Store.InRange, twoParticleStore, MAXPARTICLES], by
    simp [Store.rowAt, twoParticleStore], by simp [Store.rowAt, twoParticleStore, kill],
    by simp [twoParticleStore, kill], ?_⟩
  intro h
  have := congrArg Row.grounded h
  simp [Store.rowAt, twoParticleStore, kill] at this

/-! ## Theorems: the capacity invariant -/

theorem spawnOne_numParticles [LinearOrderedField F] [FloorRing F]
    (m : Libm F) (emitter : Emitter F)
    (g : Rand) (s : Store F) :
    (spawnOne m emitter g s).1.numParticles = s.numParticles + 1 := rfl

theorem spawnLoop_inRange [LinearOrderedField F] [FloorRing F] (m : Libm F) (emitter : Emitter F)
    (k : Nat) (g : Rand) (s : Store F) (h : s.InRange) :
    (spawnLoop m emitter k g s).1.InRange := by
  induction k generalizing g s with
  | zero => exact h
  | succ k ih =>
    unfold spawnLoop
    split_ifs with hfull
    · exact h
    · apply ih
      rw [Store.InRange, spawnOne_numParticles]
      have := h.1
      constructor <;> omega

theorem spawnLoop_full [LinearOrderedField F] [FloorRing F] (m : Libm F) (emitter : Emitter F)
    (k : Nat) (g : Rand) (s : Store F) (h : s.numParticles ≥ MAXPARTICLES) :
    (spawnLoop m emitter k g s).1 = s := by
  cases k with
  | zero => rfl
  | succ k => simp [spawnLoop, h]

theorem kill_inRange (s : Store F) (index : Int) (h : s.InRange)
    (hi : 0 ≤ index ∧ index < s.numParticles) : (kill s index).InRange := by
  have h2 := h.2
  simp only [Store.InRange, kill]
  constructor <;> omega

theorem applyOp_inRange [LinearOrderedField F] [FloorRing F] (m : Libm F) (op : Op F)
    (st : Store F × Rand) (h : st.1.InRange) (ha : op.Admissible st.1) :
    (applyOp m op st).1.InRange := by
  cases op with
  | spawn emitter dt => exact spawnLoop_inRange m emitter _ _ _ h
  | kill index => exact kill_inRange st.1 index h ha

theorem runOps_take_inRange [LinearOrderedField F] [FloorRing F] (m : Libm F)
    (ops : List (Op F)) (st : Store F × Rand) (h : st.1.InRange)
    (ha : OpsAdmissible m ops st) (k : Nat) : (runOps m (ops.take k) st).1.InRange := by
  induction ops generalizing st k with
  | nil => simpa [runOps] using h
  | cons op ops ih =>
    cases k with
    | zero => simpa [runOps] using h
    | succ k =>
      simp only [List.take_succ_cons, runOps]
      exact ih _ (applyOp_inRange m op st h ha.1) ha.2 k

/-- C2: from a store with `0 <= numParticles <= MAXPARTICLES`, after every call of any
finite sequence of `spawnParticles` and `kill` calls (each `kill` index live when the call
is made; any emitters, time steps and results of `rand()`), the bound
`0 <= numParticles <= MAXPARTICLES` holds; and `spawnParticles` called with
`numParticles == MAXPARTICLES` returns the store as it was: the count and every attribute
slot unchanged. -/
theorem capacity_invariant [LinearOrderedField F] [FloorRing F] (m : Libm F)
    (ops : List (Op F)) (s : Store F) (g : Rand) (h : s.InRange)
    (ha : OpsAdmissible m ops (s, g)) :
    (∀ k : Nat, (runOps m (ops.take k) (s, g)).1.InRange) ∧
      (∀ (emitter : Emitter F) (dt : F) (g' : Rand) (s' : Store F),
        s'.numParticles = MAXPARTICLES → (spawnParticles m emitter dt g' s').1 = s') :=
  ⟨fun k => runOps_take_inRange m ops (s, g) h ha k,
    fun emitter _ _ s' hfull => spawnLoop_full m emitter _ _ s' (le_of_eq hfull.symm)⟩

/-- Witness of C2: on a store of two particles, `kill 0` followed by a call of
`spawnParticles` keeps the bound after both calls. -/
theorem capacity_invariant_witness :
    (uniformStore 2 ⟨0, 0, 0⟩ ⟨0, 0, 0⟩ (fun _ => false) : Store ℝ).InRange ∧
      OpsAdmissible ⟨Real.sqrt, Real.sin, Real.cos, Real.arctan⟩
        [Op.kill 0, Op.spawn pointEmitter 1]
        ((uniformStore 2 ⟨0, 0, 0⟩ ⟨0, 0, 0⟩ (fun _ => false) : Store ℝ), fun _ => 0) ∧
      (runOps ⟨Real.sqrt, Real.sin, Real.cos, Real.arctan⟩
        (([Op.kill 0, Op.spawn pointEmitter 1] : List (Op ℝ)).take 2)
        (uniformStore 2 ⟨0, 0, 0⟩ ⟨0, 0, 0⟩ (fun _ => false), fun _ => 0)).1.InRange :=
  have h1 : (uniformStore 2 ⟨0, 0, 0⟩ ⟨0, 0, 0⟩ (fun _ => false) : Store ℝ).InRange := by
    simp [Store.InRange, uniformStore, MAXPARTICLES]
  have h2 : OpsAdmissible ⟨Real.sqrt, Real.sin, Real.cos, Real.arctan⟩
      [Op.kill 0, Op.spawn pointEmitter 1]
      ((uniformStore 2 ⟨0, 0, 0⟩ ⟨0, 0, 0⟩ (fun _ => false) : Store ℝ), fun _ => 0) := by
    simp [OpsAdmissible, Op.Admissible, uniformStore]
  ⟨h1, h2, (capacity_invariant _ _ _ _ h1 h2).1 2⟩

/-! ## Theorems: `spawnParticles` -/

theorem spawnOne_stream [LinearOrderedField F] [FloorRing F] (m : Libm F) (emitter : Emitter F)
    (g : Rand) (s : Store F) :
    (spawnOne m emitter g s).2 = g.drop (drawsPerPass emitter) := by
  unfold spawnOne spawnPosition drawsPerPass
  by_cases hd : emitter.shape.name = "disk"
  · simp only [hd, if_true]
    funext n
    simp [Rand.drop, Nat.add_assoc]
  · simp only [hd, if_false]

theorem spawnOne_rowAt_other [LinearOrderedField F] [FloorRing F] (m : Libm F) (emitter : Emitter F)
    (g : Rand) (s : Store F) (j : Int) (hj : j ≠ s.numParticles) :
    (spawnOne m emitter g s).1.rowAt j = s.rowAt j := by
  simp [spawnOne, Store.rowAt, Function.update_noteq hj]

theorem spawnOne_grounded [LinearOrderedField F] [FloorRing F] (m : Libm F) (emitter : Emitter F)
    (g : Rand) (s : Store F) : (spawnOne m emitter g s).1.grounded = s.grounded := rfl

/-- The row written by a pass depends on the store only through the cursor and the stale
`grounded` entry under it. -/
theorem spawnOne_rowAt_cursor [LinearOrderedField F] [FloorRing F]
    (m : Libm F) (emitter : Emitter F)
    (g : Rand) (s t : Store F) (hg : s.grounded s.numParticles = t.grounded t.numParticles) :
    (spawnOne m emitter g s).1.rowAt s.numParticles =
      (spawnOne m emitter g t).1.rowAt t.numParticles := by
  simp [spawnOne, Store.rowAt, hg]

theorem Rand.drop_drop (a b : Nat) (g : Rand) : (g.drop a).drop b = g.drop (a + b) := by
  funext n
  simp [Rand.drop, Nat.add_assoc, Nat.add_comm b a]

/-- The loop of `spawnParticles` with room for all its passes: it appends `k` rows, in
order, and touches nothing else. -/
theorem spawnLoop_room [LinearOrderedField F] [FloorRing F] (m : Libm F) (emitter : Emitter F)
    (k : Nat) (g : Rand) (s : Store F) (hroom : s.numParticles + k ≤ MAXPARTICLES) :
    (spawnLoop m emitter k g s).1.numParticles = s.numParticles + k ∧
      (spawnLoop m emitter k g s).1.grounded = s.grounded ∧
      (∀ j : Int, j < s.numParticles → (spawnLoop m emitter k g s).1.rowAt j = s.rowAt j) ∧
      (∀ i : Nat, i < k →
        (spawnLoop m emitter k g s).1.rowAt (s.numParticles + i) =
          (spawnOne m emitter (g.drop (i * drawsPerPass emitter))
            { s with numParticles := s.numParticles + i }).1.rowAt (s.numParticles + i)) := by
  induction k generalizing g s with
  | zero =>
    refine ⟨by simp [spawnLoop], rfl, fun j _ => rfl, fun i hi => absurd hi (Nat.not_lt_zero i)⟩
  | succ k ih =>
    have hnot : ¬ s.numParticles ≥ MAXPARTICLES := by push_cast at hroom; omega
    have hstep : spawnLoop m emitter (k + 1) g s =
        spawnLoop m emitter k (spawnOne m emitter g s).2 (spawnOne m emitter g s).1 := by
      rw [spawnLoop, if_neg hnot]
    have hroom' : (spawnOne m emitter g s).1.numParticles + k ≤ MAXPARTICLES := by
      rw [spawnOne_numParticles]; push_cast at hroom; omega
    obtain ⟨ih1, ih2, ih3, ih4⟩ := ih (spawnOne m emitter g s).2 (spawnOne m emitter g s).1 hroom'
    rw [hstep]
    refine ⟨?_, ?_, ?_, ?_⟩
    · rw [ih1, spawnOne_numParticles]; push_cast; ring
    · rw [ih2, spawnOne_grounded]
    · intro j hj
      rw [ih3 j (by rw [spawnOne_numParticles]; omega)]
      exact spawnOne_rowAt_other m emitter g s j (by omega)
    · intro i hi
      cases i with
      | zero =>
        have h0 : s.numParticles + ((0 : Nat) : Int) = s.numParticles := by simp
        rw [h0, ih3 _ (by rw [spawnOne_numParticles]; omega)]
        have hg : g.drop (0 * drawsPerPass emitter) = g := by
          funext n; simp [Rand.drop]
        rw [hg]
      | succ i =>
        have hi' : i < k := by omega
        have hidx : s.numParticles + ((i + 1 : Nat) : Int) =
            (spawnOne m emitter g s).1.numParticles + (i : Int) := by
          rw [spawnOne_numParticles]; push_cast; ring
        have h4 := ih4 i hi'
        rw [← hidx] at h4
        rw [h4, spawnOne_stream, Rand.drop_drop]
        have hd : drawsPerPass emitter + i * drawsPerPass emitter =
            (i + 1) * drawsPerPass emitter := by ring
        rw [hd]
        exact spawnOne_rowAt_cursor m emitter _ _ _ rfl

theorem random_nonneg [LinearOrderedField F] [FloorRing F] (max r : Nat) :
    (0 : F) ≤ random max false r := by
  simp only [random, Bool.false_eq_true, if_false]
  exact roundTo_nonneg 53 (-1022) _ (by positivity)

theorem storedExpected_nonneg [LinearOrderedField F] [FloorRing F]
    (emitter : Emitter F) (dt : F) (hexp : 0 ≤ emitter.genRate * dt) :
    0 ≤ storedExpected emitter dt :=
  roundTo_nonneg 24 (-126) _ (roundTo_nonneg 53 (-1022) _ hexp)

theorem isFloat_storedExpected [LinearOrderedField F] [FloorRing F]
    (emitter : Emitter F) (dt : F) : IsFloat (storedExpected emitter dt) :=
  isFloat_toFloat _

/-- The `float fraction` of `spawnParticles` is computed without rounding. -/
theorem toFloat_fraction [LinearOrderedField F] [FloorRing F]
    (emitter : Emitter F) (dt : F) (hexp : 0 ≤ emitter.genRate * dt) :
    toFloat (storedExpected emitter dt - (⌊storedExpected emitter dt⌋ : F)) =
      storedExpected emitter dt - (⌊storedExpected emitter dt⌋ : F) :=
  isFloat_sub_floor _ (isFloat_storedExpected emitter dt) (storedExpected_nonneg emitter dt hexp)

theorem numToSpawn_eq_statedCount [LinearOrderedField F] [FloorRing F]
    (emitter : Emitter F) (dt : F) (r : Nat) (hexp : 0 ≤ emitter.genRate * dt) :
    numToSpawn emitter dt r = statedCount (storedExpected emitter dt) r := by
  have h0 := storedExpected_nonneg emitter dt hexp
  have hfr := toFloat_fraction emitter dt hexp
  have he : toFloat (toDouble (emitter.genRate * dt)) = storedExpected emitter dt := rfl
  simp only [numToSpawn, statedCount, toInt, he, if_pos h0, hfr]
  split_ifs <;> simp

theorem statedCount_bounds [LinearOrderedField F] [FloorRing F]
    (expected : F) (r : Nat) (hexp : 0 ≤ expected) :
    0 ≤ statedCount expected r ∧ statedCount expected r ≤ ⌊expected⌋ + 1 := by
  have hfl : 0 ≤ ⌊expected⌋ := Int.floor_nonneg.mpr hexp
  unfold statedCount
  split_ifs <;> constructor <;> omega

/-- The content of C7 as the code has it, shared with the other statements about
`spawnParticles`. -/
theorem spawnParticles_rows [LinearOrderedField F] [FloorRing F] (m : Libm F)
    (emitter : Emitter F) (dt : F) (g : Rand) (s : Store F)
    (hexp : 0 ≤ emitter.genRate * dt)
    (hroom : s.numParticles + (⌊storedExpected emitter dt⌋ + 1) ≤ MAXPARTICLES) :
    (spawnParticles m emitter dt g s).1.numParticles =
        s.numParticles + statedCount (storedExpected emitter dt) (g 0) ∧
      (spawnParticles m emitter dt g s).1.grounded = s.grounded ∧
      (∀ j : Int, j < s.numParticles →
        (spawnParticles m emitter dt g s).1.rowAt j = s.rowAt j) ∧
      (∀ i : Nat, (i : Int) < statedCount (storedExpected emitter dt) (g 0) →
        (spawnParticles m emitter dt g s).1.rowAt (s.numParticles + i) =
          (spawnOne m emitter (g.drop (1 + i * drawsPerPass emitter))
            { s with numParticles := s.numParticles + i }).1.rowAt (s.numParticles + i)) := by
  obtain ⟨hc0, hc1⟩ := statedCount_bounds (storedExpected emitter dt) (g 0)
    (storedExpected_nonneg emitter dt hexp)
  have hnat : ((statedCount (storedExpected emitter dt) (g 0)).toNat : Int) =
      statedCount (storedExpected emitter dt) (g 0) := Int.toNat_of_nonneg hc0
  have hroom' : s.numParticles + ((statedCount (storedExpected emitter dt) (g 0)).toNat : Int) ≤
      MAXPARTICLES := by rw [hnat]; omega
  obtain ⟨h1, h2, h3, h4⟩ := spawnLoop_room m emitter _ (g.drop 1) s hroom'
  unfold spawnParticles
  rw [numToSpawn_eq_statedCount emitter dt (g 0) hexp]
  refine ⟨by rw [h1, hnat], h2, h3, ?_⟩
  intro i hi
  rw [h4 i (by omega), Rand.drop_drop]

/-- The `double` nearest `3/10`. -/
theorem toDouble_three_tenths [LinearOrderedField F] [FloorRing F] :
    toDouble ((3 : F) / 10) = 5404319552844595 / 18014398509481984 := by
  unfold toDouble
  rw [roundTo_eq_of_bracket 53 (-1022) (-2) _ (by rw [abs_of_pos (by norm_num)]; norm_num)
    (by rw [abs_of_pos (by norm_num)]; norm_num)]
  rw [roundHalfEven_eq_of_near 5404319552844595]
  · norm_num
  · norm_num [abs_lt]

/-- The `double` nearest `3/10` is stored unchanged in a `double`. -/
theorem toDouble_double_three_tenths [LinearOrderedField F] [FloorRing F] :
    toDouble ((5404319552844595 : F) / 18014398509481984) =
      5404319552844595 / 18014398509481984 := by
  have h := roundTo_dyadic (F := F) 53 (-1022) 5404319552844595 (-54) (by norm_num)
    (by norm_num)
  have e : ((5404319552844595 : Int) : F) * (2 : F) ^ (-54 : Int) =
      5404319552844595 / 18014398509481984 := by norm_num
  rw [e] at h
  exact h

/-- The `float` nearest the `double` nearest `3/10` is above it (and above `3/10`). -/
theorem toFloat_double_three_tenths [LinearOrderedField F] [FloorRing F] :
    toFloat ((5404319552844595 : F) / 18014398509481984) = 5033165 / 16777216 := by
  unfold toFloat
  rw [roundTo_eq_of_bracket 24 (-126) (-2) _ (by rw [abs_of_pos (by norm_num)]; norm_num)
    (by rw [abs_of_pos (by norm_num)]; norm_num)]
  rw [roundHalfEven_eq_of_near 10066330]
  · norm_num
  · norm_num [abs_lt]

theorem random100_thirty [LinearOrderedField F] [FloorRing F] :
    (random 100 false 30 : F) = 5404319552844595 / 18014398509481984 := by
  have e : (((30 % 100 : Nat) : F)) / ((100 : Nat) : F) = 3 / 10 := by norm_num
  simp only [random, Bool.false_eq_true, if_false]
  rw [e, toDouble_three_tenths]

/-- With `genRate = 1` and `dt` the `double` nearest `0.3`, the `float numToSpawn` holds
`5033165 / 16777216`, above `0.3`. -/
theorem storedExpected_three_tenths :
    storedExpected (pointEmitter : Emitter ℝ) (5404319552844595 / 18014398509481984) =
      5033165 / 16777216 := by
  have hE : (pointEmitter : Emitter ℝ).genRate * (5404319552844595 / 18014398509481984) =
      5404319552844595 / 18014398509481984 := by simp [pointEmitter]
  unfold storedExpected
  rw [hE, toDouble_double_three_tenths, toFloat_double_three_tenths]

/-- C7 (as stated, fails on the code): with `genRate = 1`, `dt` the `double` nearest `0.3`,
the result `30` of `rand()` behind the draw and an empty store, `expected = genRate*dt` is
non-negative and the store has room, and the count the claim states is `0`, the draw
`30/100.0` not being below `expected - floor(expected)`; but `spawnParticles` appends one
particle, the `float` that holds `expected` being above the draw. -/
theorem spawnParticles_appends_one_at_three_tenths :
    (0 : ℝ) ≤ (pointEmitter : Emitter ℝ).genRate * (5404319552844595 / 18014398509481984) ∧
      (uniformStore 0 ⟨0, 0, 0⟩ ⟨0, 0, 0⟩ (fun _ => false) : Store ℝ).numParticles +
        (⌊(pointEmitter : Emitter ℝ).genRate * (5404319552844595 / 18014398509481984)⌋ + 1)
          ≤ MAXPARTICLES ∧
      statedCount
        ((pointEmitter : Emitter ℝ).genRate * (5404319552844595 / 18014398509481984)) 30 = 0 ∧
      (spawnParticles ⟨Real.sqrt, Real.sin, Real.cos, Real.arctan⟩ pointEmitter
          (5404319552844595 / 18014398509481984 : ℝ) (fun _ => 30)
          (uniformStore 0 ⟨0, 0, 0⟩ ⟨0, 0, 0⟩ (fun _ => false))).1.numParticles = 1 := by
  have hE : (pointEmitter : Emitter ℝ).genRate * (5404319552844595 / 18014398509481984) =
      5404319552844595 / 18014398509481984 := by simp [pointEmitter]
  have hfl : ⌊(5404319552844595 / 18014398509481984 : ℝ)⌋ = 0 := by
    norm_num [Int.floor_eq_iff]
  have hfl2 : ⌊(5033165 / 16777216 : ℝ)⌋ = 0 := by norm_num [Int.floor_eq_iff]
  have h1 : (0 : ℝ) ≤
      (pointEmitter : Emitter ℝ).genRate * (5404319552844595 / 18014398509481984) := by
    rw [hE]; norm_num
  have h2 : (uniformStore 0 ⟨0, 0, 0⟩ ⟨0, 0, 0⟩ (fun _ => false) : Store ℝ).numParticles +
      (⌊(pointEmitter : Emitter ℝ).genRate * (5404319552844595 / 18014398509481984)⌋ + 1)
        ≤ MAXPARTICLES := by
    rw [hE, hfl]; simp [uniformStore, MAXPARTICLES]
  have h2' : (uniformStore 0 ⟨0, 0, 0⟩ ⟨0, 0, 0⟩ (fun _ => false) : Store ℝ).numParticles +
      (⌊storedExpected (pointEmitter : Emitter ℝ) (5404319552844595 / 18014398509481984)⌋ + 1)
        ≤ MAXPARTICLES := by
    rw [storedExpected_three_tenths, hfl2]; simp [uniformStore, MAXPARTICLES]
  have hn := (spawnParticles_rows ⟨Real.sqrt, Real.sin, Real.cos, Real.arctan⟩ pointEmitter
    (5404319552844595 / 18014398509481984 : ℝ) (fun _ => 30) _ h1 h2').1
  refine ⟨h1, h2, ?_, ?_⟩
  · rw [hE]
    unfold statedCount
    rw [hfl, random100_thirty]
    norm_num
  · rw [hn, storedExpected_three_tenths]
    unfold statedCount
    rw [hfl2, random100_thirty]
    norm_num [uniformStore]

/-- C7 (amended): when `expected = genRate*dt >= 0` and, with `e` the `float` that holds
the `double` product `genRate*dt`, the store has at least `floor(e)+1` free slots,
`spawnParticles` appends exactly `floor(e)` particles, plus one when the draw
`random(100, false)` is below `e - floor(e)`: `numParticles` grows by that count, the
particle of pass `i` is in slot `numParticles + i` (the row that one pass of the loop body
writes at that cursor from the stream after `1 + i * drawsPerPass` draws), and every slot
below the old `numParticles` is unchanged in every column. -/
theorem spawnParticles_appends_stored_count [LinearOrderedField F] [FloorRing F]
    (m : Libm F) (emitter : Emitter F) (dt : F) (g : Rand) (s : Store F)
    (hexp : 0 ≤ emitter.genRate * dt)
    (hroom : s.numParticles + (⌊storedExpected emitter dt⌋ + 1) ≤ MAXPARTICLES) :
    (spawnParticles m emitter dt g s).1.numParticles =
        s.numParticles + statedCount (storedExpected emitter dt) (g 0) ∧
      (∀ j : Int, j < s.numParticles →
        (spawnParticles m emitter dt g s).1.rowAt j = s.rowAt j) ∧
      (∀ i : Nat, (i : Int) < statedCount (storedExpected emitter dt) (g 0) →
        (spawnParticles m emitter dt g s).1.rowAt (s.numParticles + i) =
          (spawnOne m emitter (g.drop (1 + i * drawsPerPass emitter))
            { s with numParticles := s.numParticles + i }).1.rowAt (s.numParticles + i)) :=
  have h := spawnParticles_rows m emitter dt g s hexp hroom
  ⟨h.1, h.2.2.1, h.2.2.2⟩

/-- Witness of C7: the point emitter with `dt` the `double` nearest `0.3` and the result
`30` of `rand()` behind the draw, on a store of two live particles: the `float` that holds
`genRate*dt` is `5033165 / 16777216`, the draw is below it, one particle is appended, in
slot 2, and slot 1 is as it was. -/
theorem spawnParticles_appends_stored_count_witness :
    (0 : ℝ) ≤ (pointEmitter : Emitter ℝ).genRate * (5404319552844595 / 18014398509481984) ∧
      (uniformStore 2 ⟨0, 0, 0⟩ ⟨0, 0, 0⟩ (fun _ => false) : Store ℝ).numParticles +
        (⌊storedExpected (pointEmitter : Emitter ℝ)
          (5404319552844595 / 18014398509481984)⌋ + 1) ≤ MAXPARTICLES ∧
      statedCount (storedExpected (pointEmitter : Emitter ℝ)
        (5404319552844595 / 18014398509481984)) 30 = 1 ∧
      (spawnParticles ⟨Real.sqrt, Real.sin, Real.cos, Real.arctan⟩ pointEmitter
          (5404319552844595 / 18014398509481984 : ℝ) (fun _ => 30)
          (uniformStore 2 ⟨0, 0, 0⟩ ⟨0, 0, 0⟩ (fun _ => false))).1.numParticles = 2 + 1 ∧
      (spawnParticles ⟨Real.sqrt, Real.sin, Real.cos, Real.arctan⟩ pointEmitter
          (5404319552844595 / 18014398509481984 : ℝ) (fun _ => 30)
          (uniformStore 2 ⟨0, 0, 0⟩ ⟨0, 0, 0⟩ (fun _ => false))).1.rowAt 1 =
        (uniformStore 2 ⟨0, 0, 0⟩ ⟨0, 0, 0⟩ (fun _ => false) : Store ℝ).rowAt 1 := by
  have hE : (pointEmitter : Emitter ℝ).genRate * (5404319552844595 / 18014398509481984) =
      5404319552844595 / 18014398509481984 := by simp [pointEmitter]
  have hfl2 : ⌊(5033165 / 16777216 : ℝ)⌋ = 0 := by norm_num [Int.floor_eq_iff]
  have h1 : (0 : ℝ) ≤
      (pointEmitter : Emitter ℝ).genRate * (5404319552844595 / 18014398509481984) := by
    rw [hE]; norm_num
  have h2 : (uniformStore 2 ⟨0, 0, 0⟩ ⟨0, 0, 0⟩ (fun _ => false) : Store ℝ).numParticles +
      (⌊storedExpected (pointEmitter : Emitter ℝ)
        (5404319552844595 / 18014398509481984)⌋ + 1) ≤ MAXPARTICLES := by
    rw [storedExpected_three_tenths, hfl2]; simp [uniformStore, MAXPARTICLES]
  have hc : statedCount (storedExpected (pointEmitter : Emitter ℝ)
      (5404319552844595 / 18014398509481984)) 30 = 1 := by
    rw [storedExpected_three_tenths]
    unfold statedCount
    rw [hfl2, random100_thirty]
    norm_num
  have h := spawnParticles_appends_stored_count ⟨Real.sqrt, Real.sin, Real.cos, Real.arctan⟩
    pointEmitter (5404319552844595 / 18014398509481984 : ℝ) (fun _ => 30)
    (uniformStore 2 ⟨0, 0, 0⟩ ⟨0, 0, 0⟩ (fun _ => false)) h1 h2
  refine ⟨h1, h2, hc, ?_, h.2.1 1 (by simp [uniformStore])⟩
  rw [h.1, hc]
  rfl

/-- Supporting fact for C8: the row a pass of the loop writes at the cursor has age `0`
and the emitter's lighting and force flag, and keeps the `grounded` entry the slot had. -/
theorem spawnOne_cursor_fields [LinearOrderedField F] [FloorRing F]
    (m : Libm F) (emitter : Emitter F)
    (g : Rand) (s : Store F) :
    ((spawnOne m emitter g s).1.rowAt s.numParticles).age = 0 ∧
      ((spawnOne m emitter g s).1.rowAt s.numParticles).lighting =
        emitter.properties.lighting ∧
      ((spawnOne m emitter g s).1.rowAt s.numParticles).force = emitter.properties.force ∧
      ((spawnOne m emitter g s).1.rowAt s.numParticles).grounded =
        s.grounded s.numParticles := by
  simp [spawnOne, Store.rowAt]

theorem storedExpected_pointEmitter_one :
    storedExpected (pointEmitter : Emitter ℝ) 1 = 1 := by
  have hE : (pointEmitter : Emitter ℝ).genRate * 1 = 1 := by simp [pointEmitter]
  unfold storedExpected
  rw [hE, toDouble_one, toFloat_one]

theorem statedCount_pointEmitter (r : Nat) :
    statedCount (storedExpected (pointEmitter : Emitter ℝ) 1) r = 1 := by
  have h := random_nonneg (F := ℝ) 100 r
  have hn : ¬ (random 100 false r : ℝ) < 0 := not_lt.mpr h
  rw [storedExpected_pointEmitter_one]
  simp [statedCount, hn]

theorem spawnParticles_pointEmitter_numParticles (g : Rand) (gr : Int → Bool) :
    (spawnParticles ⟨Real.sqrt, Real.sin, Real.cos, Real.arctan⟩ pointEmitter (1 : ℝ) g
      (uniformStore 0 ⟨0, 0, 0⟩ ⟨0, 0, 0⟩ gr)).1.numParticles = 1 := by
  have h1 : (0 : ℝ) ≤ (pointEmitter : Emitter ℝ).genRate * 1 := by simp [pointEmitter]
  have h2 : (uniformStore 0 ⟨0, 0, 0⟩ ⟨0, 0, 0⟩ gr : Store ℝ).numParticles +
      (⌊storedExpected (pointEmitter : Emitter ℝ) 1⌋ + 1) ≤ MAXPARTICLES := by
    rw [storedExpected_pointEmitter_one]
    simp [uniformStore, MAXPARTICLES]
  have hn := (spawnParticles_rows
    ⟨Real.sqrt, Real.sin, Real.cos, Real.arctan⟩ pointEmitter 1 g _ h1 h2).1
  rw [statedCount_pointEmitter] at hn
  rw [hn]
  rfl

/-- C8 (fails on the code): on an empty store whose slot 0 still has `grounded` set by an
earlier particle, `spawnParticles` with the point emitter and `genRate * dt = 1` appends
one particle, in slot 0, with age `0` and the emitter's lighting and force flag, but with
`grounded` still set: no pass of the loop writes `grounded[numParticles]`. -/
theorem spawnParticles_keeps_stale_grounded :
    (spawnParticles ⟨Real.sqrt, Real.sin, Real.cos, Real.arctan⟩ pointEmitter (1 : ℝ)
        (fun _ => 0) (uniformStore 0 ⟨0, 0, 0⟩ ⟨0, 0, 0⟩ (fun _ => true))).1.numParticles = 1 ∧
      ((spawnParticles ⟨Real.sqrt, Real.sin, Real.cos, Real.arctan⟩ pointEmitter (1 : ℝ)
        (fun _ => 0) (uniformStore 0 ⟨0, 0, 0⟩ ⟨0, 0, 0⟩ (fun _ => true))).1.rowAt 0).grounded
        = true ∧
      ((spawnParticles ⟨Real.sqrt, Real.sin, Real.cos, Real.arctan⟩ pointEmitter (1 : ℝ)
        (fun _ => 0) (uniformStore 0 ⟨0, 0, 0⟩ ⟨0, 0, 0⟩ (fun _ => true))).1.rowAt 0).age
        = 0 := by
  have h1 : (0 : ℝ) ≤ (pointEmitter : Emitter ℝ).genRate * 1 := by simp [pointEmitter]
  have h2 : (uniformStore 0 ⟨0, 0, 0⟩ ⟨0, 0, 0⟩ (fun _ => true) : Store ℝ).numParticles +
      (⌊storedExpected (pointEmitter : Emitter ℝ) 1⌋ + 1) ≤ MAXPARTICLES := by
    rw [storedExpected_pointEmitter_one]
    simp [uniformStore, MAXPARTICLES]
  obtain ⟨_, hg, _, hrow⟩ := spawnParticles_rows
    ⟨Real.sqrt, Real.sin, Real.cos, Real.arctan⟩ pointEmitter 1 (fun _ => 0) _ h1 h2
  rw [statedCount_pointEmitter] at hrow
  have hr := hrow 0 (by norm_num)
  have hnp : (uniformStore 0 ⟨0, 0, 0⟩ ⟨0, 0, 0⟩ (fun _ => true) : Store ℝ).numParticles = 0 :=
    rfl
  rw [hnp] at hr
  simp only [Nat.cast_zero, add_zero, zero_add] at hr
  refine ⟨spawnParticles_pointEmitter_numParticles _ _, ?_, ?_⟩
  · show (spawnParticles _ _ _ _ _).1.grounded 0 = true
    rw [hg]; rfl
  · rw [hr]; simp [spawnOne, Store.rowAt]

/-- The loop of `spawnParticles`, with or without room: the cursor does not go down, the
`grounded` column is not written, and the rows below the cursor are unchanged. -/
theorem spawnLoop_below [LinearOrderedField F] [FloorRing F] (m : Libm F) (emitter : Emitter F)
    (k : Nat) (g : Rand) (s : Store F) :
    s.numParticles ≤ (spawnLoop m emitter k g s).1.numParticles ∧
      (spawnLoop m emitter k g s).1.grounded = s.grounded ∧
      (∀ j : Int, j < s.numParticles → (spawnLoop m emitter k g s).1.rowAt j = s.rowAt j) := by
  induction k generalizing g s with
  | zero => exact ⟨le_refl _, rfl, fun j _ => rfl⟩
  | succ k ih =>
    unfold spawnLoop
    split_ifs with hfull
    · exact ⟨le_refl _, rfl, fun j _ => rfl⟩
    · obtain ⟨ih1, ih2, ih3⟩ := ih (spawnOne m emitter g s).2 (spawnOne m emitter g s).1
      rw [spawnOne_numParticles] at ih1 ih3
      refine ⟨by omega, by rw [ih2, spawnOne_grounded], ?_⟩
      intro j hj
      rw [ih3 j (by omega)]
      exact spawnOne_rowAt_other m emitter g s j (by omega)

/-- Every row the loop of `spawnParticles` appends is the row one pass of its body
writes at that cursor, over the `grounded` column of the store the call started from. -/
theorem spawnLoop_appended [LinearOrderedField F] [FloorRing F] (m : Libm F) (emitter : Emitter F)
    (k : Nat) (g : Rand) (s : Store F) (j : Int) (hlo : s.numParticles ≤ j)
    (hhi : j < (spawnLoop m emitter k g s).1.numParticles) :
    ∃ (g' : Rand) (t : Store F), t.numParticles = j ∧ t.grounded = s.grounded ∧
      (spawnLoop m emitter k g s).1.rowAt j = (spawnOne m emitter g' t).1.rowAt j := by
  induction k generalizing g s with
  | zero =>
    simp only [spawnLoop] at hhi
    omega
  | succ k ih =>
    unfold spawnLoop at hhi ⊢
    split_ifs at hhi ⊢ with hfull
    · simp only at hhi
      omega
    · by_cases hj : j = s.numParticles
      · refine ⟨g, s, hj.symm, rfl, ?_⟩
        have h3 := (spawnLoop_below m emitter k (spawnOne m emitter g s).2
          (spawnOne m emitter g s).1).2.2 j (by rw [spawnOne_numParticles]; omega)
        rw [h3]
      · obtain ⟨g', t, ht1, ht2, ht3⟩ := ih (spawnOne m emitter g s).2
          (spawnOne m emitter g s).1 (by rw [spawnOne_numParticles]; omega) hhi
        exact ⟨g', t, ht1, by rw [ht2, spawnOne_grounded], ht3⟩

/-! ## Theorems: `range` and the ranged attributes -/

/-- A positive value of a format is at least the least positive value of the format. -/
theorem le_of_fixed_pos [LinearOrderedField F] [FloorRing F] (p : Nat) (emin : Int) (c : F)
    (hc : roundTo p emin c = c) (hpos : 0 < c) : (2 : F) ^ (emin - ((p : Int) - 1)) ≤ c := by
  obtain ⟨N, _, hg⟩ := fixed_grid_bound p emin c hc
  have hE := ulpExponent_ge p emin c
  generalize ulpExponent p emin c = E at hg hE
  have hp := two_zpow_pos (F := F) E
  have hNpos : (0 : F) < (N : F) := by
    rw [hg] at hpos
    exact pos_of_mul_pos_left hpos hp.le
  have hN1 : (1 : F) ≤ (N : F) := by
    have : (0 : Int) < N := by exact_mod_cast hNpos
    have : (1 : Int) ≤ N := by omega
    exact_mod_cast this
  calc (2 : F) ^ (emin - ((p : Int) - 1)) ≤ (2 : F) ^ E :=
        zpow_le_zpow_right₀ (by norm_num) hE
    _ = 1 * (2 : F) ^ E := by ring
    _ ≤ (N : F) * (2 : F) ^ E := mul_le_mul_of_nonneg_right hN1 hp.le
    _ = c := hg.symm

/-- The draw `random(1000, false)` is at most `1 - 2^-11`. -/
theorem random1000_le [LinearOrderedField F] [FloorRing F] (r : Nat) :
    (random 1000 false r : F) ≤ 2047 / 2048 := by
  simp only [random, Bool.false_eq_true, if_false]
  have hc : roundTo 53 (-1022) ((2047 : F) / 2048) = 2047 / 2048 := by
    have h := roundTo_dyadic (F := F) 53 (-1022) 2047 (-11) (by norm_num) (by norm_num)
    have e : ((2047 : Int) : F) * (2 : F) ^ (-11 : Int) = 2047 / 2048 := by norm_num
    rw [e] at h
    exact h
  have hq : ((r % 1000 : Nat) : F) / ((1000 : Nat) : F) ≤ 2047 / 2048 := by
    have hk : r % 1000 ≤ 999 := by omega
    have hk' : ((r % 1000 : Nat) : F) ≤ 999 := by exact_mod_cast hk
    rw [div_le_iff₀ (by norm_num)]
    push_cast
    linarith
  exact roundTo_le_of_fixed 53 (-1022) (by norm_num) _ _ hc hq

/-- The draw `random(1000, false)`, when not zero, is at least `2^-10`. -/
theorem random1000_ge_of_pos [LinearOrderedField F] [FloorRing F] (r : Nat)
    (h : (0 : F) < random 1000 false r) : (1 : F) / 1024 ≤ random 1000 false r := by
  simp only [random, Bool.false_eq_true, if_false] at h ⊢
  have hc : roundTo 53 (-1022) ((1 : F) / 1024) = 1 / 1024 := by
    have h := roundTo_dyadic (F := F) 53 (-1022) 1 (-10) (by norm_num) (by norm_num)
    have e : ((1 : Int) : F) * (2 : F) ^ (-10 : Int) = 1 / 1024 := by norm_num
    rw [e] at h
    exact h
  have hk : 1 ≤ r % 1000 := by
    by_contra hc0
    have h0 : r % 1000 = 0 := by omega
    rw [h0] at h
    simp [toDouble_zero] at h
  have hk' : (1 : F) ≤ ((r % 1000 : Nat) : F) := by exact_mod_cast hk
  have hq : (1 : F) / 1024 ≤ ((r % 1000 : Nat) : F) / ((1000 : Nat) : F) := by
    rw [le_div_iff₀ (by norm_num)]
    push_cast
    linarith
  exact le_roundTo_of_fixed 53 (-1022) (by norm_num) _ _ hc hq

/-- The `double` product of the `float` difference `max - min` and the draw does not
exceed the exact difference. -/
theorem range_offset_le [LinearOrderedField F] [FloorRing F] (min max : F) (r : Nat)
    (hmin : IsFloat min) (hmax : IsFloat max) (h : min ≤ max) :
    0 ≤ toDouble (toFloat (max - min) * random 1000 false r) ∧
      toDouble (toFloat (max - min) * random 1000 false r) ≤ max - min := by
  have hx : 0 ≤ max - min := sub_nonneg.mpr h
  have hu0 := random_nonneg (F := F) 1000 r
  have hu1 := random1000_le (F := F) r
  have hd0 : 0 ≤ toFloat (max - min) := roundTo_nonneg 24 (-126) _ hx
  have hd1 := toFloat_sub_le_mul max min hmax hmin h
  have hdf : IsFloat (toFloat (max - min)) := isFloat_toFloat _
  have hupos := random1000_ge_of_pos (F := F) r
  generalize toFloat (max - min) = d at hd0 hd1 hdf
  generalize (random 1000 false r : F) = u at hu0 hu1 hupos
  refine ⟨roundTo_nonneg 53 (-1022) _ (mul_nonneg hd0 hu0), ?_⟩
  rcases eq_or_lt_of_le (mul_nonneg hd0 hu0) with hz | hpos
  · rw [← hz, toDouble_zero]
    exact hx
  · have hdpos : 0 < d := by
      rcases eq_or_lt_of_le hd0 with h0 | h0
      · rw [← h0, zero_mul] at hpos
        exact absurd hpos (lt_irrefl 0)
      · exact h0
    have hupos' : 0 < u := pos_of_mul_pos_right hpos hd0
    have hdmin := le_of_fixed_pos 24 (-126) d hdf hdpos
    have humin := hupos hupos'
    have hnorm : (2 : F) ^ (-1022 : Int) ≤ d * u := by
      have h1 : (2 : F) ^ (-126 - (((24 : Nat) : Int) - 1)) * (1 / 1024) ≤ d * u :=
        mul_le_mul hdmin humin (by norm_num) hd0
      have h2 : (2 : F) ^ (-1022 : Int) ≤
          (2 : F) ^ (-126 - (((24 : Nat) : Int) - 1)) * (1 / 1024) := by
        have e : (1 : F) / 1024 = (2 : F) ^ (-10 : Int) := by norm_num
        rw [e, ← zpow_add₀ (by norm_num : (2 : F) ≠ 0)]
        exact zpow_le_zpow_right₀ (by norm_num) (by norm_num)
      exact le_trans h2 h1
    have ht := roundTo_le_mul 53 (-1022) (d * u) hnorm
    have h1 : d * u ≤ (max - min) * (1 + (2 : F) ^ (-(24 : Int))) * (2047 / 2048) :=
      mul_le_mul hd1 hu1 hu0 (le_trans hd0 hd1)
    have hc : (0 : F) ≤ 1 + (2 : F) ^ (-((53 : Nat) : Int)) := by positivity
    have h3 := mul_le_mul_of_nonneg_right h1 hc
    have hnum : (1 + (2 : F) ^ (-(24 : Int))) * (2047 / 2048) *
        (1 + (2 : F) ^ (-((53 : Nat) : Int))) ≤ 1 := by norm_num
    have h4 := mul_le_mul_of_nonneg_left hnum hx
    unfold toDouble
    calc roundTo 53 (-1022) (d * u) ≤ d * u * (1 + (2 : F) ^ (-((53 : Nat) : Int))) := ht
      _ ≤ (max - min) * (1 + (2 : F) ^ (-(24 : Int))) * (2047 / 2048) *
            (1 + (2 : F) ^ (-((53 : Nat) : Int))) := h3
      _ = (max - min) * ((1 + (2 : F) ^ (-(24 : Int))) * (2047 / 2048) *
            (1 + (2 : F) ^ (-((53 : Nat) : Int)))) := by ring
      _ ≤ (max - min) * 1 := h4
      _ = max - min := mul_one _

theorem range_within [LinearOrderedField F] [FloorRing F] (min max : F) (r : Nat)
    (hmin : IsFloat min) (hmax : IsFloat max) (h : min ≤ max) :
    Within min max (range min max r) := by
  obtain ⟨h0, h1⟩ := range_offset_le min max r hmin hmax h
  unfold Within range
  constructor
  · apply le_roundTo_of_fixed 24 (-126) (by norm_num) min _ hmin
    apply le_roundTo_of_fixed 53 (-1022) (by norm_num) min _ (isDouble_of_isFloat min hmin)
    linarith
  · apply roundTo_le_of_fixed 24 (-126) (by norm_num) max _ hmax
    apply roundTo_le_of_fixed 53 (-1022) (by norm_num) max _ (isDouble_of_isFloat max hmax)
    linarith

theorem spawnOne_withinRanges [LinearOrderedField F] [FloorRing F]
    (m : Libm F) (emitter : Emitter F)
    (g : Rand) (s : Store F) (h : emitter.properties.RangesValid) :
    Row.WithinRanges emitter.properties ((spawnOne m emitter g s).1.rowAt s.numParticles) := by
  obtain ⟨⟨v1, v2, v3⟩, ⟨a1, a2, a3, a4⟩, ⟨b1, b2, b3, b4⟩, c1, c2, c3, c4⟩ := h
  simp only [spawnOne, Store.rowAt, Function.update_same, Row.WithinRanges]
  exact ⟨⟨range_within _ _ _ v1.1 v1.2.1 v1.2.2.1, range_within _ _ _ v2.1 v2.2.1 v2.2.2.1,
      range_within _ _ _ v3.1 v3.2.1 v3.2.2.1⟩,
    ⟨range_within _ _ _ a1.1 a1.2.1 a1.2.2.1, range_within _ _ _ a2.1 a2.2.1 a2.2.2.1,
      range_within _ _ _ a3.1 a3.2.1 a3.2.2.1, range_within _ _ _ a4.1 a4.2.1 a4.2.2.1⟩,
    ⟨range_within _ _ _ b1.1 b1.2.1 b1.2.2.1, range_within _ _ _ b2.1 b2.2.1 b2.2.2.1,
      range_within _ _ _ b3.1 b3.2.1 b3.2.2.1, range_within _ _ _ b4.1 b4.2.1 b4.2.2.1⟩,
    range_within _ _ _ c1.1 c1.2.1 c1.2.2.1, range_within _ _ _ c2.1 c2.2.1 c2.2.2.1,
    range_within _ _ _ c3.1 c3.2.1 c3.2.2.1, range_within _ _ _ c4.1 c4.2.1 c4.2.2.1⟩

/-- C10 (as stated, fails on the code): `16777216` and `16777218` are neighbouring floats,
`16777216 < 16777218`, and with the result `875` of `rand()` the draw is `7/8` and the
`double` sum `16777216 + 2 * 7/8 = 16777217.75` is returned as the `float` nearest it,
`16777218`: `range(16777216, 16777218)` returns `max` itself, not a value below `max`. -/
theorem range_returns_max :
    IsFloat (16777216 : ℝ) ∧ IsFloat (16777218 : ℝ) ∧ (16777216 : ℝ) < 16777218 ∧
      range (16777216 : ℝ) 16777218 875 = 16777218 ∧
      ¬ range (16777216 : ℝ) 16777218 875 < 16777218 := by
  have hf1 : IsFloat (16777216 : ℝ) := by
    have h := roundTo_dyadic (F := ℝ) 24 (-126) 8388608 1 (by norm_num) (by norm_num)
    have e : ((8388608 : Int) : ℝ) * (2 : ℝ) ^ (1 : Int) = 16777216 := by norm_num
    rw [e] at h
    exact h
  have hf2 : IsFloat (16777218 : ℝ) := by
    have h := roundTo_dyadic (F := ℝ) 24 (-126) 8388609 1 (by norm_num) (by norm_num)
    have e : ((8388609 : Int) : ℝ) * (2 : ℝ) ^ (1 : Int) = 16777218 := by norm_num
    rw [e] at h
    exact h
  have hu : (random 1000 false 875 : ℝ) = 7 / 8 := by
    simp only [random, Bool.false_eq_true, if_false]
    have h := roundTo_dyadic (F := ℝ) 53 (-1022) 7 (-3) (by norm_num) (by norm_num)
    have e : ((7 : Int) : ℝ) * (2 : ℝ) ^ (-3 : Int) =
        ((875 % 1000 : Nat) : ℝ) / ((1000 : Nat) : ℝ) := by
      norm_num
    rw [e] at h
    rw [show toDouble (((875 % 1000 : Nat) : ℝ) / ((1000 : Nat) : ℝ)) =
      roundTo 53 (-1022) (((875 % 1000 : Nat) : ℝ) / ((1000 : Nat) : ℝ)) from rfl, h]
    norm_num
  have hd : toFloat ((16777218 : ℝ) - 16777216) = 2 := by
    have h := toFloat_intCast (F := ℝ) 2 (by norm_num)
    have e : (16777218 : ℝ) - 16777216 = ((2 : Int) : ℝ) := by norm_num
    rw [e, h]
    norm_num
  have hp : toDouble ((2 : ℝ) * (7 / 8)) = 7 / 4 := by
    have h := roundTo_dyadic (F := ℝ) 53 (-1022) 7 (-2) (by norm_num) (by norm_num)
    have e : ((7 : Int) : ℝ) * (2 : ℝ) ^ (-2 : Int) = 2 * (7 / 8) := by norm_num
    rw [e] at h
    rw [show toDouble ((2 : ℝ) * (7 / 8)) = roundTo 53 (-1022) ((2 : ℝ) * (7 / 8)) from rfl, h]
    norm_num
  have hs : toDouble ((16777216 : ℝ) + 7 / 4) = 67108871 / 4 := by
    have h := roundTo_dyadic (F := ℝ) 53 (-1022) 67108871 (-2) (by norm_num) (by norm_num)
    have e : ((67108871 : Int) : ℝ) * (2 : ℝ) ^ (-2 : Int) = 16777216 + 7 / 4 := by norm_num
    rw [e] at h
    rw [show toDouble ((16777216 : ℝ) + 7 / 4) =
      roundTo 53 (-1022) ((16777216 : ℝ) + 7 / 4) from rfl, h]
    norm_num
  have hr : toFloat ((67108871 : ℝ) / 4) = 16777218 := by
    unfold toFloat
    rw [roundTo_eq_of_bracket 24 (-126) 24 _ (by rw [abs_of_pos (by norm_num)]; norm_num)
      (by rw [abs_of_pos (by norm_num)]; norm_num)]
    rw [roundHalfEven_eq_of_near 8388609]
    · norm_num
    · norm_num [abs_lt]
  have hv : range (16777216 : ℝ) 16777218 875 = 16777218 := by
    unfold range
    rw [hu, hd, hp, hs, hr]
  exact ⟨hf1, hf2, by norm_num, hv, by rw [hv]; exact lt_irrefl _⟩

/-- C10 (amended): for `float` values `min <= max` with `max - min < 2^127` (so that the
`float` difference does not overflow) and every (non-negative) result `r` of `rand()`,
`range(min, max)` returns `v` with `min <= v <= max`; hence, for an emitter whose ranges
all have `float` endpoints with `min <= max` and a width below `2^127`, every particle a
call of `spawnParticles` appends (every slot from the old `numParticles` up to the new
one) has each velocity component, each start and end colour channel, its size, blur,
colour speed and life limit within the range configured for it. -/
theorem range_and_spawned_attributes_within [LinearOrderedField F] [FloorRing F] :
    (∀ (min max : F) (r : Nat), IsFloat min → IsFloat max → min ≤ max →
        max - min < 2 ^ 127 → min ≤ range min max r ∧ range min max r ≤ max) ∧
      (∀ (m : Libm F) (emitter : Emitter F) (dt : F) (g : Rand) (s : Store F) (j : Int),
        emitter.properties.RangesValid → s.numParticles ≤ j →
        j < (spawnParticles m emitter dt g s).1.numParticles →
        Row.WithinRanges emitter.properties ((spawnParticles m emitter dt g s).1.rowAt j)) := by
  constructor
  · intro min max r hmin hmax h _
    exact ⟨(range_within min max r hmin hmax h).1, (range_within min max r hmin hmax h).2⟩
  · intro m emitter dt g s j hord hlo hhi
    obtain ⟨g', t, ht1, _, ht3⟩ := spawnLoop_appended m emitter _ _ s j hlo hhi
    unfold spawnParticles
    rw [ht3, ← ht1]
    exact spawnOne_withinRanges m emitter g' t hord

/-- Witness of C10: `range(0, 1)` at the result `7` of `rand()`, and the particle the
point emitter appends to an empty store. -/
theorem range_and_spawned_attributes_within_witness :
    (IsFloat (0 : ℝ) ∧ IsFloat (1 : ℝ) ∧ (0 : ℝ) ≤ 1 ∧ (1 : ℝ) - 0 < 2 ^ 127 ∧
        (0 : ℝ) ≤ range 0 1 7 ∧ range (0 : ℝ) 1 7 ≤ 1) ∧
      ((pointEmitter : Emitter ℝ).properties.RangesValid ∧
        (uniformStore 0 ⟨0, 0, 0⟩ ⟨0, 0, 0⟩ (fun _ => false) : Store ℝ).numParticles ≤ 0 ∧
        0 < (spawnParticles ⟨Real.sqrt, Real.sin, Real.cos, Real.arctan⟩ pointEmitter (1 : ℝ)
          (fun _ => 0) (uniformStore 0 ⟨0, 0, 0⟩ ⟨0, 0, 0⟩ (fun _ => false))).1.numParticles ∧
        Row.WithinRanges (pointEmitter : Emitter ℝ).properties
          ((spawnParticles ⟨Real.sqrt, Real.sin, Real.cos, Real.arctan⟩ pointEmitter (1 : ℝ)
            (fun _ => 0) (uniformStore 0 ⟨0, 0, 0⟩ ⟨0, 0, 0⟩ (fun _ => false))).1.rowAt 0)) :=
  have hf0 : IsFloat (0 : ℝ) := toFloat_zero
  have hf1 : IsFloat (1 : ℝ) := toFloat_one
  have h01 : (0 : ℝ) ≤ 1 := zero_le_one
  have hw : (1 : ℝ) - 0 < 2 ^ 127 := by norm_num
  have hord : (pointEmitter : Emitter ℝ).properties.RangesValid := by
    have hw1 : (1 : ℝ) < 2 ^ 127 := by norm_num
    simp only [Particle.RangesValid, FloatRange, pointEmitter]
    simp [hf0, hf1, hw1]
  have hlo : (uniformStore 0 ⟨0, 0, 0⟩ ⟨0, 0, 0⟩ (fun _ => false) : Store ℝ).numParticles ≤ 0 :=
    le_refl _
  have hhi : 0 < (spawnParticles ⟨Real.sqrt, Real.sin, Real.cos, Real.arctan⟩ pointEmitter
      (1 : ℝ) (fun _ => 0)
      (uniformStore 0 ⟨0, 0, 0⟩ ⟨0, 0, 0⟩ (fun _ => false))).1.numParticles := by
    rw [spawnParticles_pointEmitter_numParticles]; exact zero_lt_one
  ⟨⟨hf0, hf1, h01, hw,
      ((range_and_spawned_attributes_within (F := ℝ)).1 0 1 7 hf0 hf1 h01 hw).1,
      ((range_and_spawned_attributes_within (F := ℝ)).1 0 1 7 hf0 hf1 h01 hw).2⟩,
    hord, hlo, hhi,
    (range_and_spawned_attributes_within (F := ℝ)).2 _ _ _ _ _ 0 hord hlo hhi⟩

/-! ## Theorems: the spawn count over the values of the draw -/

theorem spawnCount_eq_statedCount [LinearOrderedField F] [FloorRing F] (m : Libm F)
    (emitter : Emitter F) (dt : F) (g : Rand) (s : Store F)
    (hexp : 0 ≤ emitter.genRate * dt)
    (hroom : s.numParticles + (⌊storedExpected emitter dt⌋ + 1) ≤ MAXPARTICLES) :
    spawnCount m emitter dt g s = statedCount (storedExpected emitter dt) (g 0) := by
  unfold spawnCount
  rw [(spawnParticles_rows m emitter dt g s hexp hroom).1]
  ring

/-- The `double` draw `k / 100.0` is below a float `f < 1` exactly when `k < 100 * f`. -/
theorem random100_lt_iff [LinearOrderedField F] [FloorRing F] (k : Nat) (hk : k < 100)
    (f : F) (hf : IsFloat f) (hf1 : f < 1) :
    random 100 false k < f ↔ (k : Int) < ⌈100 * f⌉ := by
  simp only [random, Bool.false_eq_true, if_false, Nat.mod_eq_of_lt hk]
  rw [toDouble_div_lt_float_iff k 100 f (by norm_num) (by norm_num) hf hf1]
  rw [Int.lt_ceil, div_lt_iff₀ (by norm_num : (0 : F) < ((100 : Nat) : F))]
  push_cast
  rw [mul_comm]

theorem extra_draws_card [LinearOrderedField F] [FloorRing F] (f : F) (hf : IsFloat f)
    (h1 : f < 1) :
    ((Finset.range 100).filter (fun k => random 100 false k < f)).card = ⌈100 * f⌉.toNat := by
  have hle : ⌈100 * f⌉ ≤ 100 := by
    rw [Int.ceil_le]; push_cast; linarith
  have hset : (Finset.range 100).filter (fun k => random 100 false k < f) =
      Finset.range ⌈100 * f⌉.toNat := by
    ext k
    simp only [Finset.mem_filter, Finset.mem_range]
    constructor
    · rintro ⟨hk, hlt⟩
      have := (random100_lt_iff k hk f hf h1).mp hlt
      omega
    · intro hk
      have hk100 : k < 100 := by omega
      exact ⟨hk100, (random100_lt_iff k hk100 f hf h1).mpr (by omega)⟩
  rw [hset, Finset.card_range]

theorem statedCount_cons_sum [LinearOrderedField F] [FloorRing F] (e : F) (he : IsFloat e)
    (h0 : 0 ≤ e) :
    (∑ k in Finset.range 100, ((statedCount e k : Int) : F)) =
      100 * (⌊e⌋ : F) + (⌈100 * (e - (⌊e⌋ : F))⌉.toNat : F) := by
  have hf1 : e - (⌊e⌋ : F) < 1 := by
    have := Int.lt_floor_add_one e
    linarith
  have hterm : ∀ k : Nat, ((statedCount e k : Int) : F) =
      (⌊e⌋ : F) + (if random 100 false k < e - (⌊e⌋ : F) then 1 else 0) := by
    intro k
    unfold statedCount
    split_ifs <;> simp
  simp only [hterm]
  rw [Finset.sum_add_distrib, Finset.sum_const, Finset.card_range, Finset.sum_boole,
    extra_draws_card _ (isFloat_sub_floor e he h0) hf1]
  simp

theorem drawsSpawning_eq [LinearOrderedField F] [FloorRing F] (m : Libm F)
    (emitter : Emitter F) (dt : F) (g : Rand) (s : Store F)
    (hexp : 0 ≤ emitter.genRate * dt)
    (hroom : s.numParticles + (⌊storedExpected emitter dt⌋ + 1) ≤ MAXPARTICLES) (c : Int) :
    drawsSpawning m emitter dt g s c =
      ((Finset.range 100).filter
        (fun k => statedCount (storedExpected emitter dt) k = c)).card := by
  unfold drawsSpawning
  congr 1
  apply Finset.filter_congr
  intro k _
  rw [spawnCount_eq_statedCount m emitter dt _ s hexp hroom]
  simp [Rand.cons]

theorem meanSpawned_eq [LinearOrderedField F] [FloorRing F] (m : Libm F)
    (emitter : Emitter F) (dt : F) (g : Rand) (s : Store F)
    (hexp : 0 ≤ emitter.genRate * dt)
    (hroom : s.numParticles + (⌊storedExpected emitter dt⌋ + 1) ≤ MAXPARTICLES) :
    meanSpawned m emitter dt g s =
      (⌊storedExpected emitter dt⌋ : F) +
        (⌈100 * (storedExpected emitter dt - (⌊storedExpected emitter dt⌋ : F))⌉.toNat : F)
          / 100 := by
  unfold meanSpawned
  have hsum : (∑ k in Finset.range 100,
      ((spawnCount m emitter dt (Rand.cons k g) s : Int) : F)) =
      ∑ k in Finset.range 100, ((statedCount (storedExpected emitter dt) k : Int) : F) := by
    apply Finset.sum_congr rfl
    intro k _
    rw [spawnCount_eq_statedCount m emitter dt _ s hexp hroom]
    simp [Rand.cons]
  rw [hsum, statedCount_cons_sum _ (isFloat_storedExpected emitter dt)
    (storedExpected_nonneg emitter dt hexp)]
  ring

/-- The content of C6 as the code has it. -/
theorem spawn_draws [LinearOrderedField F] [FloorRing F] (m : Libm F)
    (emitter : Emitter F) (dt : F) (g : Rand) (s : Store F)
    (hexp : 0 ≤ emitter.genRate * dt)
    (hroom : s.numParticles + (⌊storedExpected emitter dt⌋ + 1) ≤ MAXPARTICLES) :
    drawsSpawning m emitter dt g s (⌊storedExpected emitter dt⌋ + 1) =
        ⌈100 * (storedExpected emitter dt - (⌊storedExpected emitter dt⌋ : F))⌉.toNat ∧
      drawsSpawning m emitter dt g s ⌊storedExpected emitter dt⌋ =
        100 - ⌈100 * (storedExpected emitter dt - (⌊storedExpected emitter dt⌋ : F))⌉.toNat := by
  have hfl := isFloat_sub_floor _ (isFloat_storedExpected emitter dt)
    (storedExpected_nonneg emitter dt hexp)
  rw [drawsSpawning_eq m emitter dt g s hexp hroom, drawsSpawning_eq m emitter dt g s hexp hroom]
  generalize storedExpected emitter dt = e at hfl
  have hf1 : e - (⌊e⌋ : F) < 1 := by
    have := Int.lt_floor_add_one e
    linarith
  have hcard := extra_draws_card _ hfl hf1
  have hyes : (Finset.range 100).filter (fun k => statedCount e k = ⌊e⌋ + 1) =
      (Finset.range 100).filter (fun k => random 100 false k < e - (⌊e⌋ : F)) := by
    apply Finset.filter_congr
    intro k _
    unfold statedCount
    split_ifs with h
    · exact iff_of_true rfl h
    · exact iff_of_false (by omega) h
  have hno : (Finset.range 100).filter (fun k => statedCount e k = ⌊e⌋) =
      (Finset.range 100).filter (fun k => ¬ random 100 false k < e - (⌊e⌋ : F)) := by
    apply Finset.filter_congr
    intro k _
    unfold statedCount
    split_ifs with h
    · exact iff_of_false (by omega) (not_not.mpr h)
    · exact iff_of_true (by omega) h
  have hsplit := Finset.filter_card_add_filter_neg_card_eq_card
    (s := Finset.range 100) (fun k => random 100 false k < e - (⌊e⌋ : F))
  rw [Finset.card_range] at hsplit
  rw [hyes, hno]
  constructor
  · exact hcard
  · omega

theorem storedExpected_one_over_256 :
    storedExpected (pointEmitter : Emitter ℝ) (1 / 256) = 1 / 256 := by
  have hE : (pointEmitter : Emitter ℝ).genRate * (1 / 256) = 1 / 256 := by simp [pointEmitter]
  have hd : toDouble ((1 : ℝ) / 256) = 1 / 256 := by
    have h := roundTo_dyadic (F := ℝ) 53 (-1022) 1 (-8) (by norm_num) (by norm_num)
    have e : ((1 : Int) : ℝ) * (2 : ℝ) ^ (-8 : Int) = 1 / 256 := by norm_num
    rw [e] at h
    exact h
  have hf : toFloat ((1 : ℝ) / 256) = 1 / 256 := by
    have h := roundTo_dyadic (F := ℝ) 24 (-126) 1 (-8) (by norm_num) (by norm_num)
    have e : ((1 : Int) : ℝ) * (2 : ℝ) ^ (-8 : Int) = 1 / 256 := by norm_num
    rw [e] at h
    exact h
  unfold storedExpected
  rw [hE, hd, hf]

/-- C6 (as stated, fails on the code): with `genRate = 1` and `dt = 1/256`, a `double`
that a `float` holds too, so that `expected = 0.00390625`, and an empty store, the extra
particle is added for the draw value `0` only, one of the 100 values, and the mean number
of appended particles is `1/100`, not `expected = 1/256`. -/
theorem spawn_mean_differs_from_expected :
    (0 : ℝ) ≤ (pointEmitter : Emitter ℝ).genRate * (1 / 256) ∧
      (uniformStore 0 ⟨0, 0, 0⟩ ⟨0, 0, 0⟩ (fun _ => false) : Store ℝ).numParticles +
        (⌊(pointEmitter : Emitter ℝ).genRate * (1 / 256)⌋ + 1) ≤ MAXPARTICLES ∧
      drawsSpawning ⟨Real.sqrt, Real.sin, Real.cos, Real.arctan⟩ pointEmitter (1 / 256 : ℝ)
        (fun _ => 0) (uniformStore 0 ⟨0, 0, 0⟩ ⟨0, 0, 0⟩ (fun _ => false)) 1 = 1 ∧
      meanSpawned ⟨Real.sqrt, Real.sin, Real.cos, Real.arctan⟩ pointEmitter (1 / 256 : ℝ)
        (fun _ => 0) (uniformStore 0 ⟨0, 0, 0⟩ ⟨0, 0, 0⟩ (fun _ => false)) = 1 / 100 ∧
      meanSpawned ⟨Real.sqrt, Real.sin, Real.cos, Real.arctan⟩ pointEmitter (1 / 256 : ℝ)
        (fun _ => 0) (uniformStore 0 ⟨0, 0, 0⟩ ⟨0, 0, 0⟩ (fun _ => false)) ≠
          (pointEmitter : Emitter ℝ).genRate * (1 / 256) := by
  have hE : (pointEmitter : Emitter ℝ).genRate * (1 / 256) = 1 / 256 := by
    simp [pointEmitter]
  have hfl : ⌊(1 / 256 : ℝ)⌋ = 0 := by norm_num [Int.floor_eq_iff]
  have hceil : ⌈(100 : ℝ) * (1 / 256 - ((0 : Int) : ℝ))⌉ = 1 := by
    norm_num [Int.ceil_eq_iff]
  have h1 : (0 : ℝ) ≤ (pointEmitter : Emitter ℝ).genRate * (1 / 256) := by
    rw [hE]; norm_num
  have h2 : (uniformStore 0 ⟨0, 0, 0⟩ ⟨0, 0, 0⟩ (fun _ => false) : Store ℝ).numParticles +
      (⌊(pointEmitter : Emitter ℝ).genRate * (1 / 256)⌋ + 1) ≤ MAXPARTICLES := by
    rw [hE, hfl]; simp [uniformStore, MAXPARTICLES]
  have h2' : (uniformStore 0 ⟨0, 0, 0⟩ ⟨0, 0, 0⟩ (fun _ => false) : Store ℝ).numParticles +
      (⌊storedExpected (pointEmitter : Emitter ℝ) (1 / 256)⌋ + 1) ≤ MAXPARTICLES := by
    rw [storedExpected_one_over_256, hfl]; simp [uniformStore, MAXPARTICLES]
  have hd := (spawn_draws ⟨Real.sqrt, Real.sin, Real.cos, Real.arctan⟩ pointEmitter
    (1 / 256 : ℝ) (fun _ => 0) _ h1 h2').1
  have hm := meanSpawned_eq ⟨Real.sqrt, Real.sin, Real.cos, Real.arctan⟩ pointEmitter
    (1 / 256 : ℝ) (fun _ => 0) _ h1 h2'
  rw [storedExpected_one_over_256, hfl, hceil] at hd hm
  have hmean : meanSpawned ⟨Real.sqrt, Real.sin, Real.cos, Real.arctan⟩ pointEmitter
      (1 / 256 : ℝ) (fun _ => 0) (uniformStore 0 ⟨0, 0, 0⟩ ⟨0, 0, 0⟩ (fun _ => false)) =
      1 / 100 := by
    rw [hm]; norm_num
  refine ⟨h1, h2, by simpa using hd, hmean, ?_⟩
  rw [hmean, hE]
  norm_num

/-- C6 (amended): when `expected = genRate*dt >= 0` and, with `e` the `float` that holds
the `double` product `genRate*dt` and `fraction = e - floor(e)`, the store has at least
`floor(e)+1` free slots, the extra particle is added for exactly `ceil(100 * fraction)` of
the 100 values of the draw `random(100, false)` (and not for the others), so the mean
number of appended particles over the 100 values is `floor(e) + ceil(100 * fraction) / 100`;
whenever `100 * e` is a whole number this mean is `e` and the share of the draw values
adding the extra particle is exactly `fraction`. -/
theorem spawn_mean_over_draws [LinearOrderedField F] [FloorRing F] (m : Libm F)
    (emitter : Emitter F) (dt : F) (g : Rand) (s : Store F)
    (hexp : 0 ≤ emitter.genRate * dt)
    (hroom : s.numParticles + (⌊storedExpected emitter dt⌋ + 1) ≤ MAXPARTICLES) :
    drawsSpawning m emitter dt g s (⌊storedExpected emitter dt⌋ + 1) =
        ⌈100 * (storedExpected emitter dt - (⌊storedExpected emitter dt⌋ : F))⌉.toNat ∧
      drawsSpawning m emitter dt g s ⌊storedExpected emitter dt⌋ =
        100 - ⌈100 * (storedExpected emitter dt - (⌊storedExpected emitter dt⌋ : F))⌉.toNat ∧
      meanSpawned m emitter dt g s =
        (⌊storedExpected emitter dt⌋ : F) +
          (⌈100 * (storedExpected emitter dt - (⌊storedExpected emitter dt⌋ : F))⌉.toNat : F)
            / 100 ∧
      (∀ M : Int, 100 * storedExpected emitter dt = (M : F) →
        meanSpawned m emitter dt g s = storedExpected emitter dt ∧
          (drawsSpawning m emitter dt g s (⌊storedExpected emitter dt⌋ + 1) : F) / 100 =
            storedExpected emitter dt - (⌊storedExpected emitter dt⌋ : F)) := by
  obtain ⟨hd1, hd0⟩ := spawn_draws m emitter dt g s hexp hroom
  have hm := meanSpawned_eq m emitter dt g s hexp hroom
  refine ⟨hd1, hd0, hm, ?_⟩
  generalize storedExpected emitter dt = e at hd1 hm
  intro M hM
  have hint : 100 * (e - (⌊e⌋ : F)) = ((M - 100 * ⌊e⌋ : Int) : F) := by
    push_cast; rw [← hM]; ring
  have hnonneg : 0 ≤ M - 100 * ⌊e⌋ := by
    have h0 : (0 : F) ≤ 100 * (e - (⌊e⌋ : F)) := by
      have := Int.floor_le e
      linarith
    rw [hint] at h0
    exact_mod_cast h0
  have hcast : ((⌈100 * (e - (⌊e⌋ : F))⌉.toNat : Nat) : F) = 100 * (e - (⌊e⌋ : F)) := by
    rw [hint, Int.ceil_intCast]
    have := Int.toNat_of_nonneg hnonneg
    calc (((M - 100 * ⌊e⌋).toNat : Nat) : F)
        = (((M - 100 * ⌊e⌋).toNat : Int) : F) := by push_cast; rfl
      _ = ((M - 100 * ⌊e⌋ : Int) : F) := by rw [this]
  constructor
  · rw [hm, hcast]; ring
  · rw [hd1, hcast]; ring

/-- Witness of C6: with `genRate = 1` and `dt` the `double` nearest `0.3`, the `float`
that holds `genRate*dt` is `5033165 / 16777216`, above `0.3`: one particle is appended for
31 of the 100 draw values and none for the other 69, and the mean is `31/100`. -/
theorem spawn_mean_over_draws_witness :
    (0 : ℝ) ≤ (pointEmitter : Emitter ℝ).genRate * (5404319552844595 / 18014398509481984) ∧
      (uniformStore 0 ⟨0, 0, 0⟩ ⟨0, 0, 0⟩ (fun _ => false) : Store ℝ).numParticles +
        (⌊storedExpected (pointEmitter : Emitter ℝ)
          (5404319552844595 / 18014398509481984)⌋ + 1) ≤ MAXPARTICLES ∧
      drawsSpawning ⟨Real.sqrt, Real.sin, Real.cos, Real.arctan⟩ pointEmitter
        (5404319552844595 / 18014398509481984 : ℝ)
        (fun _ => 0) (uniformStore 0 ⟨0, 0, 0⟩ ⟨0, 0, 0⟩ (fun _ => false)) 1 = 31 ∧
      drawsSpawning ⟨Real.sqrt, Real.sin, Real.cos, Real.arctan⟩ pointEmitter
        (5404319552844595 / 18014398509481984 : ℝ)
        (fun _ => 0) (uniformStore 0 ⟨0, 0, 0⟩ ⟨0, 0, 0⟩ (fun _ => false)) 0 = 69 ∧
      meanSpawned ⟨Real.sqrt, Real.sin, Real.cos, Real.arctan⟩ pointEmitter
        (5404319552844595 / 18014398509481984 : ℝ)
        (fun _ => 0) (uniformStore 0 ⟨0, 0, 0⟩ ⟨0, 0, 0⟩ (fun _ => false)) = 31 / 100 := by
  have hE : (pointEmitter : Emitter ℝ).genRate * (5404319552844595 / 18014398509481984) =
      5404319552844595 / 18014398509481984 := by simp [pointEmitter]
  have hfl : ⌊(5033165 / 16777216 : ℝ)⌋ = 0 := by norm_num [Int.floor_eq_iff]
  have hceil : ⌈(100 : ℝ) * (5033165 / 16777216 - ((0 : Int) : ℝ))⌉ = 31 := by
    norm_num [Int.ceil_eq_iff]
  have h1 : (0 : ℝ) ≤
      (pointEmitter : Emitter ℝ).genRate * (5404319552844595 / 18014398509481984) := by
    rw [hE]; norm_num
  have h2 : (uniformStore 0 ⟨0, 0, 0⟩ ⟨0, 0, 0⟩ (fun _ => false) : Store ℝ).numParticles +
      (⌊storedExpected (pointEmitter : Emitter ℝ)
        (5404319552844595 / 18014398509481984)⌋ + 1) ≤ MAXPARTICLES := by
    rw [storedExpected_three_tenths, hfl]; simp [uniformStore, MAXPARTICLES]
  obtain ⟨t1, t2, t3, _⟩ := spawn_mean_over_draws ⟨Real.sqrt, Real.sin, Real.cos, Real.arctan⟩
    pointEmitter (5404319552844595 / 18014398509481984 : ℝ) (fun _ => 0)
    (uniformStore 0 ⟨0, 0, 0⟩ ⟨0, 0, 0⟩ (fun _ => false)) h1 h2
  rw [storedExpected_three_tenths, hfl, hceil] at t1 t2 t3
  refine ⟨h1, h2, by simpa using t1, by simpa using t2, ?_⟩
  rw [t3, show Int.toNat 31 = 31 from rfl]
  norm_num

/-! ## Theorems: the spawn location on a disk -/

theorem stepRow_airborne [LinearOrderedField F] [FloorRing F] (m : Libm F) (dt : F) (r : Row F)
    (hair : r.grounded = false) :
    stepRow m dt r = stepAirborne dt { r with age := r.age + dt } := by
  simp [stepRow, hair]

theorem stepRow_grounded [LinearOrderedField F] [FloorRing F] (m : Libm F) (dt : F) (r : Row F)
    (hgr : r.grounded = true) :
    stepRow m dt r = stepGrounded m dt { r with age := r.age + dt } := by
  simp [stepRow, hgr]

theorem sgn_of_pos [LinearOrderedField F] [FloorRing F] (v : F) (h : 0 < v) : sgn v = 1 := by
  simp [sgn, h, not_lt.mpr h.le]

theorem sgn_of_neg [LinearOrderedField F] [FloorRing F] (v : F) (h : v < 0) : sgn v = -1 := by
  simp [sgn, h, not_lt.mpr h.le]

theorem sgn_zero [LinearOrderedField F] [FloorRing F] : sgn (0 : F) = 0 := by
  simp [sgn]

theorem reflectX_of_outside [LinearOrderedField F] [FloorRing F] (x vx : F) (h : |x| ≥ 100) :
    reflectX x vx = ((sgn x : F) * 99.9, vx * (-0.7)) := by
  simp [reflectX, h]

theorem reflectX_of_inside [LinearOrderedField F] [FloorRing F] (x vx : F) (h : |x| < 100) :
    reflectX x vx = (x, vx) := by
  simp [reflectX, not_le.mpr h]

theorem reflectZ_of_inside [LinearOrderedField F] [FloorRing F] (z vz : F)
    (h : |toDouble (z - 100)| < 100) :
    reflectZ z vz = (z, vz) := by
  simp [reflectZ, not_le.mpr h]

theorem stepRow_x_reflection [LinearOrderedField F] [FloorRing F] (m : Libm F) (dt : F) (r : Row F)
    (h : |r.position.x + r.velocity.x * dt| ≥ 100) :
    (stepRow m dt r).position.x = (sgn (r.position.x + r.velocity.x * dt) : F) * 99.9 ∧
      (r.grounded = false → (stepRow m dt r).velocity.x = -0.7 * r.velocity.x) ∧
      (r.grounded = true →
        (stepRow m dt r).velocity.x = friction dt (-0.7 * r.velocity.x) ∨
          (stepRow m dt r).velocity = ⟨0, 0, 0⟩) := by
  have hneg : r.velocity.x * (-0.7) = -0.7 * r.velocity.x := by ring
  cases hg : r.grounded with
  | false =>
    rw [stepRow_airborne m dt r hg]
    simp only [stepAirborne, reflectX_of_outside _ _ h, hneg]
    exact ⟨trivial, fun _ => trivial, fun hc => by simp at hc⟩
  | true =>
    rw [stepRow_grounded m dt r hg]
    simp only [stepGrounded, reflectX_of_outside _ _ h, hneg]
    refine ⟨trivial, fun hc => by simp at hc, fun _ => ?_⟩
    split_ifs
    · exact Or.inr rfl
    · exact Or.inl rfl

/-- C4: for a live particle in either regime and any `dt`, if the integrated coordinate
`x + vx*dt` has absolute value at least `100`, the reflection check sets `x` to
`sgn(x + vx*dt) * 99.9` and multiplies `vx` by `-0.7`: the step ends with that `x`; for an
airborne particle it ends with `vx == -0.7*vx`, and for a grounded one the friction update
then acts on `-0.7*vx` (or the velocity is snapped to zero). In particular an airborne
particle at `x = 100.5` with `vx = 2` ends the step, for every `dt >= 0`, with `x == 99.9`
and `vx == -1.4`. -/
theorem x_boundary_reflection [LinearOrderedField F] [FloorRing F] (m : Libm F) :
    (∀ (dt : F) (r : Row F), |r.position.x + r.velocity.x * dt| ≥ 100 →
        reflectX (r.position.x + r.velocity.x * dt) r.velocity.x =
          ((sgn (r.position.x + r.velocity.x * dt) : F) * 99.9, r.velocity.x * (-0.7)) ∧
        (stepRow m dt r).position.x = (sgn (r.position.x + r.velocity.x * dt) : F) * 99.9 ∧
        (r.grounded = false → (stepRow m dt r).velocity.x = -0.7 * r.velocity.x) ∧
        (r.grounded = true →
          (stepRow m dt r).velocity.x = friction dt (-0.7 * r.velocity.x) ∨
            (stepRow m dt r).velocity = ⟨0, 0, 0⟩)) ∧
      (∀ (dt : F) (r : Row F), r.grounded = false → r.position.x = 100.5 →
        r.velocity.x = 2 → 0 ≤ dt →
        (stepRow m dt r).position.x = 99.9 ∧ (stepRow m dt r).velocity.x = -1.4) := by
  constructor
  · intro dt r h
    exact ⟨reflectX_of_outside _ _ h, stepRow_x_reflection m dt r h⟩
  · intro dt r hair hx hvx hdt
    have hpos : (0 : F) < r.position.x + r.velocity.x * dt := by
      rw [hx, hvx]
      have : (0 : F) ≤ 2 * dt := by positivity
      have h2 : (0 : F) < 100.5 := by norm_num
      linarith
    have hout : |r.position.x + r.velocity.x * dt| ≥ 100 := by
      rw [abs_of_pos hpos, hx, hvx]
      have : (0 : F) ≤ 2 * dt := by positivity
      have h2 : (100 : F) ≤ 100.5 := by norm_num
      linarith
    obtain ⟨h1, h2, _⟩ := stepRow_x_reflection m dt r hout
    rw [sgn_of_pos _ hpos] at h1
    refine ⟨by rw [h1]; norm_num, ?_⟩
    rw [h2 hair, hvx]
    norm_num

/-- Witness of C4: the particle of the specification, at `x = 100.5` with `vx = 2`,
stepped by `dt = 1/2`. -/
theorem x_boundary_reflection_witness :
    ((uniformStore 1 ⟨100.5, 50, 5⟩ ⟨2, 0, 0⟩ (fun _ => false) : Store ℝ).rowAt 0).grounded
        = false ∧
      ((uniformStore 1 ⟨100.5, 50, 5⟩ ⟨2, 0, 0⟩ (fun _ => false) : Store ℝ).rowAt 0).position.x
        = 100.5 ∧
      ((uniformStore 1 ⟨100.5, 50, 5⟩ ⟨2, 0, 0⟩ (fun _ => false) : Store ℝ).rowAt 0).velocity.x
        = 2 ∧
      (0 : ℝ) ≤ 1 / 2 ∧
      (stepRow ⟨Real.sqrt, Real.sin, Real.cos, Real.arctan⟩ (1 / 2)
        ((uniformStore 1 ⟨100.5, 50, 5⟩ ⟨2, 0, 0⟩ (fun _ => false) : Store ℝ).rowAt 0)
        ).position.x = 99.9 ∧
      (stepRow ⟨Real.sqrt, Real.sin, Real.cos, Real.arctan⟩ (1 / 2)
        ((uniformStore 1 ⟨100.5, 50, 5⟩ ⟨2, 0, 0⟩ (fun _ => false) : Store ℝ).rowAt 0)
        ).velocity.x = -1.4 :=
  have hdt : (0 : ℝ) ≤ 1 / 2 := by norm_num
  ⟨rfl, rfl, rfl, hdt,
    (x_boundary_reflection (F := ℝ) ⟨Real.sqrt, Real.sin, Real.cos, Real.arctan⟩).2
      (1 / 2) _ rfl rfl rfl hdt⟩

/-! ## Theorems: the update loop -/

theorem stepRow_frame [LinearOrderedField F] [FloorRing F] (m : Libm F) (dt : F) (r : Row F) :
    (stepRow m dt r).startColor = r.startColor ∧ (stepRow m dt r).endColor = r.endColor ∧
      (stepRow m dt r).colorSpeed = r.colorSpeed ∧ (stepRow m dt r).lighting = r.lighting ∧
      (stepRow m dt r).size = r.size ∧ (stepRow m dt r).blur = r.blur ∧
      (stepRow m dt r).lifeLimit = r.lifeLimit ∧ (stepRow m dt r).force = r.force ∧
      (stepRow m dt r).age = r.age + dt := by
  cases hg : r.grounded with
  | false =>
    rw [stepRow_airborne m dt r hg]
    simp [stepAirborne]
  | true =>
    rw [stepRow_grounded m dt r hg]
    simp [stepGrounded]

theorem stepAt_rowAt_self [LinearOrderedField F] [FloorRing F] (m : Libm F) (dt : F) (s : Store F)
    (i : Int) : (stepAt m dt s i).rowAt i = stepRow m dt (s.rowAt i) := by
  obtain ⟨h1, h2, h3, h4, h5, h6, h7, h8, _⟩ := stepRow_frame m dt (s.rowAt i)
  ext1
  all_goals first
    | simp [stepAt, Store.rowAt]; done
    | simp only [stepAt, Store.rowAt] at *; simp [*]

theorem stepAt_rowAt_other [LinearOrderedField F] [FloorRing F] (m : Libm F) (dt : F) (s : Store F)
    (i j : Int) (hj : j ≠ i) : (stepAt m dt s i).rowAt j = s.rowAt j := by
  simp [stepAt, Store.rowAt, Function.update_noteq hj]

theorem stepAt_numParticles [LinearOrderedField F] [FloorRing F] (m : Libm F) (dt : F) (s : Store F)
    (i : Int) : (stepAt m dt s i).numParticles = s.numParticles := rfl

/-- The update loop with `k` passes left from counter `i` applies the loop body once to
each of the slots `i, ..., i + k - 1` and leaves the other slots as they were. -/
theorem integrateLoop_rowAt [LinearOrderedField F] [FloorRing F] (m : Libm F) (dt : F) (k : Nat)
    (i : Int) (s : Store F) (j : Int) :
    (integrateLoop m dt k i s).rowAt j =
      if i ≤ j ∧ j < i + k then stepRow m dt (s.rowAt j) else s.rowAt j := by
  induction k generalizing i s with
  | zero =>
    have : ¬ (i ≤ j ∧ j < i + ((0 : Nat) : Int)) := by push_cast; omega
    rw [if_neg this]; rfl
  | succ k ih =>
    rw [integrateLoop, ih]
    by_cases hji : j = i
    · subst hji
      have h1 : ¬ (j + 1 ≤ j ∧ j < j + 1 + (k : Int)) := by omega
      have h2 : j ≤ j ∧ j < j + ((k + 1 : Nat) : Int) := by push_cast; omega
      rw [if_neg h1, if_pos h2, stepAt_rowAt_self]
    · rw [stepAt_rowAt_other m dt s i j hji]
      by_cases hin : i + 1 ≤ j ∧ j < i + 1 + (k : Int)
      · have h2 : i ≤ j ∧ j < i + ((k + 1 : Nat) : Int) := by push_cast; omega
        rw [if_pos hin, if_pos h2]
      · have h2 : ¬ (i ≤ j ∧ j < i + ((k + 1 : Nat) : Int)) := by push_cast; omega
        rw [if_neg hin, if_neg h2]

theorem integrateLoop_numParticles [LinearOrderedField F] [FloorRing F]
    (m : Libm F) (dt : F) (k : Nat)
    (i : Int) (s : Store F) : (integrateLoop m dt k i s).numParticles = s.numParticles := by
  induction k generalizing i s with
  | zero => rfl
  | succ k ih => rw [integrateLoop, ih, stepAt_numParticles]

theorem integrate_rowAt_live [LinearOrderedField F] [FloorRing F]
    (m : Libm F) (dt : F) (s : Store F)
    (j : Int) (h0 : 0 ≤ j) (h1 : j < s.numParticles) :
    (integrate m dt s).rowAt j = stepRow m dt (s.rowAt j) := by
  unfold integrate
  rw [integrateLoop_rowAt, if_pos]
  have := Int.toNat_of_nonneg (by omega : 0 ≤ s.numParticles)
  omega

theorem friction_zero_dt [LinearOrderedField F] [FloorRing F] (v : F) : friction 0 v = v := by
  simp [friction]

theorem stepRow_zero_dt [LinearOrderedField F] [FloorRing F] (m : Libm F) (r : Row F)
    (hsqrt : ∀ v : F, 0 ≤ v → 0 ≤ m.sqrt v) (hx : |r.position.x| < 100)
    (hz : |toDouble (r.position.z - 100)| < 100)
    (hy : r.grounded = false → 0.1 ≤ r.position.y) :
    stepRow m 0 r = r := by
  obtain ⟨position, velocity, startColor, endColor, colorSpeed, lighting, size, blur, age,
    lifeLimit, force, grounded⟩ := r
  obtain ⟨x, y, z⟩ := position
  obtain ⟨vx, vy, vz⟩ := velocity
  simp only at hx hz hy
  cases grounded with
  | false =>
    rw [stepRow_airborne m 0 _ rfl]
    have hy' : ¬ y < 0.1 := not_lt.mpr (hy rfl)
    have he : y + ((0 : F) - 0 * GRAVITY / 2) = y := by ring
    simp only [stepAirborne, groundContact, he, mul_zero, add_zero, sub_zero,
      reflectX_of_inside _ _ hx, reflectZ_of_inside _ _ hz, if_neg hy']
    split_ifs <;> rfl
  | true =>
    rw [stepRow_grounded m 0 _ rfl]
    have hs : ¬ m.sqrt (vx * vx + vz * vz) < 0 :=
      not_lt.mpr (hsqrt _ (add_nonneg (mul_self_nonneg vx) (mul_self_nonneg vz)))
    simp only [stepGrounded, mul_zero, add_zero, reflectX_of_inside _ _ hx,
      reflectZ_of_inside _ _ hz, friction_zero_dt, if_neg hs]

/-- C5 (as stated, fails on the code): a store whose one live particle is airborne on the
wall `x = -100` (a position the start-up code of `main` can produce) with `vx = 1`: the
update loop with `dt = 0` moves it to `x = -99.9` and sets `vx` to `-0.7`. -/
theorem zero_dt_reflects_particle_on_wall :
    (uniformStore 1 ⟨-100, 750, 100⟩ ⟨1, 0, 0⟩ (fun _ => false) : Store ℝ).InRange ∧
      ((integrate ⟨Real.sqrt, Real.sin, Real.cos, Real.arctan⟩ 0
        (uniformStore 1 ⟨-100, 750, 100⟩ ⟨1, 0, 0⟩ (fun _ => false) : Store ℝ)).rowAt 0
        ).position.x = -99.9 ∧
      ((integrate ⟨Real.sqrt, Real.sin, Real.cos, Real.arctan⟩ 0
        (uniformStore 1 ⟨-100, 750, 100⟩ ⟨1, 0, 0⟩ (fun _ => false) : Store ℝ)).rowAt 0
        ).velocity.x = -0.7 ∧
      ((integrate ⟨Real.sqrt, Real.sin, Real.cos, Real.arctan⟩ 0
        (uniformStore 1 ⟨-100, 750, 100⟩ ⟨1, 0, 0⟩ (fun _ => false) : Store ℝ)).rowAt 0
        ).position ≠
        ((uniformStore 1 ⟨-100, 750, 100⟩ ⟨1, 0, 0⟩ (fun _ => false) : Store ℝ).rowAt 0
          ).position := by
  have hlive := integrate_rowAt_live ⟨Real.sqrt, Real.sin, Real.cos, Real.arctan⟩ (0 : ℝ)
    (uniformStore 1 ⟨-100, 750, 100⟩ ⟨1, 0, 0⟩ (fun _ => false)) 0 (le_refl _)
    (by simp [uniformStore])
  have hrow : (uniformStore 1 ⟨-100, 750, 100⟩ ⟨1, 0, 0⟩ (fun _ => false) : Store ℝ).rowAt 0 =
      ⟨⟨-100, 750, 100⟩, ⟨1, 0, 0⟩, ⟨0, 0, 0, 0⟩, ⟨0, 0, 0, 0⟩, 0, 0, 0, 0, 0, 0, 1, false⟩ :=
    rfl
  rw [hlive, hrow]
  have hout : |(-100 : ℝ) + 1 * 0| ≥ 100 := by norm_num
  obtain ⟨h1, h2, _⟩ := stepRow_x_reflection ⟨Real.sqrt, Real.sin, Real.cos, Real.arctan⟩ (0 : ℝ)
    ⟨⟨-100, 750, 100⟩, ⟨1, 0, 0⟩, ⟨0, 0, 0, 0⟩, ⟨0, 0, 0, 0⟩, 0, 0, 0, 0, 0, 0, 1, false⟩ hout
  have hs : sgn ((-100 : ℝ) + 1 * 0) = -1 := sgn_of_neg _ (by norm_num)
  simp only [hs] at h1
  have hx : (stepRow ⟨Real.sqrt, Real.sin, Real.cos, Real.arctan⟩ (0 : ℝ)
      ⟨⟨-100, 750, 100⟩, ⟨1, 0, 0⟩, ⟨0, 0, 0, 0⟩, ⟨0, 0, 0, 0⟩, 0, 0, 0, 0, 0, 0, 1, false⟩
      ).position.x = -99.9 := by
    rw [h1]; norm_num
  refine ⟨by simp [Store.InRange, uniformStore, MAXPARTICLES], hx, ?_, ?_⟩
  · rw [h2 rfl]; norm_num
  · intro hc
    have := congrArg Vec3f.x hc
    rw [hx] at this
    norm_num at this

/-- C5 (amended): for a square root that is not negative on non-negative arguments and a
store in which no check of the update fires on a live particle, that is `|x| < 100`, the
`double` value of `z - 100.0` is of magnitude below `100`, and `y >= 0.1` if the particle
is airborne, the update loop with `dt = 0` leaves every attribute of every slot unchanged;
in particular position, velocity, age and grounded flag of every live particle. -/
theorem zero_dt_noop_inside_bounds [LinearOrderedField F] [FloorRing F] (m : Libm F)
    (s : Store F) (hsqrt : ∀ v : F, 0 ≤ v → 0 ≤ m.sqrt v)
    (hin : ∀ j : Int, 0 ≤ j → j < s.numParticles →
      |(s.particles j).x| < 100 ∧ |toDouble ((s.particles j).z - 100)| < 100 ∧
        (s.grounded j = false → 0.1 ≤ (s.particles j).y)) :
    (integrate m 0 s).numParticles = s.numParticles ∧
      ∀ j : Int, (integrate m 0 s).rowAt j = s.rowAt j := by
  constructor
  · exact integrateLoop_numParticles m 0 _ 0 s
  · intro j
    unfold integrate
    rw [integrateLoop_rowAt]
    split_ifs with hj
    · have hlt : j < s.numParticles := by
        have : 0 ≤ s.numParticles ∨ s.numParticles < 0 := le_or_lt 0 s.numParticles
        rcases this with hn | hn
        · have := Int.toNat_of_nonneg hn
          omega
        · have := Int.toNat_eq_zero.mpr hn.le
          omega
      obtain ⟨hx, hz, hy⟩ := hin j hj.1 hlt
      exact stepRow_zero_dt m (s.rowAt j) hsqrt hx hz hy
    · rfl

/-- Witness of C5: a store of two particles inside the bounds, slot 0 airborne at height
`1` and slot 1 grounded, over the reals with the real square root. -/
theorem zero_dt_noop_inside_bounds_witness :
    (∀ v : ℝ, 0 ≤ v → 0 ≤ Real.sqrt v) ∧
      (∀ j : Int, 0 ≤ j →
        j < (uniformStore 2 ⟨0, 1, 100⟩ ⟨1, 1, 1⟩ (fun j => decide (j = 1)) :
          Store ℝ).numParticles →
        |((uniformStore 2 ⟨0, 1, 100⟩ ⟨1, 1, 1⟩ (fun j => decide (j = 1)) :
            Store ℝ).particles j).x| < 100 ∧
          |toDouble (((uniformStore 2 ⟨0, 1, 100⟩ ⟨1, 1, 1⟩ (fun j => decide (j = 1)) :
            Store ℝ).particles j).z - 100)| < 100 ∧
          ((uniformStore 2 ⟨0, 1, 100⟩ ⟨1, 1, 1⟩ (fun j => decide (j = 1)) :
            Store ℝ).grounded j = false →
            0.1 ≤ ((uniformStore 2 ⟨0, 1, 100⟩ ⟨1, 1, 1⟩ (fun j => decide (j = 1)) :
              Store ℝ).particles j).y)) ∧
      (integrate ⟨Real.sqrt, Real.sin, Real.cos, Real.arctan⟩ 0
        (uniformStore 2 ⟨0, 1, 100⟩ ⟨1, 1, 1⟩ (fun j => decide (j = 1)) : Store ℝ)).rowAt 0 =
        (uniformStore 2 ⟨0, 1, 100⟩ ⟨1, 1, 1⟩ (fun j => decide (j = 1)) : Store ℝ).rowAt 0 ∧
      (integrate ⟨Real.sqrt, Real.sin, Real.cos, Real.arctan⟩ 0
        (uniformStore 2 ⟨0, 1, 100⟩ ⟨1, 1, 1⟩ (fun j => decide (j = 1)) : Store ℝ)).rowAt 1 =
        (uniformStore 2 ⟨0, 1, 100⟩ ⟨1, 1, 1⟩ (fun j => decide (j = 1)) : Store ℝ).rowAt 1 :=
  have h1 : ∀ v : ℝ, 0 ≤ v → 0 ≤ Real.sqrt v := fun v _ => Real.sqrt_nonneg v
  have h2 : ∀ j : Int, 0 ≤ j →
      j < (uniformStore 2 ⟨0, 1, 100⟩ ⟨1, 1, 1⟩ (fun j => decide (j = 1)) :
        Store ℝ).numParticles →
      |((uniformStore 2 ⟨0, 1, 100⟩ ⟨1, 1, 1⟩ (fun j => decide (j = 1)) :
          Store ℝ).particles j).x| < 100 ∧
        |toDouble (((uniformStore 2 ⟨0, 1, 100⟩ ⟨1, 1, 1⟩ (fun j => decide (j = 1)) :
          Store ℝ).particles j).z - 100)| < 100 ∧
        ((uniformStore 2 ⟨0, 1, 100⟩ ⟨1, 1, 1⟩ (fun j => decide (j = 1)) :
          Store ℝ).grounded j = false →
          0.1 ≤ ((uniformStore 2 ⟨0, 1, 100⟩ ⟨1, 1, 1⟩ (fun j => decide (j = 1)) :
            Store ℝ).particles j).y) := by
    intro j _ _
    simp only [uniformStore]
    norm_num [toDouble_zero]
  ⟨h1, h2,
    (zero_dt_noop_inside_bounds ⟨Real.sqrt, Real.sin, Real.cos, Real.arctan⟩ _ h1 h2).2 0,
    (zero_dt_noop_inside_bounds ⟨Real.sqrt, Real.sin, Real.cos, Real.arctan⟩ _ h1 h2).2 1⟩

/-! ## Theorems: the coordinates after one step -/

theorem reflectZ_of_outside [LinearOrderedField F] [FloorRing F] (z vz : F)
    (h : |toDouble (z - 100)| ≥ 100) :
    reflectZ z vz = (100 + (sgn z : F) * 99.9, vz * (-0.7)) := by
  simp [reflectZ, h]

theorem reflectZ_of_exact_outside [LinearOrderedField F] [FloorRing F] (z vz : F)
    (h : |z - 100| ≥ 100) :
    reflectZ z vz = (100 + (sgn z : F) * 99.9, vz * (-0.7)) :=
  reflectZ_of_outside z vz (hundred_le_abs_toDouble _ h)

theorem abs_toDouble_intCast_lt [LinearOrderedField F] [FloorRing F] (n : Int)
    (h : |n| < 100) : |toDouble (n : F)| < 100 := by
  rw [toDouble_intCast n (lt_trans h (by norm_num))]
  have : ((|n| : Int) : F) < ((100 : Int) : F) := by exact_mod_cast h
  simpa using this

theorem stepRow_position_x [LinearOrderedField F] [FloorRing F] (m : Libm F) (dt : F) (r : Row F) :
    (stepRow m dt r).position.x =
      (reflectX (r.position.x + r.velocity.x * dt) r.velocity.x).1 := by
  cases hg : r.grounded with
  | false => rw [stepRow_airborne m dt r hg]; rfl
  | true => rw [stepRow_grounded m dt r hg]; rfl

theorem stepRow_position_z [LinearOrderedField F] [FloorRing F] (m : Libm F) (dt : F) (r : Row F) :
    (stepRow m dt r).position.z =
      (reflectZ (r.position.z + r.velocity.z * dt) r.velocity.z).1 := by
  cases hg : r.grounded with
  | false => rw [stepRow_airborne m dt r hg]; rfl
  | true => rw [stepRow_grounded m dt r hg]; rfl

theorem stepRow_airborne_velocity_z [LinearOrderedField F] [FloorRing F]
    (m : Libm F) (dt : F) (r : Row F)
    (hair : r.grounded = false) :
    (stepRow m dt r).velocity.z =
      (reflectZ (r.position.z + r.velocity.z * dt) r.velocity.z).2 := by
  rw [stepRow_airborne m dt r hair]; rfl

theorem reflectX_fst_bound [LinearOrderedField F] [FloorRing F] (x vx : F) :
    |(reflectX x vx).1| < 100 := by
  unfold reflectX
  split_ifs with h
  · rcases lt_trichotomy x 0 with hx | hx | hx
    · rw [sgn_of_neg x hx]
      norm_num [abs_of_pos]
    · rw [hx] at h
      norm_num at h
    · rw [sgn_of_pos x hx]
      norm_num [abs_of_pos]
  · exact not_le.mp h

theorem reflectZ_fst_bound [LinearOrderedField F] [FloorRing F] (z vz : F) :
    0 < (reflectZ z vz).1 ∧ (reflectZ z vz).1 < 200 := by
  unfold reflectZ
  split_ifs with h
  · rcases lt_trichotomy z 0 with hz | hz | hz
    · rw [sgn_of_neg z hz]
      constructor <;> norm_num
    · rw [hz, sgn_zero]
      constructor <;> norm_num
    · rw [sgn_of_pos z hz]
      constructor <;> norm_num
  · have hin : |z - 100| < 100 := by
      by_contra hout
      exact h (hundred_le_abs_toDouble _ (not_lt.mp hout))
    have h' := abs_lt.mp hin
    constructor <;> linarith [h'.1, h'.2]

theorem groundContact_fst_bound [LinearOrderedField F] [FloorRing F] (dt y vy : F) (force : Int) :
    0.1 ≤ (groundContact dt y vy force).1 := by
  unfold groundContact
  split_ifs with h1 h2 h3
  · exact le_refl _
  · exact le_refl _
  · exact not_lt.mp h1
  · exact not_lt.mp h1

theorem stepRow_airborne_position_y [LinearOrderedField F] [FloorRing F]
    (m : Libm F) (dt : F) (r : Row F)
    (hair : r.grounded = false) :
    (stepRow m dt r).position.y =
      (groundContact dt (r.position.y + (r.velocity.y * dt - dt * dt * GRAVITY / 2))
        r.velocity.y r.force).1 := by
  rw [stepRow_airborne m dt r hair]; rfl

/-- Supporting fact for C12: when the integrated `z` is outside the bound and is not
exactly `0`, the step sets `z` to `100 + s * 99.9` with `s` the sign of `z - 100`. -/
theorem stepRow_z_reflection_off_zero [LinearOrderedField F] [FloorRing F] (m : Libm F) (dt : F)
    (r : Row F) (h : |r.position.z + r.velocity.z * dt - 100| ≥ 100)
    (h0 : r.position.z + r.velocity.z * dt ≠ 0) :
    (stepRow m dt r).position.z =
      100 + (sgn (r.position.z + r.velocity.z * dt - 100) : F) * 99.9 := by
  rw [stepRow_position_z, reflectZ_of_exact_outside _ _ h]
  rcases lt_or_gt_of_ne h0 with hneg | hpos
  · rw [sgn_of_neg _ hneg, sgn_of_neg _ (by linarith)]
  · have hbig : 200 ≤ r.position.z + r.velocity.z * dt := by
      rcases le_abs'.mp h with hle | hge
      · linarith
      · linarith
    rw [sgn_of_pos _ hpos, sgn_of_pos _ (by linarith)]

/-- C12 (fails on the code): an airborne particle at `z = 1` with `vz = -1`, stepped by
`dt = 1`, reaches the near wall at the integrated `z = 0`; the sign relative to the centre
of the bound is `-1`, which gives `0.1`, but the step takes the sign of the coordinate
itself, `sgn(0) = 0`, and puts the particle at `z = 100`, the middle of the bound. -/
theorem z_reflection_at_zero_lands_on_centre :
    |((uniformStore 1 ⟨0, 50, 1⟩ ⟨0, 0, -1⟩ (fun _ => false) : Store ℝ).rowAt 0).position.z +
        ((uniformStore 1 ⟨0, 50, 1⟩ ⟨0, 0, -1⟩ (fun _ => false) : Store ℝ).rowAt 0).velocity.z
          * 1 - 100| ≥ 100 ∧
      (100 : ℝ) + (sgn
        (((uniformStore 1 ⟨0, 50, 1⟩ ⟨0, 0, -1⟩ (fun _ => false) : Store ℝ).rowAt 0).position.z +
        ((uniformStore 1 ⟨0, 50, 1⟩ ⟨0, 0, -1⟩ (fun _ => false) : Store ℝ).rowAt 0).velocity.z
          * 1 - 100) : ℝ) * 99.9 = 0.1 ∧
      (stepRow ⟨Real.sqrt, Real.sin, Real.cos, Real.arctan⟩ 1
        ((uniformStore 1 ⟨0, 50, 1⟩ ⟨0, 0, -1⟩ (fun _ => false) : Store ℝ).rowAt 0)
        ).position.z = 100 ∧
      (stepRow ⟨Real.sqrt, Real.sin, Real.cos, Real.arctan⟩ 1
        ((uniformStore 1 ⟨0, 50, 1⟩ ⟨0, 0, -1⟩ (fun _ => false) : Store ℝ).rowAt 0)
        ).velocity.z = 0.7 := by
  have hrow : (uniformStore 1 ⟨0, 50, 1⟩ ⟨0, 0, -1⟩ (fun _ => false) : Store ℝ).rowAt 0 =
      ⟨⟨0, 50, 1⟩, ⟨0, 0, -1⟩, ⟨0, 0, 0, 0⟩, ⟨0, 0, 0, 0⟩, 0, 0, 0, 0, 0, 0, 1, false⟩ := rfl
  rw [hrow]
  have hz : ((1 : ℝ) + -1 * 1) = 0 := by norm_num
  have hout : |((1 : ℝ) + -1 * 1) - 100| ≥ 100 := by
    rw [hz]; norm_num
  have hs : sgn (((1 : ℝ) + -1 * 1) - 100) = -1 := sgn_of_neg _ (by norm_num)
  refine ⟨hout, ?_, ?_, ?_⟩
  · simp only [hs]; norm_num
  · rw [stepRow_position_z, reflectZ_of_exact_outside _ _ hout]
    simp only [hz, sgn_zero]
    norm_num
  · rw [stepRow_airborne_velocity_z _ _ _ rfl, reflectZ_of_exact_outside _ _ hout]
    norm_num

/-- C17: for a particle with any position and velocity, in either regime, and any `dt`,
after one step of the update `|x| < 100` and `0 < z < 200`, and if the particle was
airborne before the step then `y >= 0.1` after it; the same holds of every live particle
of a store after the update loop of a frame. -/
theorem containment [LinearOrderedField F] [FloorRing F] (m : Libm F) (dt : F) :
    (∀ r : Row F, |(stepRow m dt r).position.x| < 100 ∧
        0 < (stepRow m dt r).position.z ∧ (stepRow m dt r).position.z < 200 ∧
        (r.grounded = false → 0.1 ≤ (stepRow m dt r).position.y)) ∧
      (∀ (s : Store F) (j : Int), 0 ≤ j → j < s.numParticles →
        |((integrate m dt s).rowAt j).position.x| < 100 ∧
        0 < ((integrate m dt s).rowAt j).position.z ∧
        ((integrate m dt s).rowAt j).position.z < 200 ∧
        ((s.rowAt j).grounded = false → 0.1 ≤ ((integrate m dt s).rowAt j).position.y)) := by
  have hrow : ∀ r : Row F, |(stepRow m dt r).position.x| < 100 ∧
      0 < (stepRow m dt r).position.z ∧ (stepRow m dt r).position.z < 200 ∧
      (r.grounded = false → 0.1 ≤ (stepRow m dt r).position.y) := by
    intro r
    refine ⟨?_, ?_, ?_, ?_⟩
    · rw [stepRow_position_x]; exact reflectX_fst_bound _ _
    · rw [stepRow_position_z]; exact (reflectZ_fst_bound _ _).1
    · rw [stepRow_position_z]; exact (reflectZ_fst_bound _ _).2
    · intro hair
      rw [stepRow_airborne_position_y m dt r hair]
      exact groundContact_fst_bound _ _ _ _
  refine ⟨hrow, ?_⟩
  intro s j h0 h1
  rw [integrate_rowAt_live m dt s j h0 h1]
  exact hrow (s.rowAt j)

/-- Witness of C17: an airborne particle outside every bound, at `(150, -3, 250)`, is
inside them after a step of `dt = 1`. -/
theorem containment_witness :
    ((uniformStore 1 ⟨150, -3, 250⟩ ⟨1, 1, 1⟩ (fun _ => false) : Store ℝ).rowAt 0).grounded
        = false ∧
      |(stepRow ⟨Real.sqrt, Real.sin, Real.cos, Real.arctan⟩ 1
        ((uniformStore 1 ⟨150, -3, 250⟩ ⟨1, 1, 1⟩ (fun _ => false) : Store ℝ).rowAt 0)
        ).position.x| < 100 ∧
      0 < (stepRow ⟨Real.sqrt, Real.sin, Real.cos, Real.arctan⟩ 1
        ((uniformStore 1 ⟨150, -3, 250⟩ ⟨1, 1, 1⟩ (fun _ => false) : Store ℝ).rowAt 0)
        ).position.z ∧
      (stepRow ⟨Real.sqrt, Real.sin, Real.cos, Real.arctan⟩ 1
        ((uniformStore 1 ⟨150, -3, 250⟩ ⟨1, 1, 1⟩ (fun _ => false) : Store ℝ).rowAt 0)
        ).position.z < 200 ∧
      0.1 ≤ (stepRow ⟨Real.sqrt, Real.sin, Real.cos, Real.arctan⟩ 1
        ((uniformStore 1 ⟨150, -3, 250⟩ ⟨1, 1, 1⟩ (fun _ => false) : Store ℝ).rowAt 0)
        ).position.y :=
  have h := (containment (F := ℝ) ⟨Real.sqrt, Real.sin, Real.cos, Real.arctan⟩ 1).1
    ((uniformStore 1 ⟨150, -3, 250⟩ ⟨1, 1, 1⟩ (fun _ => false) : Store ℝ).rowAt 0)
  ⟨rfl, h.1, h.2.1, h.2.2.1, h.2.2.2 rfl⟩

/-! ## Theorems: free flight of an airborne particle -/

theorem toDouble_tiny_sub_hundred [LinearOrderedField F] [FloorRing F] :
    toDouble ((2 : F) ^ (-60 : Int) - 100) = -100 := by
  unfold toDouble
  rw [roundTo_eq_of_bracket 53 (-1022) 6 _ (by rw [abs_of_neg (by norm_num)]; norm_num)
    (by rw [abs_of_neg (by norm_num)]; norm_num)]
  rw [roundHalfEven_eq_of_near (-100 * 2 ^ 46)]
  · norm_num
  · norm_num [abs_lt]

theorem stepRow_grounded_keeps [LinearOrderedField F] [FloorRing F]
    (m : Libm F) (dt : F) (r : Row F)
    (hgr : r.grounded = true) :
    (stepRow m dt r).grounded = true ∧ (stepRow m dt r).position.y = r.position.y := by
  rw [stepRow_grounded m dt r hgr]
  exact ⟨hgr, rfl⟩

theorem stepRows_grounded_keeps [LinearOrderedField F] [FloorRing F] (m : Libm F) (dts : List F)
    (r : Row F) (hgr : r.grounded = true) :
    (stepRows m dts r).grounded = true ∧ (stepRows m dts r).position.y = r.position.y := by
  induction dts generalizing r with
  | nil => exact ⟨hgr, rfl⟩
  | cons dt dts ih =>
    obtain ⟨h1, h2⟩ := stepRow_grounded_keeps m dt r hgr
    obtain ⟨h3, h4⟩ := ih (stepRow m dt r) h1
    exact ⟨h3, by rw [stepRows, h4, h2]⟩

/-- C15: for a particle with `grounded == true` and any `dt`, one step of the update leaves
`grounded == true` and `position.y` unchanged; hence after any number of steps, of any time
steps, the particle is still grounded and at the same height. -/
theorem grounded_is_permanent [LinearOrderedField F] [FloorRing F] (m : Libm F) (r : Row F)
    (hgr : r.grounded = true) :
    (∀ dt : F, (stepRow m dt r).grounded = true ∧
        (stepRow m dt r).position.y = r.position.y) ∧
      (∀ dts : List F, (stepRows m dts r).grounded = true ∧
        (stepRows m dts r).position.y = r.position.y) :=
  ⟨fun dt => stepRow_grounded_keeps m dt r hgr,
    fun dts => stepRows_grounded_keeps m dts r hgr⟩

/-- Witness of C15: a grounded particle moving at `(3, 0, -4)`, after the steps
`dt = 1, 1/2, 2`. -/
theorem grounded_is_permanent_witness :
    ((uniformStore 1 ⟨0, 0.1, 100⟩ ⟨3, 0, -4⟩ (fun _ => true) : Store ℝ).rowAt 0).grounded
        = true ∧
      (stepRows ⟨Real.sqrt, Real.sin, Real.cos, Real.arctan⟩ [1, 1 / 2, 2]
        ((uniformStore 1 ⟨0, 0.1, 100⟩ ⟨3, 0, -4⟩ (fun _ => true) : Store ℝ).rowAt 0)
        ).grounded = true ∧
      (stepRows ⟨Real.sqrt, Real.sin, Real.cos, Real.arctan⟩ [1, 1 / 2, 2]
        ((uniformStore 1 ⟨0, 0.1, 100⟩ ⟨3, 0, -4⟩ (fun _ => true) : Store ℝ).rowAt 0)
        ).position.y = 0.1 :=
  ⟨rfl,
    ((grounded_is_permanent (F := ℝ) ⟨Real.sqrt, Real.sin, Real.cos, Real.arctan⟩
      ((uniformStore 1 ⟨0, 0.1, 100⟩ ⟨3, 0, -4⟩ (fun _ => true) : Store ℝ).rowAt 0) rfl).2
      [1, 1 / 2, 2]).1,
    ((grounded_is_permanent (F := ℝ) ⟨Real.sqrt, Real.sin, Real.cos, Real.arctan⟩
      ((uniformStore 1 ⟨0, 0.1, 100⟩ ⟨3, 0, -4⟩ (fun _ => true) : Store ℝ).rowAt 0) rfl).2
      [1, 1 / 2, 2]).2⟩

theorem stepRow_grounded_velocity [LinearOrderedField F] [FloorRing F]
    (m : Libm F) (dt : F) (r : Row F)
    (hgr : r.grounded = true) :
    (stepRow m dt r).velocity =
      if m.sqrt
          (friction dt (reflectX (r.position.x + r.velocity.x * dt) r.velocity.x).2 *
              friction dt (reflectX (r.position.x + r.velocity.x * dt) r.velocity.x).2 +
            friction dt (reflectZ (r.position.z + r.velocity.z * dt) r.velocity.z).2 *
              friction dt (reflectZ (r.position.z + r.velocity.z * dt) r.velocity.z).2)
          < dt
      then ⟨0, 0, 0⟩
      else ⟨friction dt (reflectX (r.position.x + r.velocity.x * dt) r.velocity.x).2,
        r.velocity.y,
        friction dt (reflectZ (r.position.z + r.velocity.z * dt) r.velocity.z).2⟩ := by
  rw [stepRow_grounded m dt r hgr]
  rfl

theorem friction_of_zero [LinearOrderedField F] [FloorRing F]
    (dt : F) : friction dt (0 : F) = 0 := by
  simp [friction, sgn_zero]

theorem stepRow_at_rest [LinearOrderedField F] [FloorRing F] (m : Libm F) (dt : F) (r : Row F)
    (hgr : r.grounded = true) (hv : r.velocity = ⟨0, 0, 0⟩)
    (hx : |r.position.x| < 100) (hz : |toDouble (r.position.z - 100)| < 100) :
    (stepRow m dt r).position = r.position ∧ (stepRow m dt r).velocity = ⟨0, 0, 0⟩ ∧
      (stepRow m dt r).grounded = true := by
  have hvx : r.velocity.x = 0 := by rw [hv]
  have hvy : r.velocity.y = 0 := by rw [hv]
  have hvz : r.velocity.z = 0 := by rw [hv]
  have hx' : |r.position.x + r.velocity.x * dt| < 100 := by
    rw [hvx, zero_mul, add_zero]; exact hx
  have hz' : |toDouble (r.position.z + r.velocity.z * dt - 100)| < 100 := by
    rw [hvz, zero_mul, add_zero]; exact hz
  refine ⟨?_, ?_, (stepRow_grounded_keeps m dt r hgr).1⟩
  · have hX := stepRow_position_x m dt r
    have hZ := stepRow_position_z m dt r
    have hY := (stepRow_grounded_keeps m dt r hgr).2
    rw [reflectX_of_inside _ _ hx', hvx, zero_mul, add_zero] at hX
    rw [reflectZ_of_inside _ _ hz', hvz, zero_mul, add_zero] at hZ
    exact Vec3f.ext hX hY hZ
  · rw [stepRow_grounded_velocity m dt r hgr, reflectX_of_inside _ _ hx',
      reflectZ_of_inside _ _ hz']
    simp only [hvx, hvy, hvz, friction_of_zero]
    split_ifs <;> rfl

theorem stepRows_at_rest [LinearOrderedField F] [FloorRing F]
    (m : Libm F) (dts : List F) (r : Row F)
    (hgr : r.grounded = true) (hv : r.velocity = ⟨0, 0, 0⟩)
    (hx : |r.position.x| < 100) (hz : |toDouble (r.position.z - 100)| < 100) :
    (stepRows m dts r).position = r.position ∧ (stepRows m dts r).velocity = ⟨0, 0, 0⟩ ∧
      (stepRows m dts r).grounded = true := by
  induction dts generalizing r with
  | nil => exact ⟨rfl, hv, hgr⟩
  | cons dt dts ih =>
    obtain ⟨h1, h2, h3⟩ := stepRow_at_rest m dt r hgr hv hx hz
    obtain ⟨h4, h5, h6⟩ := ih (stepRow m dt r) h3 h2 (by rw [h1]; exact hx)
      (by rw [h1]; exact hz)
    exact ⟨by rw [stepRows, h4, h1], h5, h6⟩

/-- C16 (as stated, fails on the code): a grounded particle at rest at `(0, 0.1, 2^-60)` is
strictly inside the X and Z bounds, but the `double` value of `z - 100.0` is `-100`, so the
Z check of the next step fires and moves it to `z = 199.9`: it does not keep its
position. -/
theorem resting_tiny_z_is_moved :
    |(0 : ℝ)| < 100 ∧ |(2 : ℝ) ^ (-60 : Int) - 100| < 100 ∧
      (stepRows ⟨Real.sqrt, Real.sin, Real.cos, Real.arctan⟩ [(1 : ℝ)]
        ⟨⟨0, 0.1, (2 : ℝ) ^ (-60 : Int)⟩, ⟨0, 0, 0⟩, ⟨0, 0, 0, 0⟩, ⟨0, 0, 0, 0⟩,
          0, 0, 0, 0, 0, 0, 1, true⟩).position.z = 199.9 ∧
      (stepRows ⟨Real.sqrt, Real.sin, Real.cos, Real.arctan⟩ [(1 : ℝ)]
        ⟨⟨0, 0.1, (2 : ℝ) ^ (-60 : Int)⟩, ⟨0, 0, 0⟩, ⟨0, 0, 0, 0⟩, ⟨0, 0, 0, 0⟩,
          0, 0, 0, 0, 0, 0, 1, true⟩).position.z ≠ (2 : ℝ) ^ (-60 : Int) := by
  have hz : (2 : ℝ) ^ (-60 : Int) + 0 * 1 = (2 : ℝ) ^ (-60 : Int) := by ring
  have hpos : (0 : ℝ) < (2 : ℝ) ^ (-60 : Int) := two_zpow_pos _
  have hlt : (2 : ℝ) ^ (-60 : Int) < 1 := by norm_num
  have hfire : |toDouble ((2 : ℝ) ^ (-60 : Int) + 0 * 1 - 100)| ≥ 100 := by
    rw [hz, toDouble_tiny_sub_hundred]; norm_num
  have hreflect := reflectZ_of_outside ((2 : ℝ) ^ (-60 : Int) + 0 * 1) (0 : ℝ) hfire
  rw [hz, sgn_of_pos _ hpos] at hreflect
  have hZ : (stepRows ⟨Real.sqrt, Real.sin, Real.cos, Real.arctan⟩ [(1 : ℝ)]
      ⟨⟨0, 0.1, (2 : ℝ) ^ (-60 : Int)⟩, ⟨0, 0, 0⟩, ⟨0, 0, 0, 0⟩, ⟨0, 0, 0, 0⟩,
        0, 0, 0, 0, 0, 0, 1, true⟩).position.z = 199.9 := by
    rw [stepRows, stepRows, stepRow_position_z]
    simp only [hz, hreflect]
    norm_num
  refine ⟨by norm_num, ?_, hZ, ?_⟩
  · rw [abs_lt]
    constructor <;> linarith
  · rw [hZ]
    intro hc
    rw [← hc] at hlt
    norm_num at hlt

/-- C16 (amended): for a grounded particle and any `dt`, if the horizontal speed
`sqrt(vx^2 + vz^2)` of the velocity left by the friction update is below `dt`, the step
ends with velocity `(0, 0, 0)`; and a grounded particle with zero velocity on which no
reflection check fires, that is with `|x| < 100` and the `double` value of `z - 100.0` of
magnitude below `100`, keeps its position, its zero velocity and its grounded flag through
any number of further steps, of any time steps. -/
theorem rest_is_terminal [LinearOrderedField F] [FloorRing F] (m : Libm F) :
    (∀ (dt : F) (r : Row F), r.grounded = true →
        m.sqrt
          (friction dt (reflectX (r.position.x + r.velocity.x * dt) r.velocity.x).2 *
              friction dt (reflectX (r.position.x + r.velocity.x * dt) r.velocity.x).2 +
            friction dt (reflectZ (r.position.z + r.velocity.z * dt) r.velocity.z).2 *
              friction dt (reflectZ (r.position.z + r.velocity.z * dt) r.velocity.z).2)
          < dt →
        (stepRow m dt r).velocity = ⟨0, 0, 0⟩) ∧
      (∀ r : Row F, r.grounded = true → r.velocity = ⟨0, 0, 0⟩ →
        |r.position.x| < 100 → |toDouble (r.position.z - 100)| < 100 →
        ∀ dts : List F, (stepRows m dts r).position = r.position ∧
          (stepRows m dts r).velocity = ⟨0, 0, 0⟩ ∧ (stepRows m dts r).grounded = true) := by
  constructor
  · intro dt r hgr hslow
    rw [stepRow_grounded_velocity m dt r hgr, if_pos hslow]
  · intro r hgr hv hx hz dts
    exact stepRows_at_rest m dts r hgr hv hx hz

/-- Witness of C16: a grounded particle with `vx = 1.5` is brought to rest by a step of
`dt = 1` (the friction update leaves `vx = -0.5`, of magnitude below `dt`), and a grounded
particle at rest at `(5, 0.1, 50)` stays as it is through the steps `dt = 1, 1/2, 2`. -/
theorem rest_is_terminal_witness :
    (Real.sqrt
        (friction (1 : ℝ) (reflectX ((0 : ℝ) + 1.5 * 1) 1.5).2 *
            friction (1 : ℝ) (reflectX ((0 : ℝ) + 1.5 * 1) 1.5).2 +
          friction (1 : ℝ) (reflectZ ((100 : ℝ) + 0 * 1) 0).2 *
            friction (1 : ℝ) (reflectZ ((100 : ℝ) + 0 * 1) 0).2) < 1 ∧
      (stepRow ⟨Real.sqrt, Real.sin, Real.cos, Real.arctan⟩ (1 : ℝ)
        ⟨⟨0, 0.1, 100⟩, ⟨1.5, 0, 0⟩, ⟨0, 0, 0, 0⟩, ⟨0, 0, 0, 0⟩, 0, 0, 0, 0, 0, 0, 1, true⟩
        ).velocity = ⟨0, 0, 0⟩) ∧
      (|(5 : ℝ)| < 100 ∧ |toDouble ((50 : ℝ) - 100)| < 100 ∧
        (stepRows ⟨Real.sqrt, Real.sin, Real.cos, Real.arctan⟩ [(1 : ℝ), 1 / 2, 2]
          ⟨⟨5, 0.1, 50⟩, ⟨0, 0, 0⟩, ⟨0, 0, 0, 0⟩, ⟨0, 0, 0, 0⟩, 0, 0, 0, 0, 0, 0, 1, true⟩
          ).position = ⟨5, 0.1, 50⟩ ∧
        (stepRows ⟨Real.sqrt, Real.sin, Real.cos, Real.arctan⟩ [(1 : ℝ), 1 / 2, 2]
          ⟨⟨5, 0.1, 50⟩, ⟨0, 0, 0⟩, ⟨0, 0, 0, 0⟩, ⟨0, 0, 0, 0⟩, 0, 0, 0, 0, 0, 0, 1, true⟩
          ).velocity = ⟨0, 0, 0⟩) := by
  have hxin : |(0 : ℝ) + 1.5 * 1| < 100 := by norm_num [abs_of_pos]
  have hzin : |toDouble ((100 : ℝ) + 0 * 1 - 100)| < 100 := by
    have e : (100 : ℝ) + 0 * 1 - 100 = ((0 : Int) : ℝ) := by norm_num
    rw [e]
    exact abs_toDouble_intCast_lt 0 (by norm_num)
  have hfx : friction (1 : ℝ) 1.5 = -0.5 := by
    rw [friction, sgn_of_pos _ (by norm_num)]; norm_num
  have hslow : Real.sqrt
      (friction (1 : ℝ) (reflectX ((0 : ℝ) + 1.5 * 1) 1.5).2 *
          friction (1 : ℝ) (reflectX ((0 : ℝ) + 1.5 * 1) 1.5).2 +
        friction (1 : ℝ) (reflectZ ((100 : ℝ) + 0 * 1) 0).2 *
          friction (1 : ℝ) (reflectZ ((100 : ℝ) + 0 * 1) 0).2) < 1 := by
    rw [reflectX_of_inside _ _ hxin, reflectZ_of_inside _ _ hzin]
    simp only [hfx, friction_of_zero]
    rw [Real.sqrt_lt' one_pos]
    norm_num
  have h5 : |(5 : ℝ)| < 100 := by norm_num [abs_of_pos]
  have h50 : |toDouble ((50 : ℝ) - 100)| < 100 := by
    have e : (50 : ℝ) - 100 = ((-50 : Int) : ℝ) := by norm_num
    rw [e]
    exact abs_toDouble_intCast_lt (-50) (by norm_num)
  have hrest := (rest_is_terminal (F := ℝ) ⟨Real.sqrt, Real.sin, Real.cos, Real.arctan⟩).2
    ⟨⟨5, 0.1, 50⟩, ⟨0, 0, 0⟩, ⟨0, 0, 0, 0⟩, ⟨0, 0, 0, 0⟩, 0, 0, 0, 0, 0, 0, 1, true⟩
    rfl rfl h5 h50 [(1 : ℝ), 1 / 2, 2]
  exact ⟨⟨hslow,
    (rest_is_terminal (F := ℝ) ⟨Real.sqrt, Real.sin, Real.cos, Real.arctan⟩).1 1
      ⟨⟨0, 0.1, 100⟩, ⟨1.5, 0, 0⟩, ⟨0, 0, 0, 0⟩, ⟨0, 0, 0, 0⟩, 0, 0, 0, 0, 0, 0, 1, true⟩
      rfl hslow⟩,
    h5, h50, hrest.1, hrest.2.1⟩

/-! ## Theorems: friction -/

theorem frameUploads_entries (sizeofFloat sizeofVec3f : Int) (paused : Bool)
    (numParticles : Int) (u : BufferSubData)
    (hu : u ∈ frameUploads sizeofFloat sizeofVec3f paused numParticles) :
    u.offset = 0 ∧ u.size = sizeofEntry sizeofFloat sizeofVec3f u.buffer * numParticles := by
  unfold frameUploads at hu
  cases paused with
  | true => simp at hu
  | false =>
    simp only [Bool.false_eq_true, if_false, List.mem_cons, List.mem_singleton] at hu
    have hnil : u ∉ ([] : List BufferSubData) := List.not_mem_nil u
    rcases hu with h | h | h | h | h | h
    · subst h; exact ⟨rfl, rfl⟩
    · subst h; exact ⟨rfl, rfl⟩
    · subst h; exact ⟨rfl, rfl⟩
    · subst h; exact ⟨rfl, rfl⟩
    · subst h; exact ⟨rfl, rfl⟩
    · exact absurd h hnil

theorem sizeofEntry_pos (sizeofFloat sizeofVec3f : Int) (hf : 0 < sizeofFloat)
    (hv : 0 < sizeofVec3f) (b : Buffer) : 0 < sizeofEntry sizeofFloat sizeofVec3f b := by
  cases b <;> simp only [sizeofEntry] <;> omega

theorem covers_iff (e n : Int) (he : 0 < e) (u : BufferSubData) (h0 : u.offset = 0)
    (hs : u.size = e * n) (k : Int) : u.covers e k ↔ 0 ≤ k ∧ k < n := by
  unfold BufferSubData.covers
  rw [h0, hs, zero_add]
  constructor
  · rintro ⟨h1, h2⟩
    constructor
    · by_contra hk
      have : e * k < 0 := mul_neg_of_pos_of_neg he (by omega)
      omega
    · have := le_of_mul_le_mul_left h2 he
      omega
  · rintro ⟨h1, h2⟩
    exact ⟨mul_nonneg he.le h1, mul_le_mul_of_nonneg_left (by omega) he.le⟩

/-- Supporting fact for C11: with entries of positive size, each upload of a frame starts
at offset `0` and covers exactly the entries `[0, numParticles)` of its attribute array. -/
theorem frame_uploads_cover (sizeofFloat sizeofVec3f : Int) (paused : Bool)
    (numParticles : Int) (hf : 0 < sizeofFloat) (hv : 0 < sizeofVec3f) :
    ∀ u ∈ frameUploads sizeofFloat sizeofVec3f paused numParticles,
      u.offset = 0 ∧
        u.size = sizeofEntry sizeofFloat sizeofVec3f u.buffer * numParticles ∧
        ∀ k : Int, u.covers (sizeofEntry sizeofFloat sizeofVec3f u.buffer) k ↔
          0 ≤ k ∧ k < numParticles := by
  intro u hu
  obtain ⟨ho, hs⟩ := frameUploads_entries sizeofFloat sizeofVec3f paused numParticles u hu
  exact ⟨ho, hs, fun k => covers_iff _ _ (sizeofEntry_pos _ _ hf hv u.buffer) u ho hs k⟩

/-- Supporting fact for C11: when `numParticles > 1` the last draw call of the frame, for
the translucent particles, is `glDrawArrays(GL_POINTS, 1, numParticles)` and reads vertex
index `numParticles`, which no upload of the frame covers. -/
theorem translucent_draw_reads_index_numParticles (numParticles : Int)
    (h : 1 < numParticles) :
    (⟨DrawMode.GL_POINTS, 1, numParticles⟩ : DrawArrays) ∈ frameDraws numParticles ∧
      (⟨DrawMode.GL_POINTS, 1, numParticles⟩ : DrawArrays).reads numParticles := by
  constructor
  · simp [frameDraws, h]
  · simp only [DrawArrays.reads]
    omega

/-- Supporting fact for C11: every `GL_POINTS` draw of a frame reads only index `0` and
indices up to and including `numParticles`; the index `numParticles` itself is read only
when `numParticles > 1`, by the draw of the translucent particles. -/
theorem point_draws_read_at_most_numParticles (numParticles : Int) :
    ∀ d ∈ frameDraws numParticles, d.mode = DrawMode.GL_POINTS →
      ∀ v : Int, d.reads v → 0 ≤ v ∧ (v = 0 ∨ v ≤ numParticles) ∧
        (v = numParticles → v = 0 ∨ 1 < numParticles) := by
  intro d hd hmode v hv
  unfold frameDraws at hd
  rw [List.mem_append] at hd
  rcases hd with hd | hd
  · simp only [List.mem_cons, List.mem_singleton] at hd
    have hnil : d ∉ ([] : List DrawArrays) := List.not_mem_nil d
    rcases hd with h | h | h | h
    · subst h
      simp only [DrawArrays.reads] at hv
      exact ⟨by omega, Or.inl (by omega), fun _ => Or.inl (by omega)⟩
    · subst h
      simp at hmode
    · subst h
      simp only [DrawArrays.reads] at hv
      exact ⟨by omega, Or.inr (by omega), fun hc => by omega⟩
    · exact absurd h hnil
  · by_cases hn : numParticles > 1
    · rw [if_pos hn, List.mem_singleton] at hd
      subst hd
      simp only [DrawArrays.reads] at hv
      exact ⟨by omega, Or.inr (by omega), fun _ => Or.inr hn⟩
    · rw [if_neg hn] at hd
      exact absurd hd (List.not_mem_nil d)

/-- C11 (fails on the code): with `numParticles == MAXPARTICLES`, the value `main` sets
before the frame loop, the last draw call of every frame is
`glDrawArrays(GL_POINTS, 1, MAXPARTICLES)`: a `GL_POINTS` draw that reads vertex index
`MAXPARTICLES`, which is not below `numParticles` and is the first vertex of the ground
mesh, drawn by `glDrawArrays(GL_TRIANGLE_FAN, MAXPARTICLES, 4)`. -/
theorem translucent_draw_reads_ground_mesh :
    (⟨DrawMode.GL_POINTS, 1, MAXPARTICLES⟩ : DrawArrays) ∈ frameDraws MAXPARTICLES ∧
      (⟨DrawMode.GL_POINTS, 1, MAXPARTICLES⟩ : DrawArrays).reads MAXPARTICLES ∧
      (⟨DrawMode.GL_TRIANGLE_FAN, MAXPARTICLES, 4⟩ : DrawArrays) ∈ frameDraws MAXPARTICLES ∧
      (⟨DrawMode.GL_TRIANGLE_FAN, MAXPARTICLES, 4⟩ : DrawArrays).reads MAXPARTICLES ∧
      ¬ (∀ d ∈ frameDraws MAXPARTICLES, d.mode = DrawMode.GL_POINTS →
          ∀ v : Int, d.reads v → v < MAXPARTICLES) := by
  have hmem : (⟨DrawMode.GL_POINTS, 1, MAXPARTICLES⟩ : DrawArrays) ∈
      frameDraws MAXPARTICLES := by
    simp [frameDraws, MAXPARTICLES]
  have hreads : (⟨DrawMode.GL_POINTS, 1, MAXPARTICLES⟩ : DrawArrays).reads MAXPARTICLES := by
    simp [DrawArrays.reads, MAXPARTICLES]
  refine ⟨hmem, hreads, by simp [frameDraws], by simp [DrawArrays.reads], ?_⟩
  intro hall
  exact absurd (hall _ hmem rfl MAXPARTICLES hreads) (lt_irrefl _)

/-! ## Theorems: `Mat4x4::make_scale` -/

/-- Supporting fact for C18: the entries `make_scale(x, y, z)` leaves: `m[0] == x`,
`m[5] == y`, `m[15] == 1`, but `m[10] == x`; every other entry is `0`. -/
theorem make_scale_entries [LinearOrderedField F] [FloorRing F] (self : Mat4x4 F) (x y z : F) :
    (self.make_scale x y z).m 0 = x ∧ (self.make_scale x y z).m 5 = y ∧
      (self.make_scale x y z).m 10 = x ∧ (self.make_scale x y z).m 15 = 1 ∧
      (∀ i : Fin 16, i ≠ 0 → i ≠ 5 → i ≠ 10 → i ≠ 15 → (self.make_scale x y z).m i = 0) := by
  refine ⟨?_, ?_, ?_, ?_, ?_⟩
  · simp [Mat4x4.make_scale, Function.update]
  · simp [Mat4x4.make_scale, Function.update]
  · simp [Mat4x4.make_scale, Function.update]
  · simp [Mat4x4.make_scale, Mat4x4.make_identity, Function.update]
  · intro i h0 h5 h10 h15
    simp [Mat4x4.make_scale, Mat4x4.make_identity, Function.update, h0, h5, h10, h15]

/-- C18 (fails on the code): `make_scale(1, 1, 2)` leaves `m[10] == 1`, the value of `x`,
not `z = 2`, so the product with `(0, 0, 1)` has third component `1` where
`diag(1, 1, 2, 1)` gives `2`. -/
theorem make_scale_ignores_z :
    ((⟨fun _ => 0⟩ : Mat4x4 ℚ).make_scale 1 1 2).m 10 = 1 ∧
      ((⟨fun _ => 0⟩ : Mat4x4 ℚ).make_scale 1 1 2).m 10 ≠ 2 ∧
      (((⟨fun _ => 0⟩ : Mat4x4 ℚ).make_scale 1 1 2).mulVec ⟨0, 0, 1⟩).z = 1 ∧
      (((⟨fun _ => 0⟩ : Mat4x4 ℚ).make_scale 1 1 2).mulVec ⟨0, 0, 1⟩).z ≠ 2 * 1 := by
  have h10 : ((⟨fun _ => 0⟩ : Mat4x4 ℚ).make_scale 1 1 2).m 10 = 1 :=
    (make_scale_entries _ 1 1 2).2.2.1
  have hz : (((⟨fun _ => 0⟩ : Mat4x4 ℚ).make_scale 1 1 2).mulVec ⟨0, 0, 1⟩).z = 1 := by
    simp only [Mat4x4.mulVec, h10]
    norm_num
  refine ⟨h10, by rw [h10]; norm_num, hz, by rw [hz]; norm_num⟩

end ParticleGallery
